import Mathlib

/-!
# gff3anno: the GFF3 parser, its record store and its query engine

A shallow embedding of `3rdparty/gffparser` (gffparser.h, gffparser.cpp) and
theorems about it.

Conventions of the embedding
* `std::string` is a list of characters (`Str`); a `char` is a `Char`.
* `uint64_t` is a `Nat` below `2 ^ 64`; conversions into it reduce modulo `2 ^ 64`.
  `int64_t`, `long` and `long long` are an `Int` in `[-2 ^ 63, 2 ^ 63)`.
* `double` is its IEEE-754 bit pattern; `std::stod` is a parameter `stod` of every
  function that reaches it (`none` when it throws).
* `std::unordered_map<std::string, V>` is an association list with distinct keys;
  the order of its entries is never observed.
* A `gff_data_t*` held by an index or returned by a query is the position of the
  record in the store `_data`.
* A function with an in/out `std::string &error` takes the old value and returns
  the new one next to its result.
* A container size and the line counter `_linenum` are a `Nat`: no run feeds
  `2 ^ 64` lines.
-/

namespace gffparser

/-- The type std::string. -/
abbrev Str := List Char

/-! ## The C library -/

/-- The function std::isspace in the C locale. -/
def isspace (c : Char) : Bool :=
  c = ' ' || c = '\t' || c = '\n' || c = Char.ofNat 11 || c = Char.ofNat 12 || c = '\r'

/-- The function std::isdigit. -/
def isdigit (c : Char) : Bool :=
  decide ('0'.toNat ≤ c.toNat ∧ c.toNat ≤ '9'.toNat)

/-- The function std::to_string on an unsigned integer. -/
def to_string (n : Nat) : Str := Nat.toDigits 10 n

/-- The value of a run of decimal digits. -/
def digits_value (ds : Str) : Nat :=
  ds.foldl (fun acc c => acc * 10 + (c.toNat - '0'.toNat)) 0

/-- The function strtoll in base 10, as std::stoll, std::stol (64-bit long) use
it: leading whitespace is skipped, one sign is read, then the longest run of
digits; what follows the digits is ignored. `none` stands for the exception
(std::invalid_argument when there is no digit, std::out_of_range when the value
does not fit a signed 64-bit integer). -/
def stoll (str : Str) : Option Int :=
  let s1 := str.dropWhile isspace
  let neg := s1.head? = some '-'
  let s2 := if s1.head? = some '-' ∨ s1.head? = some '+' then s1.tail else s1
  let ds := s2.takeWhile isdigit
  if ds = [] then none
  else
    let v : Int := if neg then -(digits_value ds : Int) else (digits_value ds : Int)
    if v < -(2 : Int) ^ 63 ∨ (2 : Int) ^ 63 ≤ v then none else some v

/-- The function std::stol; long is 64 bits wide. -/
def stol (str : Str) : Option Int := stoll str

/-- The function std::stoi: strtol, then the value must fit an int. -/
def stoi (str : Str) : Option Int :=
  match stoll str with
  | none => none
  | some v => if v < -(2 : Int) ^ 31 ∨ (2 : Int) ^ 31 ≤ v then none else some v

/-- A double, held as its IEEE-754 binary64 bit pattern. -/
structure double where
  bits : Nat
  deriving DecidableEq, Repr

/-- Whether the pattern is a NaN: exponent all ones, fraction not zero. -/
def double.isnan (d : double) : Bool :=
  (d.bits / 2 ^ 52) % 2 ^ 11 = 2 ^ 11 - 1 && d.bits % 2 ^ 52 ≠ 0

/-- The operator == of double: a NaN equals nothing, the two zeros are equal,
any other two values are equal when their patterns are. -/
def double.eq (a b : double) : Bool :=
  !a.isnan && !b.isnan &&
    (a.bits % 2 ^ 64 = b.bits % 2 ^ 64 || (a.bits % 2 ^ 63 = 0 && b.bits % 2 ^ 63 = 0))

/-- The constant std::numeric_limits<double>::max(). -/
def DBL_MAX : double := ⟨0x7FEFFFFFFFFFFFFF⟩

/-- A stand-in for the `stod` parameter on concrete inputs whose evaluation never
reaches a call of std::stod (the score column is a missing token and no
attribute value is made of digits and one dot): it converts nothing. -/
def stod_unreached : Str → Option double := fun _ => none

/-! ## utils -/

namespace utils

/-- The function utils::check_no_data. -/
def check_no_data (str : Str) : Bool :=
  str = [] || str = ".".toList || str = "na".toList || str = "NA".toList ||
    str = "N/A".toList || str = "n/a".toList

/-- The while loop of utils::get_fields with csv_string_format = false, the only
mode gffparser.cpp calls it in. The scan of `line.find(delim, prev)` and the
loop are one recursion over the text still to read; `part` is the text read
since `prev`. Returns what is left after the last delimiter
(`line.substr(prev)`), `delim_cnt` and `r`. -/
def get_fields_loop (delim : Char) : Str → Str → Nat → List Str → Str × Nat × List Str
  | [], part, delim_cnt, r => (part, delim_cnt, r)
  | c :: cs, part, delim_cnt, r =>
    if c = delim then get_fields_loop delim cs [] (delim_cnt + 1) (r ++ [part])
    else get_fields_loop delim cs (part ++ [c]) delim_cnt r

/-- The function utils::get_fields(line, delim, false). -/
def get_fields (line : Str) (delim : Char) : List Str :=
  match get_fields_loop delim line [] 0 [] with
  | (last, delim_cnt, r) =>
    if last ≠ [] then r ++ [last]           -- prev != line.length()
    else if delim_cnt = r.length then r ++ [[]]
    else r

/-- The function utils::trim. `s` is the offset of the first non-space character
and `e` the number of trailing space characters; each falls back to 0 (begin(),
rbegin()) when the search reaches the end. -/
def trim (str : Str) : Str :=
  let s := (str.takeWhile isspace).length
  let s := if s = str.length then 0 else s
  let e := (str.reverse.takeWhile isspace).length
  let e := if e = str.length then 0 else e
  (str.take (str.length - e)).drop s

end utils

/-! ## gff_attr_t, gff_attribute_t, gff_postition_t, gff_data_t -/

/-- The type gff_attr_t: a std::variant<std::string, int64_t, double>. -/
inductive gff_attr_t where
  | string (val : Str)
  | integer (val : Int)
  | float (val : double)
  deriving DecidableEq, Repr

/-- The default constructor gff_attr_t(): the variant holds its first
alternative, an empty string. -/
def gff_attr_t.default : gff_attr_t := .string []

/-- The function gff_attr_t::eq, the operator == of the variant: same
alternative and equal payloads. -/
def gff_attr_t.eq : gff_attr_t → gff_attr_t → Bool
  | .string a, .string b => a = b
  | .integer a, .integer b => a = b
  | .float a, .float b => a.eq b
  | _, _ => false

/-- The type gff_attribute_t: an attribute query. -/
structure gff_attribute_t where
  name : Str
  value : gff_attr_t := gff_attr_t.default
  orvalues : List gff_attr_t := []
  deriving DecidableEq, Repr

/-- The type gff_postition_t. -/
structure gff_postition_t where
  seqid : Str := []
  start : Nat := 0
  end_ : Nat := 0
  deriving DecidableEq, Repr

namespace gff_postition_t

/-- The function gff_postition_t::empty. -/
def empty (p : gff_postition_t) : Bool := p.seqid = []

/-- The function gff_postition_t::singlepos. -/
def singlepos (p : gff_postition_t) : Bool := p.start = p.end_

/-- The function gff_postition_t::in(pos). -/
def in_ (p : gff_postition_t) (pos : Nat) : Bool := p.start ≤ pos && p.end_ ≥ pos

/-- The function gff_postition_t::in(sid, pos). -/
def in_sid (p : gff_postition_t) (sid : Str) (pos : Nat) : Bool :=
  p.seqid = sid && p.start ≤ pos && p.end_ ≥ pos

/-- The function gff_postition_t::intersect(spos, epos). -/
def intersect (p : gff_postition_t) (spos epos : Nat) : Bool :=
  max spos p.start ≤ min epos p.end_

/-- The function gff_postition_t::intersect(sid, spos, epos). -/
def intersect_sid (p : gff_postition_t) (sid : Str) (spos epos : Nat) : Bool :=
  p.seqid = sid && max spos p.start ≤ min epos p.end_

end gff_postition_t

/-- Lookup in a std::unordered_map<std::string, V>: `find`. -/
def umap_find {V : Type} (m : List (Str × V)) (k : Str) : Option V :=
  match m with
  | [] => none
  | (k', v) :: rest => if k' = k then some v else umap_find rest k

/-- Assignment `m[k] = v` in a std::unordered_map<std::string, V>: the entry of
an existing key is overwritten, a new key gets a new entry. -/
def umap_assign {V : Type} (m : List (Str × V)) (k : Str) (v : V) : List (Str × V) :=
  match m with
  | [] => [(k, v)]
  | (k', v') :: rest => if k' = k then (k, v) :: rest else (k', v') :: umap_assign rest k v

/-- The static member gff_data_t::d_nodata, the score of a record that has none. -/
def gff_data_t.d_nodata : double := DBL_MAX

/-- The type gff_data_t; the defaults are those of `gff_data_t()`. -/
structure gff_data_t where
  source : Str := []
  type : Str := []
  position : gff_postition_t := {}
  score : double := gff_data_t.d_nodata
  strand : Char := Char.ofNat 0
  phase : Char := Char.ofNat 0
  linenum : Nat := 0
  attributes : List (Str × gff_attr_t) := []
  deriving DecidableEq, Repr

namespace gff_data_t

/-- The function gff_data_t::empty. -/
def empty (d : gff_data_t) : Bool := d.position.empty

/-- The function gff_data_t::has_attr. -/
def has_attr (d : gff_data_t) (name : Str) : Bool := (umap_find d.attributes name).isSome

/-- The function gff_data_t::eq_attr. -/
def eq_attr (d : gff_data_t) (name : Str) (val : gff_attr_t) : Bool :=
  match umap_find d.attributes name with
  | none => false
  | some a => a.eq val

/-- The function gff_data_t::get_attr. -/
def get_attr (d : gff_data_t) (name : Str) : gff_attr_t :=
  match umap_find d.attributes name with
  | none => gff_attr_t.default
  | some a => a

/-- The three overloads of gff_data_t::set_attr: `attributes[name] = gff_attr_t()
.set_string(val)`, `.set_integer(val)` or `.set_float(val)`; the value arrives
wrapped. -/
def set_attr (d : gff_data_t) (name : Str) (val : gff_attr_t) : gff_data_t :=
  { d with attributes := umap_assign d.attributes name val }

/-- The scan of gff_data_t::set_attr_auto over the value: returns `isdigit` and
`dotcnt`; the scan stops at the first character that is neither '.' nor a digit. -/
def set_attr_auto_scan : Str → Nat → Bool × Nat
  | [], dotcnt => (true, dotcnt)
  | c :: cs, dotcnt =>
    if c = '.' then set_attr_auto_scan cs (dotcnt + 1)
    else if !isdigit c then (false, dotcnt)
    else set_attr_auto_scan cs dotcnt

/-- The function gff_data_t::set_attr_auto: the value is kept as text when the
conversion throws. -/
def set_attr_auto (stod : Str → Option double) (d : gff_data_t) (name val : Str) : gff_data_t :=
  match set_attr_auto_scan val 0 with
  | (isdig, dotcnt) =>
    if !isdig || dotcnt > 1 then d.set_attr name (.string val)
    else if dotcnt = 1 then
      match stod val with
      | some x => d.set_attr name (.float x)
      | none => d.set_attr name (.string val)
    else
      match stol val with
      | some x => d.set_attr name (.integer x)
      | none => d.set_attr name (.string val)

end gff_data_t

/-! ## gff_parser_t::parse_line -/

/-- The function convert_str_to_uint64: `oval = std::stoll(ival)`, the signed
result converted to uint64_t; `none` when std::stoll throws (the function
returns false and leaves `oval` alone). -/
def convert_str_to_uint64 (ival : Str) : Option Nat :=
  match stoll ival with
  | some v => some (v % (2 : Int) ^ 64).toNat
  | none => none

/-- The function convert_str_to_double. -/
def convert_str_to_double (stod : Str → Option double) (ival : Str) : Option double :=
  stod ival

/-- The loop of parse_line over `attrlist`; `none` when a piece does not split
on '=' into exactly two fields. -/
def parse_line_attrs (stod : Str → Option double) (onlystrinval : Bool) :
    List Str → gff_data_t → Option gff_data_t
  | [], linedata => some linedata
  | attr :: rest, linedata =>
    match utils.get_fields attr '=' with
    | [nm, val] =>
      parse_line_attrs stod onlystrinval rest
        (if onlystrinval then linedata.set_attr nm (.string val)
         else linedata.set_attr_auto stod nm val)
    | _ => none

/-- The text "line#" + std::to_string(linenum) + msg. -/
def line_error (linenum : Nat) (msg : String) : Str :=
  "line#".toList ++ to_string linenum ++ msg.toList

/-- The function gff_parser_t::parse_line(line, error, linenum, onlystrinval):
the record returned and the new value of `error`. -/
def parse_line (stod : Str → Option double) (line : Str) (error : Str) (linenum : Nat)
    (onlystrinval : Bool) : gff_data_t × Str :=
  match utils.get_fields line '\t' with
  | [seqid, source, type, start, end_, score, strand, phase, attributes] =>
    let start_s := utils.trim start
    let end_s := utils.trim end_
    let score_s := utils.trim score
    match (if utils.check_no_data start_s then none else convert_str_to_uint64 start_s) with
    | none => ({}, line_error linenum " wrong 'start' field")
    | some vstart =>
    match (if utils.check_no_data end_s then none else convert_str_to_uint64 end_s) with
    | none => ({}, line_error linenum " wrong 'end' field")
    | some vend =>
    match (if utils.check_no_data score_s then some gff_data_t.d_nodata
           else convert_str_to_double stod score_s) with
    | none => ({}, line_error linenum " wrong 'score' field")
    | some vscore =>
    let strand_s := utils.trim strand
    let phase_s := utils.trim phase
    match (if utils.check_no_data strand_s then some (Char.ofNat 0)
           else if strand_s.length ≠ 1 then none else strand_s.head?) with
    | none => ({}, line_error linenum " wrong 'strand' field")
    | some vstrand =>
    match (if utils.check_no_data phase_s then some (Char.ofNat 0)
           else if phase_s.length ≠ 1 then none else phase_s.head?) with
    | none => ({}, line_error linenum " wrong 'phase' field")
    | some vphase =>
    let linedata : gff_data_t :=
      { source := source, type := type,
        position := { seqid := seqid, start := vstart, end_ := vend },
        score := vscore, strand := vstrand, phase := vphase, linenum := linenum }
    match parse_line_attrs stod onlystrinval
        (utils.get_fields (utils.trim attributes) ';') linedata with
    | none => ({}, line_error linenum " wrong 'attributes' field format")
    | some linedata => (linedata, error)
  | fields =>
    ({}, line_error linenum " wrong line format (fields count '" ++
      to_string fields.length ++ "' instead of '".toList ++ to_string 9 ++ "')".toList)

/-! ## thread_pool_t

A worker thread runs `thrproc` on the batch it was given. Its steps are the
bodies of its `for` loop (one line each) and the final push of its result into
the pool's `_data`; the writes to the shared `*error` and to `*out` are made
under the mutex, so each step is atomic. Which worker steps when is the
scheduler's choice (`event.worker`); `join` runs a worker to its end. -/

/-- The type thread_pool_t::thr_data_t. -/
structure thr_data_t where
  data : Str
  lnum : Nat
  deriving DecidableEq, Repr

/-- The type gff_data_tmp_t. -/
structure gff_data_tmp_t where
  data : List gff_data_t := []
  linestart : Nat := 0
  lineend : Nat := 0
  deriving DecidableEq, Repr

/-- A std::thread running thread_pool_t::thrproc: the batch `data` it owns, the
lines of its loop still to parse, its local `outtmp.data`, and whether it has
returned. -/
structure thrproc_t where
  data : List thr_data_t
  todo : List thr_data_t
  outtmp : List gff_data_t := []
  finished : Bool := false
  deriving DecidableEq, Repr

/-- The line number `data.front().lnum` (`data` is not empty where it is read). -/
def front_lnum (data : List thr_data_t) : Nat :=
  match data.head? with
  | some d => d.lnum
  | none => 0

/-- The line number `data.back().lnum` (`data` is not empty where it is read). -/
def back_lnum (data : List thr_data_t) : Nat :=
  match data.getLast? with
  | some d => d.lnum
  | none => 0

/-- One step of thread_pool_t::thrproc on the shared `*out` and `*error`: parse
the next line of the batch, or, the loop done, push the batch's records (when
there are any) and return. -/
def thrproc_step (stod : Str → Option double) (attrval_onlystr : Bool) (t : thrproc_t)
    (out : List gff_data_tmp_t) (error : Str) : thrproc_t × List gff_data_tmp_t × Str :=
  if t.finished then (t, out, error)
  else
    match t.todo with
    | d :: rest =>
      match parse_line stod d.data [] d.lnum attrval_onlystr with
      | (linedata, err) =>
        ({ t with todo := rest,
                  outtmp := if !linedata.empty then t.outtmp ++ [linedata] else t.outtmp },
         out, if err ≠ [] then err else error)
    | [] =>
      if t.outtmp ≠ [] then
        ({ t with finished := true },
         out ++ [{ data := t.outtmp, linestart := front_lnum t.data,
                   lineend := back_lnum t.data }], error)
      else ({ t with finished := true }, out, error)

/-- Take `n` steps of a worker. -/
def thrproc_steps (stod : Str → Option double) (attrval_onlystr : Bool) :
    Nat → thrproc_t → List gff_data_tmp_t → Str → thrproc_t × List gff_data_tmp_t × Str
  | 0, t, out, error => (t, out, error)
  | n + 1, t, out, error =>
    match thrproc_step stod attrval_onlystr t out error with
    | (t, out, error) => thrproc_steps stod attrval_onlystr n t out error

/-- The call `t.join()`: the worker runs to its end (one step for each line left
and the final one); the shared `*out` and `*error` afterwards. -/
def thrproc_join (stod : Str → Option double) (attrval_onlystr : Bool) (t : thrproc_t)
    (out : List gff_data_tmp_t) (error : Str) : List gff_data_tmp_t × Str :=
  (thrproc_steps stod attrval_onlystr (t.todo.length + 1) t out error).2

/-- The loop `for(auto &t: _tpool) if(t.joinable()) t.join();`. -/
def join_all (stod : Str → Option double) (attrval_onlystr : Bool) :
    List thrproc_t → List gff_data_tmp_t → Str → List gff_data_tmp_t × Str
  | [], out, error => (out, error)
  | t :: rest, out, error =>
    match thrproc_join stod attrval_onlystr t out error with
    | (out, error) => join_all stod attrval_onlystr rest out error

/-- The type thread_pool_t. Its `_error` points at the parser's `_error`, which
every function below takes and returns. -/
structure thread_pool_t where
  _thrmax : Int
  _attronlystr : Bool
  _tmpdata : List thr_data_t := []
  _data : List gff_data_tmp_t := []
  _tpool : List thrproc_t := []
  deriving DecidableEq, Repr

namespace thread_pool_t

/-- The constant max_lines_in_pool of thread_pool_t::push. -/
def max_lines_in_pool : Nat := 1000

/-- The function thread_pool_t::makeproc(data, sync). -/
def makeproc (stod : Str → Option double) (tp : thread_pool_t) (error : Str)
    (data : List thr_data_t) (sync : Bool) : thread_pool_t × Str :=
  if sync then
    match join_all stod tp._attronlystr tp._tpool tp._data error with
    | (out, error) =>
      match thrproc_join stod tp._attronlystr { data := data, todo := data } out error with
      | (out, error) => ({ tp with _tpool := [], _data := out }, error)
  else
    if (tp._tpool.length : Int) ≥ tp._thrmax then
      match tp._tpool with
      | front :: rest =>
        match thrproc_join stod tp._attronlystr front tp._data error with
        | (out, error) =>
          ({ tp with _tpool := rest ++ [{ data := data, todo := data }], _data := out }, error)
      | [] => ({ tp with _tpool := [{ data := data, todo := data }] }, error)
    else ({ tp with _tpool := tp._tpool ++ [{ data := data, todo := data }] }, error)

/-- The function thread_pool_t::push(line, linenum). -/
def push (stod : Str → Option double) (tp : thread_pool_t) (error : Str) (line : Str)
    (linenum : Nat) : thread_pool_t × Str :=
  let tmpdata := tp._tmpdata ++ [{ data := line, lnum := linenum }]
  if tmpdata.length > max_lines_in_pool then
    match makeproc stod { tp with _tmpdata := [] } error tmpdata false with
    | (tp, error) => ({ tp with _tmpdata := [] }, error)
  else ({ tp with _tmpdata := tmpdata }, error)

/-- The function thread_pool_t::flush. -/
def flush (stod : Str → Option double) (tp : thread_pool_t) (error : Str) :
    thread_pool_t × Str :=
  match (if tp._tmpdata ≠ [] then makeproc stod { tp with _tmpdata := [] } error tp._tmpdata true
         else (tp, error)) with
  | (tp, error) =>
    match join_all stod tp._attronlystr tp._tpool tp._data error with
    | (out, error) => ({ tp with _tmpdata := [], _tpool := [], _data := out }, error)

/-- The function thread_pool_t::empty. -/
def empty (tp : thread_pool_t) : Bool :=
  tp._tmpdata = [] && tp._data = [] && tp._tpool = []

/-- The scheduler lets the `i`-th thread of `_tpool` take one step. -/
def worker_step (stod : Str → Option double) (tp : thread_pool_t) (error : Str) (i : Nat) :
    thread_pool_t × Str :=
  match tp._tpool[i]? with
  | none => (tp, error)
  | some t =>
    match thrproc_step stod tp._attronlystr t tp._data error with
    | (t, out, error) => ({ tp with _tpool := tp._tpool.set i t, _data := out }, error)

end thread_pool_t

/-! ## gff_parser_t -/

/-- The type gff_parser_t (without the `_force_types` table, which no function
modelled here reads). -/
structure gff_parser_t where
  _threads : Int
  _thrpool : Option thread_pool_t
  _gff_version : Int := 0
  _linenum : Nat := 0
  _onlystrval : Bool
  _error : Str := []
  _data : List gff_data_t := []
  _data_by_seqid : List (Str × List Nat) := []
  _data_by_source : List (Str × List Nat) := []
  _data_by_type : List (Str × List Nat) := []
  deriving DecidableEq, Repr

/-- The std::regex_match of the line against `##gff-version\s(\d+)`: the text of
the capture group when the whole line matches. -/
def regex_match_gff_version (line : Str) : Option Str :=
  if "##gff-version".toList.isPrefixOf line then
    match line.drop "##gff-version".toList.length with
    | c :: ds => if isspace c && ds ≠ [] && ds.all isdigit then some ds else none
    | [] => none
  else none

/-- One step of the index loop of flush on one index: `m[k] = { &d }` when the
key is new, `m[k].push_back(&d)` otherwise. -/
def index_add (m : List (Str × List Nat)) (k : Str) (ptr : Nat) : List (Str × List Nat) :=
  match umap_find m k with
  | none => umap_assign m k [ptr]
  | some v => umap_assign m k (v ++ [ptr])

/-- The loop `for(auto &d: _data)` of flush; `ptr` is the position of the head of
the records still to visit. -/
def flush_index_loop : List gff_data_t → Nat → gff_parser_t → gff_parser_t
  | [], _, p => p
  | d :: rest, ptr, p =>
    flush_index_loop rest (ptr + 1)
      { p with _data_by_seqid := index_add p._data_by_seqid d.position.seqid ptr,
               _data_by_source := index_add p._data_by_source d.source ptr,
               _data_by_type := index_add p._data_by_type d.type ptr }

/-- The call std::sort(pooldata.begin(), pooldata.end(), by linestart). Where two
batches have equal keys std::sort may leave them in either order; this one
keeps theirs. -/
def sort_pooldata (pooldata : List gff_data_tmp_t) : List gff_data_tmp_t :=
  pooldata.insertionSort (fun a b => a.linestart ≤ b.linestart)

namespace gff_parser_t

/-- The constructor gff_parser_t(threads, attrval_only_string). -/
def init (threads : Int) (attrval_only_string : Bool) : gff_parser_t :=
  { _threads := threads,
    _thrpool := if threads > 0 then
        some { _thrmax := threads, _attronlystr := attrval_only_string }
      else none,
    _onlystrval := attrval_only_string }

/-- The function gff_parser_t::flush. -/
def flush (stod : Str → Option double) (p : gff_parser_t) : gff_parser_t :=
  if p._data_by_seqid ≠ [] &&
      (match p._thrpool with
       | none => true
       | some tp => tp.empty) then p
  else
    let p : gff_parser_t :=
      match p._thrpool with
      | none => p
      | some tp =>
        match tp.flush stod p._error with
        | (tp, error) =>
          { p with _thrpool := some { tp with _data := [] }, _error := error,
                   _data := ((sort_pooldata tp._data).map (fun t => t.data)).flatten }
    flush_index_loop p._data 0
      { p with _data_by_seqid := [], _data_by_source := [], _data_by_type := [] }

/-- What operator<< does from `if(line.at(0) == '#')` on. -/
def operator_lshift_line (stod : Str → Option double) (p : gff_parser_t) (line : Str) :
    gff_parser_t :=
  if line.head? = some '#' then p
  else
    match p._thrpool with
    | some tp =>
      match tp.push stod p._error line p._linenum with
      | (tp, error) => { p with _thrpool := some tp, _error := error }
    | none =>
      match parse_line stod line p._error p._linenum p._onlystrval with
      | (linedata, error) =>
        if !linedata.empty then { p with _error := error, _data := p._data ++ [linedata] }
        else { p with _error := error }

/-- The function gff_parser_t::operator<<(line). `none` when std::stoi throws
std::out_of_range on the version digits: the exception leaves operator<<. -/
def operator_lshift (stod : Str → Option double) (p : gff_parser_t) (line : Str) :
    Option gff_parser_t :=
  let p := { p with _linenum := p._linenum + 1 }
  if line = [] then some p
  else if p._gff_version = 0 then
    match regex_match_gff_version line with
    | none => some { p with _error := "gff-version tag doesn't found".toList }
    | some sm1 =>
      match stoi sm1 with
      | none => none
      | some v =>
        if v ≠ 3 then
          some { p with _gff_version := v,
                        _error := "incompatible gff-version ('".toList ++ sm1 ++
                          "' instead of '3')".toList }
        else some (operator_lshift_line stod { p with _gff_version := v } line)
  else some (operator_lshift_line stod p line)

/-- The function gff_parser_t::has_error. -/
def has_error (p : gff_parser_t) : Bool := p._error ≠ []

/-- The function gff_parser_t::error. -/
def error (p : gff_parser_t) : Str := p._error

/-- The function gff_parser_t::size. -/
def size (p : gff_parser_t) : Nat := p._data.length

/-- The function gff_parser_t::linenum. -/
def linenum (p : gff_parser_t) : Nat := p._linenum

/-- The record a pointer of an index or of a query result points at. -/
def deref (p : gff_parser_t) (ptr : Nat) : gff_data_t := p._data.getD ptr {}

end gff_parser_t

/-- The function check_attrs: the inner loop over `a.orvalues`, entered with
`eq` false; it stops at the first value that is equal. -/
def check_attrs_orvalues (data : gff_data_t) (name : Str) : List gff_attr_t → Bool → Bool
  | [], eq => eq
  | orv :: rest, _ =>
    if data.eq_attr name orv then true else check_attrs_orvalues data name rest false

/-- The function check_attrs: the outer loop over `attr`; it stops at the first
query that is not matched. -/
def check_attrs_loop (data : gff_data_t) : List gff_attribute_t → Bool → Bool
  | [], eq => eq
  | a :: rest, _ =>
    let eq := data.eq_attr a.name a.value
    let eq := if !eq then check_attrs_orvalues data a.name a.orvalues eq else eq
    if !eq then eq else check_attrs_loop data rest eq

/-- The function check_attrs(attr, data). -/
def check_attrs (attr : List gff_attribute_t) (data : gff_data_t) : Bool :=
  check_attrs_loop data attr true

namespace gff_parser_t

/-- The function gff_parser_t::get_by_pos. -/
def get_by_pos (stod : Str → Option double) (p : gff_parser_t) (position : gff_postition_t) :
    List Nat × gff_parser_t :=
  let p := if p._data_by_seqid = [] then p.flush stod else p
  match umap_find p._data_by_seqid position.seqid with
  | none => ([], p)
  | some bucket =>
    if position.singlepos then
      (bucket.filter (fun data => (p.deref data).position.in_sid position.seqid position.start), p)
    else
      (bucket.filter (fun data =>
        (p.deref data).position.intersect_sid position.seqid position.start position.end_), p)

/-- The function gff_parser_t::get_by_type. -/
def get_by_type (stod : Str → Option double) (p : gff_parser_t) (type : Str) :
    List Nat × gff_parser_t :=
  let p := if p._data_by_type = [] then p.flush stod else p
  match umap_find p._data_by_type type with
  | none => ([], p)
  | some bucket => (bucket, p)

/-- The function gff_parser_t::get_by_attr: a scan of the store. -/
def get_by_attr (p : gff_parser_t) (attr : List gff_attribute_t) : List Nat × gff_parser_t :=
  ((List.range p._data.length).filter (fun data => check_attrs attr (p.deref data)), p)

/-- The function gff_parser_t::get_by(type, attr, position). -/
def get_by (stod : Str → Option double) (p : gff_parser_t) (type : Str)
    (attr : List gff_attribute_t) (position : gff_postition_t) : List Nat × gff_parser_t :=
  if type = [] ∧ attr = [] ∧ position.empty then ([], p)
  else if type ≠ [] ∧ attr = [] ∧ position.empty then p.get_by_type stod type
  else if type = [] ∧ attr ≠ [] ∧ position.empty then p.get_by_attr attr
  else if type = [] ∧ attr = [] ∧ ¬ position.empty then p.get_by_pos stod position
  else if ¬ position.empty then
    let p := if p._data_by_seqid = [] then p.flush stod else p
    match umap_find p._data_by_seqid position.seqid with
    | none => ([], p)
    | some bucket =>
      (bucket.filter (fun d =>
        (if position.singlepos then (p.deref d).position.in_ position.start
         else (p.deref d).position.intersect position.start position.end_) &&
        !(type ≠ [] && (p.deref d).type ≠ type) &&
        !(attr ≠ [] && !check_attrs attr (p.deref d))), p)
  else
    let p := if p._data_by_type = [] then p.flush stod else p
    match umap_find p._data_by_type type with
    | none => ([], p)
    | some bucket => (bucket.filter (fun d => check_attrs attr (p.deref d)), p)

end gff_parser_t

/-! ## Runs of the program -/

/-- What happens next: the caller feeds a line to the parser (`gff << l`), or the
scheduler lets the `i`-th thread of the pool take a step. -/
inductive event where
  | line (l : Str)
  | worker (i : Nat)
  deriving DecidableEq, Repr

/-- One event on the parser; `none` when operator<< is left by an exception. -/
def step (stod : Str → Option double) (p : gff_parser_t) : event → Option gff_parser_t
  | .line l => p.operator_lshift stod l
  | .worker i =>
    match p._thrpool with
    | none => some p
    | some tp =>
      match tp.worker_step stod p._error i with
      | (tp, error) => some { p with _thrpool := some tp, _error := error }

/-- A run: the events in order, from the parser `p`. -/
def run (stod : Str → Option double) : gff_parser_t → List event → Option gff_parser_t
  | p, [] => some p
  | p, e :: rest =>
    match step stod p e with
    | none => none
    | some p => run stod p rest

/-- The lines of a run, in order, as events. -/
def lines (ls : List Str) : List event := ls.map event.line

/-- The lines the caller feeds in a run, in order. -/
def lines_of : List event → List Str
  | [] => []
  | .line l :: rest => l :: lines_of rest
  | .worker _ :: rest => lines_of rest

/-! ## Reference functions of the proofs -/

/-- The fields of `part ++ l` split at `delim`, when `part` holds no delimiter:
the plain recursive split that `utils.get_fields` is shown to compute. -/
def split_from (delim : Char) : Str → Str → List Str
  | [], part => [part]
  | c :: cs, part =>
    if c = delim then part :: split_from delim cs [] else split_from delim cs (part ++ [c])

/-- Columns 4 to 8 of a line (start, end, score, strand, phase) pass the checks
parse_line makes on them before it reads the attributes column. -/
def columns_valid (stod : Str → Option double) (start end_ score strand phase : Str) : Bool :=
  (!utils.check_no_data (utils.trim start) &&
    (convert_str_to_uint64 (utils.trim start)).isSome) &&
  (!utils.check_no_data (utils.trim end_) &&
    (convert_str_to_uint64 (utils.trim end_)).isSome) &&
  (utils.check_no_data (utils.trim score) ||
    (convert_str_to_double stod (utils.trim score)).isSome) &&
  (utils.check_no_data (utils.trim strand) || (utils.trim strand).length = 1) &&
  (utils.check_no_data (utils.trim phase) || (utils.trim phase).length = 1)

/-- The positions, counted from `ptr`, of the records of `l` that satisfy `f`. -/
def positions_from (f : gff_data_t → Bool) : List gff_data_t → Nat → List Nat
  | [], _ => []
  | d :: rest, ptr =>
    if f d then ptr :: positions_from f rest (ptr + 1) else positions_from f rest (ptr + 1)

/-- A bucket after more pointers were added under its key: the old bucket and
the new pointers, and no bucket when there is neither. -/
def bucket_ext (old : Option (List Nat)) (new : List Nat) : Option (List Nat) :=
  match old with
  | some b => some (b ++ new)
  | none => if new = [] then none else some new

/-- The state flush leaves: each index holds, under every key, the positions of
the records of the store that carry the key, in store order, and no bucket for
a key no record carries; the indices are empty exactly when the store is; the
pool, when there is one, holds nothing. -/
def indexed (s : gff_parser_t) : Prop :=
  (∀ k, umap_find s._data_by_seqid k =
      bucket_ext none (positions_from (fun d => d.position.seqid = k) s._data 0)) ∧
  (∀ k, umap_find s._data_by_type k =
      bucket_ext none (positions_from (fun d => d.type = k) s._data 0)) ∧
  (∀ k, umap_find s._data_by_source k =
      bucket_ext none (positions_from (fun d => d.source = k) s._data 0)) ∧
  (s._data = [] → s._data_by_seqid = [] ∧ s._data_by_type = [] ∧ s._data_by_source = []) ∧
  (s._data ≠ [] → s._data_by_seqid ≠ [] ∧ s._data_by_type ≠ []) ∧
  (∀ tp, s._thrpool = some tp → tp.empty = true)

/-- What the spec asks of a record returned by a query: every filter that is
present holds. The type filter is present when `type` is not empty, the
attribute filter when `attr` is not empty, the position filter when its seqid
is not empty; the position filter is a containment test of `start` when
`start == end` and an intersection test otherwise. -/
def query_matches (type : Str) (attr : List gff_attribute_t) (position : gff_postition_t)
    (r : gff_data_t) : Bool :=
  (type = [] || r.type = type) &&
  (attr = [] || check_attrs attr r) &&
  (position.seqid = [] ||
    (r.position.seqid = position.seqid &&
      (if position.start = position.end_ then r.position.in_ position.start
       else r.position.intersect position.start position.end_)))

/-- The two lines of the end-to-end example of the spec. -/
def example_lines : List Str :=
  ["##gff-version 3".toList,
   "chr1\tHAVANA\tgene\t100\t200\t.\t+\t.\tgene_id=G1;gene_name=FOO".toList]

/-- The record the second line of the example parses to. -/
def example_record : gff_data_t :=
  { source := "HAVANA".toList, type := "gene".toList,
    position := { seqid := "chr1".toList, start := 100, end_ := 200 },
    strand := '+', linenum := 2,
    attributes := [("gene_id".toList, .string "G1".toList),
                   ("gene_name".toList, .string "FOO".toList)] }

/-- The synchronous parser after the two lines of the example, before flush. -/
def example_sync_state : gff_parser_t :=
  { _threads := 0, _thrpool := none, _gff_version := 3, _linenum := 2, _onlystrval := false,
    _data := [example_record] }

/-- The record a line of a batch contributes: the record parse_line returns for
it, unless that record is empty. -/
def parse_ok (stod : Str → Option double) (onlystr : Bool) (d : thr_data_t) :
    Option gff_data_t :=
  if (parse_line stod d.data [] d.lnum onlystr).1.empty then none
  else some (parse_line stod d.data [] d.lnum onlystr).1

/-- The records of a sequence of numbered lines, in order. -/
def records (stod : Str → Option double) (onlystr : Bool) (L : List thr_data_t) :
    List gff_data_t :=
  L.filterMap (parse_ok stod onlystr)

/-- What a worker pushes for a batch when it returns: nothing when no line of
the batch gave a record. -/
def batch_out (stod : Str → Option double) (onlystr : Bool) (b : List thr_data_t) :
    Option gff_data_tmp_t :=
  if records stod onlystr b = [] then none
  else some { data := records stod onlystr b, linestart := front_lnum b,
              lineend := back_lnum b }

/-- What a thread of the pool has still to push. -/
def pending (stod : Str → Option double) (onlystr : Bool) (t : thrproc_t) :
    Option gff_data_tmp_t :=
  if t.finished then none else batch_out stod onlystr t.data

/-- A running worker holds the records of the lines of its batch it has parsed. -/
def worker_inv (stod : Str → Option double) (onlystr : Bool) (t : thrproc_t) : Prop :=
  t.finished = false → t.outtmp ++ records stod onlystr t.todo = records stod onlystr t.data

/-- The pool while `L` is the sequence of numbered lines pushed so far: the
lines are those of the batches dispatched, in order, and of the buffer; what
the pool's `_data` holds and what its threads have still to push are, in some
order, the results of the batches. -/
def pool_inv (stod : Str → Option double) (tp : thread_pool_t) (L : List thr_data_t) : Prop :=
  ∃ bs : List (List thr_data_t),
    bs.flatten ++ tp._tmpdata = L ∧
    (∀ b ∈ bs, b ≠ []) ∧
    (∀ t ∈ tp._tpool, worker_inv stod tp._attronlystr t) ∧
    List.Perm (tp._data ++ tp._tpool.filterMap (pending stod tp._attronlystr))
      (bs.filterMap (batch_out stod tp._attronlystr))

/-- The pooled parser `pp` and the synchronous parser `ps` after the same lines,
`L` being the numbered lines that were not blank, header or comment: same
counters, no index yet, the pool of `pp` was given `L` and the store of `ps`
holds the records of `L`; the line numbers of `L` increase. -/
def sim (stod : Str → Option double) (pp ps : gff_parser_t) (L : List thr_data_t) : Prop :=
  ∃ tp : thread_pool_t,
    pp._thrpool = some tp ∧ ps._thrpool = none ∧
    tp._attronlystr = ps._onlystrval ∧
    pp._linenum = ps._linenum ∧ pp._gff_version = ps._gff_version ∧
    pp._data_by_seqid = [] ∧ ps._data_by_seqid = [] ∧
    pool_inv stod tp L ∧
    ps._data = records stod ps._onlystrval L ∧
    (L.map (fun d => d.lnum)).Pairwise (fun a b => a < b)

/-! ## gff_attr_t: tags and rendering -/

/-- The function gff_attr_t::is_string. -/
def gff_attr_t.is_string : gff_attr_t → Bool
  | .string _ => true
  | _ => false

/-- The function gff_attr_t::is_integer. -/
def gff_attr_t.is_integer : gff_attr_t → Bool
  | .integer _ => true
  | _ => false

/-- The function gff_attr_t::is_float. -/
def gff_attr_t.is_float : gff_attr_t → Bool
  | .float _ => true
  | _ => false

/-- The constant std::variant_npos, `size_t(-1)`. -/
def variant_npos : Nat := 2 ^ 64 - 1

/-- The call `_value.index()`: the position of the alternative held, in the
order of `std::variant<std::string, int64_t, double>`. -/
def gff_attr_t.index : gff_attr_t → Nat
  | .string _ => 0
  | .integer _ => 1
  | .float _ => 2

/-- The function gff_attr_t::empty. -/
def gff_attr_t.empty (a : gff_attr_t) : Bool := a.index = variant_npos

/-- The function std::to_string on a signed integer. -/
def to_string_int (i : Int) : Str :=
  if i < 0 then '-' :: Nat.toDigits 10 i.natAbs else Nat.toDigits 10 i.natAbs

/-- The function gff_attr_t::str; `dtos` is std::to_string on a double. The
switch on `index()` is the match on the alternative held. -/
def gff_attr_t.str (dtos : double → Str) (a : gff_attr_t) : Str :=
  if a.empty then "empty".toList
  else
    match a with
    | .string val => "string=".toList ++ val
    | .integer val => "integer=".toList ++ to_string_int val
    | .float val => "float=".toList ++ dtos val

/-! ## The missing tokens and a reference std::stod -/

/-- The six texts utils::check_no_data accepts. -/
def missing_tokens : List Str :=
  ["".toList, ".".toList, "na".toList, "NA".toList, "N/A".toList, "n/a".toList]

/-- Whether the text is made of decimal digits and exactly one '.', with at
least one digit: the texts gff_data_t::set_attr_auto passes to std::stod. -/
def is_point_literal (val : Str) : Bool :=
  val.all (fun c => c = '.' || isdigit c) && val.count '.' = 1 && val.any isdigit

/-- The quotient `a / b` rounded to the nearest integer, a tie to the even one. -/
def round_half_even (a b : Nat) : Nat :=
  if 2 * (a % b) < b then a / b
  else if 2 * (a % b) > b then a / b + 1
  else if (a / b) % 2 = 0 then a / b
  else a / b + 1

/-- The position of the leading binary digit of `n`, `floor (log2 n)`, for `n > 0`. -/
def floor_log2 (n : Nat) : Nat := (Nat.toDigits 2 n).length - 1

/-- Whether `2 ^ e <= N / D`. -/
def pow2_le_ratio (N D : Nat) (e : Int) : Bool :=
  if e ≥ 0 then D * 2 ^ e.toNat ≤ N else D ≤ N * 2 ^ (-e).toNat

/-- The quotient `(N / D) / 2 ^ q` rounded to the nearest integer, ties to even. -/
def scaled_round (N D : Nat) (q : Int) : Nat :=
  if q ≥ 0 then round_half_even N (D * 2 ^ q.toNat)
  else round_half_even (N * 2 ^ (-q).toNat) D

/-- The double nearest to `N / D` (`D > 0`), in the default rounding mode:
`none` when the value overflows, or is not zero and lies below the least
normal double (strtod sets ERANGE, std::stod throws std::out_of_range; the
exact subnormal values are not told apart). -/
def nearest_double (N D : Nat) : Option double :=
  if N = 0 then some ⟨0⟩
  else
    let e0 : Int := (floor_log2 N : Int) - (floor_log2 D : Int)
    let e : Int := if pow2_le_ratio N D e0 then e0 else e0 - 1
    if e < -1022 then none
    else
      let m := scaled_round N D (e - 52)
      let e' : Int := if m = 2 ^ 53 then e + 1 else e
      let m' : Nat := if m = 2 ^ 53 then 2 ^ 52 else m
      if e' > 1023 then none
      else some ⟨(e' + 1023).toNat * 2 ^ 52 + (m' - 2 ^ 52)⟩

/-- A reference instance of the `stod` parameter: std::stod on the texts made of
digits and one '.', whose value is the digits read as an integer over ten to
the number of digits after the point. On any other text this instance converts
nothing; it is only used on texts of that form. -/
def stod_decimal (val : Str) : Option double :=
  if is_point_literal val then
    nearest_double (digits_value (val.filter isdigit))
      (10 ^ ((val.dropWhile (fun c => c ≠ '.')).length - 1))
  else none

/-! ## Reference functions of ingestion -/

/-- The lines of `ls` that operator<< hands to parse_line once the version is
set, each with its line number, the line before `ls` being line `n`: the lines
that are neither blank nor comments. -/
def feature_lines : Nat → List Str → List thr_data_t
  | _, [] => []
  | n, l :: rest =>
    if l = [] ∨ l.head? = some '#' then feature_lines (n + 1) rest
    else { data := l, lnum := n + 1 } :: feature_lines (n + 1) rest

/-- The messages parse_line sets for the numbered lines `L`, in order: one for
each line that fails. -/
def errors_of (stod : Str → Option double) (onlystr : Bool) (L : List thr_data_t) :
    List Str :=
  L.filterMap (fun d =>
    if (parse_line stod d.data [] d.lnum onlystr).2 = [] then none
    else some (parse_line stod d.data [] d.lnum onlystr).2)

/-- The synchronous parser after the header line "##gff-version 3" alone. -/
def example_header_state : gff_parser_t :=
  { _threads := 0, _thrpool := none, _gff_version := 3, _linenum := 1, _onlystrval := false }

/-- The pool and the shared error after the calls push(d.data, d.lnum) for the
numbered lines of `L`, in order. -/
def push_lines (stod : Str → Option double) :
    thread_pool_t → Str → List thr_data_t → thread_pool_t × Str
  | tp, error, [] => (tp, error)
  | tp, error, d :: rest =>
    match tp.push stod error d.data d.lnum with
    | (tp, error) => push_lines stod tp error rest

/-! ## main.cpp: the query of a BED row -/

/-- The conversion of a long to uint64_t. -/
def to_uint64 (v : Int) : Nat := (v % 2 ^ 64).toNat

/-- The call `v.at(i)` of std::vector with an int index; `none` stands for
std::out_of_range (a negative index converts to a size_t past the end). -/
def vector_at (v : List Str) (i : Int) : Option Str :=
  if i < 0 then none else v[i.toNat]?

/-- The column indices main uses once the options are read: `seqid`, `pos` and
`endpos` are the values of -seqid, -pos and -endpos (-1 when -endpos is not
given); `if(endpos < 0) endpos = pos; seqid -= 1; pos -= 1; endpos -= 1;`. -/
def bed_columns (seqid pos endpos : Int) : Int × Int × Int :=
  let endpos := if endpos < 0 then pos else endpos
  (seqid - 1, pos - 1, endpos - 1)

/-- The BED row loop of main on a data row `inln`, with the column indices
`seqid`, `pos`, `endpos` it was left with: the filter
`gff_postition_t(*seqid_s, pos_ui, endpos_ui)` that getansw gives to get_by;
`none` when `at` or std::stol throws. -/
def bed_row_position (seqid pos endpos : Int) (inln : Str) : Option gff_postition_t :=
  let bedfields := utils.get_fields inln '\t'
  match vector_at bedfields seqid with
  | none => none
  | some seqid_s =>
    match (vector_at bedfields pos).bind stol with
    | none => none
    | some vpos =>
      match (if pos ≠ endpos then (vector_at bedfields endpos).bind stol else some pos) with
      | none => none
      | some vend => some { seqid := seqid_s, start := to_uint64 vpos, end_ := to_uint64 vend }

/-! ## The two position predicates of a query -/

/-- The function get_by_pos with the choice between the two predicates made by
`point` (point containment when true, interval intersection when false) in
place of the test `position.singlepos()`. -/
def gff_parser_t.get_by_pos_using (point : Bool) (stod : Str → Option double)
    (p : gff_parser_t) (position : gff_postition_t) : List Nat × gff_parser_t :=
  let p := if p._data_by_seqid = [] then p.flush stod else p
  match umap_find p._data_by_seqid position.seqid with
  | none => ([], p)
  | some bucket =>
    if point then
      (bucket.filter (fun data => (p.deref data).position.in_sid position.seqid position.start), p)
    else
      (bucket.filter (fun data =>
        (p.deref data).position.intersect_sid position.seqid position.start position.end_), p)

/-- The function get_by with the choice between the two predicates made by
`point` in place of the tests `position.singlepos()`. -/
def gff_parser_t.get_by_using (point : Bool) (stod : Str → Option double) (p : gff_parser_t)
    (type : Str) (attr : List gff_attribute_t) (position : gff_postition_t) :
    List Nat × gff_parser_t :=
  if type = [] ∧ attr = [] ∧ position.empty then ([], p)
  else if type ≠ [] ∧ attr = [] ∧ position.empty then p.get_by_type stod type
  else if type = [] ∧ attr ≠ [] ∧ position.empty then p.get_by_attr attr
  else if type = [] ∧ attr = [] ∧ ¬ position.empty then p.get_by_pos_using point stod position
  else if ¬ position.empty then
    let p := if p._data_by_seqid = [] then p.flush stod else p
    match umap_find p._data_by_seqid position.seqid with
    | none => ([], p)
    | some bucket =>
      (bucket.filter (fun d =>
        (if point then (p.deref d).position.in_ position.start
         else (p.deref d).position.intersect position.start position.end_) &&
        !(type ≠ [] && (p.deref d).type ≠ type) &&
        !(attr ≠ [] && !check_attrs attr (p.deref d))), p)
  else
    let p := if p._data_by_type = [] then p.flush stod else p
    match umap_find p._data_by_type type with
    | none => ([], p)
    | some bucket => (bucket.filter (fun d => check_attrs attr (p.deref d)), p)

/-- The function join_strlist(strlist, delim) of main.cpp: every text followed by
the delimiter, the last delimiter cut off. -/
def join_strlist (strlist : List Str) (delim : Char) : Str :=
  if strlist = [] then []
  else (strlist.foldl (fun r s => r ++ (s ++ [delim])) []).dropLast

/-! ## Runs with calls of flush -/

/-- What happens next, flush included: the caller feeds a line, the caller
calls flush, or the scheduler lets the `i`-th thread of the pool take a step. -/
inductive call where
  | ingest (l : Str)
  | flush
  | worker (i : Nat)
  deriving DecidableEq, Repr

/-- One call on the parser; `none` when operator<< is left by an exception. -/
def call_step (stod : Str → Option double) (p : gff_parser_t) : call → Option gff_parser_t
  | .ingest l => p.operator_lshift stod l
  | .flush => some (p.flush stod)
  | .worker i => step stod p (.worker i)

/-- The calls in order, from the parser `p`. -/
def run_calls (stod : Str → Option double) : gff_parser_t → List call → Option gff_parser_t
  | p, [] => some p
  | p, c :: rest =>
    match call_step stod p c with
    | none => none
    | some p => run_calls stod p rest

/-! # Theorems -/

/-! ## utils::get_fields is the plain split -/

theorem get_fields_loop_spec (delim : Char) (l : Str) :
    ∀ (part : Str) (cnt : Nat) (r : List Str),
      (utils.get_fields_loop delim l part cnt r).2.2 ++ [(utils.get_fields_loop delim l part cnt r).1]
          = r ++ split_from delim l part ∧
      (utils.get_fields_loop delim l part cnt r).2.1 = cnt + l.count delim ∧
      (utils.get_fields_loop delim l part cnt r).2.2.length = r.length + l.count delim := by
  induction l with
  | nil => intro part cnt r; simp [utils.get_fields_loop, split_from]
  | cons c cs ih =>
    intro part cnt r
    by_cases h : c = delim
    · have := ih [] (cnt + 1) (r ++ [part])
      simp only [utils.get_fields_loop, h, if_true, split_from]
      subst h
      simp only [List.count_cons_self]
      refine ⟨by rw [this.1]; simp, by rw [this.2.1]; omega, by rw [this.2.2]; simp; omega⟩
    · have := ih (part ++ [c]) cnt r
      simp only [utils.get_fields_loop, h, if_false, split_from]
      rw [List.count_cons]
      simp only [beq_iff_eq, h, if_false, Nat.add_zero]
      exact this

theorem get_fields_eq (line : Str) (delim : Char) :
    utils.get_fields line delim = split_from delim line [] := by
  have h := get_fields_loop_spec delim line [] 0 []
  unfold utils.get_fields
  generalize utils.get_fields_loop delim line [] 0 [] = res at h
  obtain ⟨last, cnt, r⟩ := res
  simp only [List.nil_append, List.length_nil, Nat.zero_add] at h
  obtain ⟨h1, h2, h3⟩ := h
  simp only
  by_cases hl : last = []
  · simp [hl, h2, h3, ← h1]
  · simp [hl, ← h1]

theorem split_from_length (delim : Char) (l : Str) :
    ∀ part, (split_from delim l part).length = l.count delim + 1 := by
  induction l with
  | nil => intro part; simp [split_from]
  | cons c cs ih =>
    intro part
    by_cases h : c = delim
    · subst h; simp [split_from, ih]
    · rw [List.count_cons]; simp [split_from, h, ih]

theorem split_from_head (delim : Char) (l : Str) :
    ∀ part, (split_from delim l part).head? = some (part ++ l.takeWhile (fun c => c ≠ delim)) := by
  induction l with
  | nil => intro part; simp [split_from]
  | cons c cs ih =>
    intro part
    by_cases h : c = delim
    · subst h; simp [split_from]
    · simp [split_from, h, ih, List.takeWhile_cons]

theorem get_fields_length (line : Str) (delim : Char) :
    (utils.get_fields line delim).length = line.count delim + 1 := by
  rw [get_fields_eq, split_from_length]

theorem get_fields_head (line : Str) (delim : Char) :
    (utils.get_fields line delim).head? = some (line.takeWhile (fun c => c ≠ delim)) := by
  rw [get_fields_eq, split_from_head]; simp

/-! ## Intervals (C9) -/

/-- C9: for unsigned 64-bit start, end, s, e, the interval [start, end]
intersects (s, e) exactly when max(start, s) <= min(end, e), which holds if and
only if some 64-bit position p lies in both [start, end] and [s, e]; contains(p)
holds exactly when start <= p <= end. In particular [100,200] intersects
(150,300) and not (201,300), contains 150 and does not contain 201. -/
theorem intersect_in_spec (seqid : Str) (start end_ s e : Nat)
    (hstart : start < 2 ^ 64) (_hend : end_ < 2 ^ 64) (hs : s < 2 ^ 64) (_he : e < 2 ^ 64) :
    ((gff_postition_t.mk seqid start end_).intersect s e = true ↔ max start s ≤ min end_ e) ∧
    (max start s ≤ min end_ e ↔
      ∃ p, p < 2 ^ 64 ∧ (start ≤ p ∧ p ≤ end_) ∧ (s ≤ p ∧ p ≤ e)) ∧
    (∀ p, p < 2 ^ 64 →
      ((gff_postition_t.mk seqid start end_).in_ p = true ↔ start ≤ p ∧ p ≤ end_)) ∧
    (gff_postition_t.mk "chr1".toList 100 200).intersect 150 300 = true ∧
    (gff_postition_t.mk "chr1".toList 100 200).intersect 201 300 = false ∧
    (gff_postition_t.mk "chr1".toList 100 200).in_ 150 = true ∧
    (gff_postition_t.mk "chr1".toList 100 200).in_ 201 = false := by
  refine ⟨?_, ?_, ?_, by decide, by decide, by decide, by decide⟩
  · simp only [gff_postition_t.intersect, decide_eq_true_eq]
    rw [max_comm, min_comm]
  · constructor
    · intro h
      refine ⟨max start s, ?_, ?_, ?_⟩
      · exact max_lt hstart hs
      · exact ⟨le_max_left _ _, le_trans h (min_le_left _ _)⟩
      · exact ⟨le_max_right _ _, le_trans h (min_le_right _ _)⟩
    · rintro ⟨p, _, ⟨h1, h2⟩, h3, h4⟩
      exact le_trans (max_le h1 h3) (le_min h2 h4)
  · intro p _
    simp [gff_postition_t.in_]

/-- Witness of C9 at the interval chr1:[100,200] and the range (150,300). -/
theorem intersect_in_spec_witness :
    ((gff_postition_t.mk "chr1".toList 100 200).intersect 150 300 = true ↔
      max 100 150 ≤ min 200 300) ∧
    (max 100 150 ≤ min 200 300 ↔
      ∃ p, p < 2 ^ 64 ∧ (100 ≤ p ∧ p ≤ 200) ∧ (150 ≤ p ∧ p ≤ 300)) :=
  have h := intersect_in_spec "chr1".toList 100 200 150 300
    (by norm_num) (by norm_num) (by norm_num) (by norm_num)
  ⟨h.1, h.2.1⟩

/-! ## Attribute queries (C6) -/

theorem check_attrs_orvalues_false (data : gff_data_t) (name : Str) (l : List gff_attr_t) :
    check_attrs_orvalues data name l false = l.any (fun orv => data.eq_attr name orv) := by
  induction l with
  | nil => rfl
  | cons o rest ih =>
    by_cases h : data.eq_attr name o = true
    · simp [check_attrs_orvalues, h]
    · simp [check_attrs_orvalues, h, ih]

theorem check_attrs_loop_cons (data : gff_data_t) (a : gff_attribute_t)
    (rest : List gff_attribute_t) (b : Bool) :
    check_attrs_loop data (a :: rest) b =
      ((data.eq_attr a.name a.value || a.orvalues.any (fun orv => data.eq_attr a.name orv)) &&
        check_attrs_loop data rest true) := by
  by_cases h : data.eq_attr a.name a.value = true
  · simp [check_attrs_loop, h]
  · have h' : data.eq_attr a.name a.value = false := by simpa using h
    simp only [check_attrs_loop, h', Bool.not_false, if_true, check_attrs_orvalues_false,
      Bool.false_or]
    by_cases h2 : (a.orvalues.any fun orv => data.eq_attr a.name orv) = true
    · simp [h2]
    · have h2' : (a.orvalues.any fun orv => data.eq_attr a.name orv) = false := by simpa using h2
      simp [h2']

theorem check_attrs_eq_all (attr : List gff_attribute_t) (data : gff_data_t) :
    check_attrs attr data =
      attr.all (fun a => data.eq_attr a.name a.value ||
        a.orvalues.any (fun orv => data.eq_attr a.name orv)) := by
  unfold check_attrs
  induction attr with
  | nil => rfl
  | cons a rest ih => rw [check_attrs_loop_cons, ih, List.all_cons]

theorem eq_attr_iff (data : gff_data_t) (name : Str) (val : gff_attr_t) :
    data.eq_attr name val = true ↔
      ∃ v, umap_find data.attributes name = some v ∧ v.eq val = true := by
  unfold gff_data_t.eq_attr
  cases h : umap_find data.attributes name with
  | none => simp
  | some a => simp

/-- C6: check_attrs(Q, r) holds if and only if for every query q of Q the record
has an attribute named q.name whose value equals (gff_attr_t::eq) q.value or one
of q.orvalues: AND across queries, OR within one query; and a record that lacks
q.name for some q of Q never matches. -/
theorem check_attrs_spec (r : gff_data_t) (Q : List gff_attribute_t) :
    (check_attrs Q r = true ↔
      ∀ q ∈ Q, ∃ v, umap_find r.attributes q.name = some v ∧
        (v.eq q.value = true ∨ ∃ o ∈ q.orvalues, v.eq o = true)) ∧
    (∀ q ∈ Q, umap_find r.attributes q.name = none → check_attrs Q r = false) := by
  have key : check_attrs Q r = true ↔
      ∀ q ∈ Q, ∃ v, umap_find r.attributes q.name = some v ∧
        (v.eq q.value = true ∨ ∃ o ∈ q.orvalues, v.eq o = true) := by
    rw [check_attrs_eq_all, List.all_eq_true]
    refine forall_congr' (fun q => forall_congr' (fun _ => ?_))
    simp only [Bool.or_eq_true, List.any_eq_true, eq_attr_iff]
    constructor
    · rintro (⟨v, hv, he⟩ | ⟨o, ho, v, hv, he⟩)
      · exact ⟨v, hv, Or.inl he⟩
      · exact ⟨v, hv, Or.inr ⟨o, ho, he⟩⟩
    · rintro ⟨v, hv, he | ⟨o, ho, he⟩⟩
      · exact Or.inl ⟨v, hv, he⟩
      · exact Or.inr ⟨o, ho, v, hv, he⟩
  refine ⟨key, ?_⟩
  intro q hq hnone
  cases hc : check_attrs Q r with
  | false => rfl
  | true =>
    obtain ⟨v, hv, _⟩ := key.mp hc q hq
    rw [hnone] at hv
    cases hv

/-! ## parse_line: the field count (C5) -/

/-- C5: a line whose number of tab-separated fields (tabs + 1) is not nine makes
parse_line return the empty record `gff_data_t()` and set the error to "line#",
the decimal line number, and " wrong line format (fields count 'K' instead of
'9')" with K the actual count. -/
theorem parse_line_field_count (stod : Str → Option double) (line error : Str) (linenum : Nat)
    (onlystrinval : Bool) (h : line.count '\t' + 1 ≠ 9) :
    parse_line stod line error linenum onlystrinval =
      ({}, "line#".toList ++ to_string linenum ++
        " wrong line format (fields count '".toList ++ to_string (line.count '\t' + 1) ++
        "' instead of '9')".toList) ∧
    (parse_line stod line error linenum onlystrinval).1.empty = true := by
  have hlen := get_fields_length line '\t'
  have main : parse_line stod line error linenum onlystrinval =
      ({}, "line#".toList ++ to_string linenum ++
        " wrong line format (fields count '".toList ++ to_string (line.count '\t' + 1) ++
        "' instead of '9')".toList) := by
    unfold parse_line
    generalize utils.get_fields line '\t' = fs at hlen
    split
    · simp at hlen; omega
    · rw [hlen]
      simp [line_error, to_string]
      rfl
  exact ⟨main, by rw [main]; rfl⟩

/-- Witness of C5: the two-field line "chr1<TAB>x" as line 7. -/
theorem parse_line_field_count_witness :
    parse_line stod_unreached "chr1\tx".toList [] 7 false =
      ({}, "line#7 wrong line format (fields count '2' instead of '9')".toList) ∧
    (parse_line stod_unreached "chr1\tx".toList [] 7 false).1.empty = true :=
  parse_line_field_count stod_unreached "chr1\tx".toList [] 7 false (by decide)

/-! ## parse_line: failure and the empty record (C3, C4) -/

theorem umap_assign_keys {V : Type} (m : List (Str × V)) (k : Str) (v : V) (x : Str) :
    x ∈ (umap_assign m k v).map Prod.fst ↔ x ∈ m.map Prod.fst ∨ x = k := by
  induction m with
  | nil => simp [umap_assign]
  | cons kv rest ih =>
    obtain ⟨k', v'⟩ := kv
    by_cases h : k' = k
    · subst h
      simp only [umap_assign, if_true, List.map_cons, List.mem_cons]
      tauto
    · simp only [umap_assign, h, if_false, List.map_cons, List.mem_cons, ih]
      tauto

theorem umap_assign_nodup {V : Type} (m : List (Str × V)) (k : Str) (v : V)
    (h : (m.map Prod.fst).Nodup) : ((umap_assign m k v).map Prod.fst).Nodup := by
  induction m with
  | nil => simp [umap_assign]
  | cons kv rest ih =>
    obtain ⟨k', v'⟩ := kv
    simp only [List.map_cons, List.nodup_cons] at h
    by_cases hk : k' = k
    · subst hk
      simp only [umap_assign, if_true, List.map_cons, List.nodup_cons]
      exact h
    · simp only [umap_assign, if_neg hk, List.map_cons, List.nodup_cons, umap_assign_keys]
      refine ⟨?_, ih h.2⟩
      rintro (h1 | h1)
      · exact h.1 h1
      · exact hk h1

theorem set_attr_auto_eq (stod : Str → Option double) (d : gff_data_t) (name val : Str) :
    ∃ v, d.set_attr_auto stod name val = d.set_attr name v := by
  unfold gff_data_t.set_attr_auto
  split
  split
  · exact ⟨_, rfl⟩
  · split
    · split <;> exact ⟨_, rfl⟩
    · split <;> exact ⟨_, rfl⟩

/-- What one pass of the attribute loop does to the record: one set_attr. -/
theorem parse_line_attrs_step (stod : Str → Option double) (onlystrinval : Bool)
    (d : gff_data_t) (nm val : Str) :
    ∃ v, (if onlystrinval then d.set_attr nm (.string val)
          else d.set_attr_auto stod nm val) = d.set_attr nm v := by
  cases onlystrinval
  · simpa using set_attr_auto_eq stod d nm val
  · exact ⟨_, rfl⟩

/-- The attribute loop leaves every member but `attributes` alone. -/
theorem parse_line_attrs_frame (stod : Str → Option double) (onlystrinval : Bool)
    (pieces : List Str) :
    ∀ d d', parse_line_attrs stod onlystrinval pieces d = some d' →
      d'.position = d.position ∧ d'.linenum = d.linenum ∧ d'.source = d.source ∧
      d'.type = d.type ∧ d'.score = d.score ∧ d'.strand = d.strand ∧ d'.phase = d.phase := by
  induction pieces with
  | nil => intro d d' h; simp [parse_line_attrs] at h; subst h; simp
  | cons p rest ih =>
    intro d d' h
    unfold parse_line_attrs at h
    split at h
    · rename_i nm val _
      obtain ⟨v, hv⟩ := parse_line_attrs_step stod onlystrinval d nm val
      rw [hv] at h
      have := ih _ _ h
      simpa [gff_data_t.set_attr] using this
    · cases h

/-- Every failure message starts with "line#", so it is not empty. -/
theorem line_error_ne_nil (linenum : Nat) (msg : String) : line_error linenum msg ≠ [] := by
  simp [line_error]

/-- The two ways out of parse_line: the empty record with a message, or a record
whose seqid is the first field with `error` as it was. -/
theorem parse_line_cases (stod : Str → Option double) (line error : Str) (linenum : Nat)
    (onlystrinval : Bool) :
    (∃ msg, msg ≠ [] ∧ parse_line stod line error linenum onlystrinval = ({}, msg)) ∨
    (∃ d, parse_line stod line error linenum onlystrinval = (d, error) ∧
      (utils.get_fields line '\t').head? = some d.position.seqid ∧ d.linenum = linenum) := by
  unfold parse_line
  split
  · rename_i seqid source type start end_ score strand phase attributes hf
    simp only
    split
    · exact Or.inl ⟨_, line_error_ne_nil _ _, rfl⟩
    · split
      · exact Or.inl ⟨_, line_error_ne_nil _ _, rfl⟩
      · split
        · exact Or.inl ⟨_, line_error_ne_nil _ _, rfl⟩
        · split
          · exact Or.inl ⟨_, line_error_ne_nil _ _, rfl⟩
          · split
            · exact Or.inl ⟨_, line_error_ne_nil _ _, rfl⟩
            · split
              · exact Or.inl ⟨_, line_error_ne_nil _ _, rfl⟩
              · rename_i d' hd
                have := parse_line_attrs_frame stod onlystrinval _ _ _ hd
                refine Or.inr ⟨d', rfl, ?_, ?_⟩
                · rw [hf, this.1]; rfl
                · rw [this.2.1]
  · refine Or.inl ⟨_, ?_, rfl⟩
    simp [line_error]

/-- C4, as the code has it: with `error` empty on entry, the record parse_line
returns is empty if and only if it set an error message or the first column of
the line (the seqid) is empty; so every line that sets an error gives an empty
record, and a line that parses with an empty first column gives an empty record
without any error. -/
theorem parse_line_empty_iff (stod : Str → Option double) (line : Str) (linenum : Nat)
    (onlystrinval : Bool) :
    ((parse_line stod line [] linenum onlystrinval).1.empty = true ↔
      ((parse_line stod line [] linenum onlystrinval).2 ≠ [] ∨
        line.takeWhile (fun c => c ≠ '\t') = [])) ∧
    ((parse_line stod line [] linenum onlystrinval).2 ≠ [] →
      (parse_line stod line [] linenum onlystrinval).1.empty = true) := by
  have hhead := get_fields_head line '\t'
  rcases parse_line_cases stod line [] linenum onlystrinval with ⟨msg, hmsg, h⟩ | ⟨d, h, hd, _⟩
  · rw [h]
    simp [hmsg, gff_data_t.empty, gff_postition_t.empty]
  · rw [h]
    rw [hd] at hhead
    simp only [Option.some.injEq] at hhead
    simp [gff_data_t.empty, gff_postition_t.empty, hhead]

/-- C4 fails as stated: the nine-field line with an empty first column
"<TAB>a<TAB>b<TAB>1<TAB>2<TAB>.<TAB>.<TAB>.<TAB>x=y" gives an empty record and
sets no error. -/
theorem parse_line_empty_without_error :
    (parse_line stod_unreached "\ta\tb\t1\t2\t.\t.\t.\tx=y".toList [] 1 false).1.empty = true ∧
    (parse_line stod_unreached "\ta\tb\t1\t2\t.\t.\t.\tx=y".toList [] 1 false).2 = [] := by
  decide

/-- C3 at a start column of 2^63, an unsigned 64-bit value: std::stoll throws,
parse_line returns the empty record and sets the error of the start column. -/
theorem parse_line_start_two_pow_63 :
    parse_line stod_unreached
      "chr1\tsrc\tgene\t9223372036854775808\t9223372036854775809\t.\t+\t.\tID=x".toList
      [] 1 false = ({}, "line#1 wrong 'start' field".toList) := by
  decide

/-! ## parse_line: the attributes column (C10) -/

/-- A piece splits on '=' into exactly two fields when it holds exactly one '=';
the first field is then the text before the '='. -/
theorem get_fields_eq_pair (p : Str) :
    (p.count '=' = 1 → ∃ val, utils.get_fields p '=' = [p.takeWhile (fun c => c ≠ '='), val]) ∧
    (p.count '=' ≠ 1 → ∀ nm val, utils.get_fields p '=' ≠ [nm, val]) := by
  have hlen := get_fields_length p '='
  have hhead := get_fields_head p '='
  constructor
  · intro h
    rw [h] at hlen
    match hfs : utils.get_fields p '=' with
    | [] => rw [hfs] at hlen; simp at hlen
    | [_] => rw [hfs] at hlen; simp at hlen
    | [a, b] =>
      rw [hfs] at hhead
      simp only [List.head?_cons, Option.some.injEq] at hhead
      exact ⟨b, by rw [hhead]⟩
    | _ :: _ :: _ :: _ => rw [hfs] at hlen; simp at hlen
  · intro h nm val hfs
    rw [hfs] at hlen
    simp at hlen
    omega

/-- The attribute loop: it fails exactly when some piece does not hold exactly
one '='; when it succeeds the names of the record are the old ones and the
texts before '=' of the pieces, each once. -/
theorem parse_line_attrs_spec (stod : Str → Option double) (onlystrinval : Bool)
    (pieces : List Str) :
    ∀ d, ((∃ p ∈ pieces, p.count '=' ≠ 1) → parse_line_attrs stod onlystrinval pieces d = none) ∧
      ((∀ p ∈ pieces, p.count '=' = 1) → ∃ d', parse_line_attrs stod onlystrinval pieces d = some d' ∧
        (∀ k, k ∈ d'.attributes.map Prod.fst ↔
          (k ∈ d.attributes.map Prod.fst ∨ ∃ p ∈ pieces, k = p.takeWhile (fun c => c ≠ '='))) ∧
        ((d.attributes.map Prod.fst).Nodup → (d'.attributes.map Prod.fst).Nodup)) := by
  induction pieces with
  | nil =>
    intro d
    refine ⟨by simp, fun _ => ⟨d, rfl, fun k => ⟨Or.inl, ?_⟩, id⟩⟩
    rintro (h | ⟨p, hp, _⟩)
    · exact h
    · cases hp
  | cons p rest ih =>
    intro d
    by_cases hp : p.count '=' = 1
    · obtain ⟨val, hval⟩ := (get_fields_eq_pair p).1 hp
      obtain ⟨v, hv⟩ := parse_line_attrs_step stod onlystrinval d
        (p.takeWhile (fun c => c ≠ '=')) val
      have hstep : parse_line_attrs stod onlystrinval (p :: rest) d =
          parse_line_attrs stod onlystrinval rest
            (d.set_attr (p.takeWhile (fun c => c ≠ '=')) v) := by
        rw [parse_line_attrs, hval]
        simp only
        rw [hv]
      rw [hstep]
      have ih' := ih (d.set_attr (p.takeWhile (fun c => c ≠ '=')) v)
      constructor
      · rintro ⟨q, hq, hqc⟩
        rcases List.mem_cons.mp hq with rfl | hq'
        · exact absurd hp hqc
        · exact ih'.1 ⟨q, hq', hqc⟩
      · intro hall
        obtain ⟨d', hd', hkeys, hnodup⟩ :=
          ih'.2 (fun q hq => hall q (List.mem_cons_of_mem _ hq))
        refine ⟨d', hd', ?_, ?_⟩
        · intro k
          rw [hkeys k]
          simp only [gff_data_t.set_attr, umap_assign_keys, List.mem_cons, exists_eq_or_imp]
          tauto
        · intro hn
          exact hnodup (umap_assign_nodup _ _ _ hn)
    · have hnone : parse_line_attrs stod onlystrinval (p :: rest) d = none := by
        rw [parse_line_attrs]
        split
        · rename_i nm val hfs
          exact absurd hfs ((get_fields_eq_pair p).2 hp nm val)
        · rfl
      rw [hnone]
      constructor
      · intro _; rfl
      · intro hall
        exact absurd (hall p (List.mem_cons_self _ _)) hp

/-- C10: on a nine-field line with a non-empty seqid whose columns 4 to 8 pass
their checks, parse_line succeeds (returns a non-empty record) if and only if
every ';'-separated piece of the trimmed attributes column holds exactly one
'='; on success `error` is left as it was and the attribute names of the record
are exactly the texts before '=' of the pieces, each held once; on failure the
record is `gff_data_t()` and the error is "line#<n> wrong 'attributes' field
format". -/
theorem parse_line_attributes_spec (stod : Str → Option double) (line error : Str)
    (linenum : Nat) (onlystrinval : Bool)
    (seqid source type start end_ score strand phase attributes : Str)
    (hf : utils.get_fields line '\t' =
      [seqid, source, type, start, end_, score, strand, phase, attributes])
    (hseq : seqid ≠ [])
    (hv : columns_valid stod start end_ score strand phase = true) :
    ((parse_line stod line error linenum onlystrinval).1.empty = false ↔
      ∀ p ∈ utils.get_fields (utils.trim attributes) ';', p.count '=' = 1) ∧
    ((∀ p ∈ utils.get_fields (utils.trim attributes) ';', p.count '=' = 1) →
      (parse_line stod line error linenum onlystrinval).2 = error ∧
      (∀ k, k ∈ (parse_line stod line error linenum onlystrinval).1.attributes.map Prod.fst ↔
        ∃ p ∈ utils.get_fields (utils.trim attributes) ';',
          k = p.takeWhile (fun c => c ≠ '=')) ∧
      ((parse_line stod line error linenum onlystrinval).1.attributes.map Prod.fst).Nodup) ∧
    ((¬ ∀ p ∈ utils.get_fields (utils.trim attributes) ';', p.count '=' = 1) →
      parse_line stod line error linenum onlystrinval =
        ({}, "line#".toList ++ to_string linenum ++
          " wrong 'attributes' field format".toList)) := by
  simp only [columns_valid, Bool.and_eq_true, Bool.not_eq_true', Bool.or_eq_true,
    Option.isSome_iff_exists, decide_eq_true_eq] at hv
  obtain ⟨⟨⟨⟨⟨hs1, vstart, hs2⟩, he1, vend, he2⟩, hsc⟩, hst⟩, hph⟩ := hv
  have hsc' : ∃ vscore, (if utils.check_no_data (utils.trim score) = true then some gff_data_t.d_nodata
      else convert_str_to_double stod (utils.trim score)) = some vscore := by
    by_cases h : utils.check_no_data (utils.trim score) = true
    · exact ⟨_, by rw [if_pos h]⟩
    · rcases hsc with h' | ⟨v, h'⟩
      · exact absurd h' h
      · exact ⟨v, by rw [if_neg h, h']⟩
  have hchar : ∀ col : Str, (utils.check_no_data (utils.trim col) = true ∨
      (utils.trim col).length = 1) →
      ∃ c, (if utils.check_no_data (utils.trim col) = true then some (Char.ofNat 0)
        else if (utils.trim col).length ≠ 1 then none else (utils.trim col).head?) = some c := by
    intro col hcol
    by_cases h : utils.check_no_data (utils.trim col) = true
    · exact ⟨_, by rw [if_pos h]⟩
    · rcases hcol with h' | h'
      · exact absurd h' h
      · rw [if_neg h, if_neg (by simpa using h')]
        match hcs : utils.trim col with
        | [] => rw [hcs] at h'; simp at h'
        | c :: _ => exact ⟨c, rfl⟩
  obtain ⟨vscore, hvscore⟩ := hsc'
  obtain ⟨vstrand, hvstrand⟩ := hchar strand hst
  obtain ⟨vphase, hvphase⟩ := hchar phase hph
  have hpl : parse_line stod line error linenum onlystrinval =
      match parse_line_attrs stod onlystrinval (utils.get_fields (utils.trim attributes) ';')
        { source := source, type := type,
          position := { seqid := seqid, start := vstart, end_ := vend },
          score := vscore, strand := vstrand, phase := vphase, linenum := linenum } with
      | none => ({}, line_error linenum " wrong 'attributes' field format")
      | some linedata => (linedata, error) := by
    unfold parse_line
    rw [hf]
    simp only [hs1, hs2, he1, he2, hvscore, hvstrand, hvphase, Bool.false_eq_true, if_false]
  have hspec := parse_line_attrs_spec stod onlystrinval
    (utils.get_fields (utils.trim attributes) ';')
    { source := source, type := type,
      position := { seqid := seqid, start := vstart, end_ := vend },
      score := vscore, strand := vstrand, phase := vphase, linenum := linenum }
  by_cases hall : ∀ p ∈ utils.get_fields (utils.trim attributes) ';', p.count '=' = 1
  · obtain ⟨d', hd', hkeys, hnodup⟩ := hspec.2 hall
    have hfr := parse_line_attrs_frame stod onlystrinval _ _ _ hd'
    rw [hd'] at hpl
    simp only at hpl
    rw [hpl]
    refine ⟨⟨fun _ => hall, fun _ => ?_⟩, fun _ => ⟨rfl, ?_, ?_⟩, fun h => absurd hall h⟩
    · simp [gff_data_t.empty, gff_postition_t.empty, hfr.1, hseq]
    · intro k
      rw [hkeys k]
      simp
    · exact hnodup (by simp)
  · have hex : ∃ p ∈ utils.get_fields (utils.trim attributes) ';', p.count '=' ≠ 1 := by
      push_neg at hall
      exact hall
    rw [hspec.1 hex] at hpl
    simp only at hpl
    rw [hpl]
    refine ⟨⟨fun h => ?_, fun h => absurd h hall⟩, fun h => absurd h hall, fun _ => ?_⟩
    · simp [gff_data_t.empty, gff_postition_t.empty] at h
    · simp [line_error]

/-- Witness of C10: the line of the end-to-end example, whose attributes column
is "gene_id=G1;gene_name=FOO". -/
theorem parse_line_attributes_spec_witness :
    (parse_line stod_unreached
        "chr1\tHAVANA\tgene\t100\t200\t.\t+\t.\tgene_id=G1;gene_name=FOO".toList
        [] 2 false).1.empty = false ↔
      ∀ p ∈ utils.get_fields (utils.trim "gene_id=G1;gene_name=FOO".toList) ';',
        p.count '=' = 1 :=
  (parse_line_attributes_spec stod_unreached
    "chr1\tHAVANA\tgene\t100\t200\t.\t+\t.\tgene_id=G1;gene_name=FOO".toList [] 2 false
    "chr1".toList "HAVANA".toList "gene".toList "100".toList "200".toList ".".toList
    "+".toList ".".toList "gene_id=G1;gene_name=FOO".toList
    (by decide) (by decide) (by decide)).1

/-! ## The indices built by flush (C8) -/

theorem umap_find_assign {V : Type} (m : List (Str × V)) (k : Str) (v : V) (k' : Str) :
    umap_find (umap_assign m k v) k' = if k = k' then some v else umap_find m k' := by
  induction m with
  | nil => simp [umap_assign, umap_find]
  | cons kv rest ih =>
    obtain ⟨k0, v0⟩ := kv
    by_cases h0 : k0 = k
    · subst h0
      by_cases h1 : k0 = k' <;> simp [umap_assign, umap_find, h1]
    · by_cases h1 : k0 = k'
      · subst h1
        have : ¬ k = k0 := fun h => h0 h.symm
        simp [umap_assign, umap_find, h0, this]
      · simp [umap_assign, umap_find, h0, h1, ih]

theorem umap_assign_ne_nil {V : Type} (m : List (Str × V)) (k : Str) (v : V) :
    umap_assign m k v ≠ [] := by
  cases m with
  | nil => simp [umap_assign]
  | cons kv rest =>
    obtain ⟨k0, v0⟩ := kv
    by_cases h0 : k0 = k <;> simp [umap_assign, h0]

theorem index_add_ne_nil (m : List (Str × List Nat)) (k : Str) (ptr : Nat) :
    index_add m k ptr ≠ [] := by
  unfold index_add
  split <;> exact umap_assign_ne_nil _ _ _

theorem umap_find_index_add (m : List (Str × List Nat)) (k : Str) (ptr : Nat) (k' : Str) :
    umap_find (index_add m k ptr) k' =
      bucket_ext (umap_find m k') (if k = k' then [ptr] else []) := by
  unfold index_add
  by_cases h : k = k'
  · subst h
    cases hm : umap_find m k <;> simp [umap_find_assign, bucket_ext]
  · cases hm : umap_find m k <;>
      cases hm' : umap_find m k' <;> simp [umap_find_assign, bucket_ext, h, hm']

theorem bucket_ext_ext (old : Option (List Nat)) (a b : List Nat) :
    bucket_ext (bucket_ext old a) b = bucket_ext old (a ++ b) := by
  cases old with
  | some o => simp [bucket_ext]
  | none =>
    by_cases ha : a = []
    · subst ha; simp [bucket_ext]
    · simp [bucket_ext, ha]

/-- The index loop of flush: every bucket grows by the positions of the records
visited that carry its key, in the order of the visit; the store is not
touched. -/
theorem flush_index_loop_spec (l : List gff_data_t) :
    ∀ (ptr : Nat) (p : gff_parser_t) (k : Str),
      umap_find (flush_index_loop l ptr p)._data_by_seqid k =
        bucket_ext (umap_find p._data_by_seqid k)
          (positions_from (fun d => d.position.seqid = k) l ptr) ∧
      umap_find (flush_index_loop l ptr p)._data_by_type k =
        bucket_ext (umap_find p._data_by_type k)
          (positions_from (fun d => d.type = k) l ptr) ∧
      umap_find (flush_index_loop l ptr p)._data_by_source k =
        bucket_ext (umap_find p._data_by_source k)
          (positions_from (fun d => d.source = k) l ptr) := by
  induction l with
  | nil =>
    intro ptr p k
    refine ⟨?_, ?_, ?_⟩ <;>
      (simp only [flush_index_loop, positions_from]; cases umap_find _ k <;> simp [bucket_ext])
  | cons d rest ih =>
    intro ptr p k
    have h := ih (ptr + 1)
      { p with _data_by_seqid := index_add p._data_by_seqid d.position.seqid ptr,
               _data_by_source := index_add p._data_by_source d.source ptr,
               _data_by_type := index_add p._data_by_type d.type ptr } k
    simp only [flush_index_loop]
    rw [h.1, h.2.1, h.2.2]
    simp only [umap_find_index_add, bucket_ext_ext, positions_from, decide_eq_true_eq]
    refine ⟨?_, ?_, ?_⟩
    · by_cases hk : d.position.seqid = k <;> simp [hk]
    · by_cases hk : d.type = k <;> simp [hk]
    · by_cases hk : d.source = k <;> simp [hk]

theorem flush_index_loop_frame (l : List gff_data_t) :
    ∀ (ptr : Nat) (p : gff_parser_t),
      (flush_index_loop l ptr p)._data = p._data ∧
      (flush_index_loop l ptr p)._thrpool = p._thrpool ∧
      (flush_index_loop l ptr p)._error = p._error ∧
      (flush_index_loop l ptr p)._linenum = p._linenum ∧
      (flush_index_loop l ptr p)._gff_version = p._gff_version ∧
      (flush_index_loop l ptr p)._onlystrval = p._onlystrval ∧
      (flush_index_loop l ptr p)._threads = p._threads := by
  induction l with
  | nil => intro ptr p; simp [flush_index_loop]
  | cons d rest ih =>
    intro ptr p
    simp only [flush_index_loop]
    have h := ih (ptr + 1)
      { p with _data_by_seqid := index_add p._data_by_seqid d.position.seqid ptr,
               _data_by_source := index_add p._data_by_source d.source ptr,
               _data_by_type := index_add p._data_by_type d.type ptr }
    exact h

/-- The indices are empty after the loop only when no record was visited. -/
theorem flush_index_loop_ne_nil (l : List gff_data_t) :
    ∀ (ptr : Nat) (p : gff_parser_t), (l ≠ [] ∨ p._data_by_seqid ≠ []) →
      (flush_index_loop l ptr p)._data_by_seqid ≠ [] := by
  induction l with
  | nil => intro ptr p h; rcases h with h | h; exact absurd rfl h; simpa [flush_index_loop] using h
  | cons d rest ih =>
    intro ptr p _
    simp only [flush_index_loop]
    exact ih _ _ (Or.inr (index_add_ne_nil _ _ _))

theorem flush_index_loop_type_ne_nil (l : List gff_data_t) :
    ∀ (ptr : Nat) (p : gff_parser_t), (l ≠ [] ∨ p._data_by_type ≠ []) →
      (flush_index_loop l ptr p)._data_by_type ≠ [] := by
  induction l with
  | nil => intro ptr p h; rcases h with h | h; exact absurd rfl h; simpa [flush_index_loop] using h
  | cons d rest ih =>
    intro ptr p _
    simp only [flush_index_loop]
    exact ih _ _ (Or.inr (index_add_ne_nil _ _ _))

/-- The positions counted by the recursion are those a filter over the range of
positions keeps. -/
theorem positions_from_eq (f : gff_data_t → Bool) (l : List gff_data_t) :
    ∀ ptr, positions_from f l ptr =
      ((List.range l.length).filter (fun i => f (l.getD i {}))).map (fun i => i + ptr) := by
  induction l with
  | nil => intro ptr; simp [positions_from]
  | cons d rest ih =>
    intro ptr
    have hfun : ((fun i => f ((d :: rest).getD i {})) ∘ Nat.succ) =
        (fun i => f (rest.getD i {})) := by
      funext i; simp
    have hmap : ((fun i => i + ptr) ∘ Nat.succ) = (fun i => i + (ptr + 1)) := by
      funext i; simp; omega
    rw [List.length_cons, List.range_succ_eq_map, List.filter_cons, List.filter_map, hfun]
    simp only [positions_from, List.getD_cons_zero, ih]
    by_cases hd : f d = true
    · simp only [hd, if_true, List.map_cons, List.map_map, hmap, Nat.zero_add]
    · simp only [hd, if_false, List.map_map, hmap]
      simp
      intros
      omega

theorem positions_from_zero (f : gff_data_t → Bool) (l : List gff_data_t) :
    positions_from f l 0 = (List.range l.length).filter (fun i => f (l.getD i {})) := by
  rw [positions_from_eq]; simp

/-! ## Reachable states and flush -/

theorem operator_lshift_line_indices (stod : Str → Option double) (p : gff_parser_t)
    (line : Str) :
    (p.operator_lshift_line stod line)._data_by_seqid = p._data_by_seqid ∧
    (p.operator_lshift_line stod line)._data_by_type = p._data_by_type ∧
    (p.operator_lshift_line stod line)._data_by_source = p._data_by_source := by
  unfold gff_parser_t.operator_lshift_line
  split_ifs
  · exact ⟨rfl, rfl, rfl⟩
  · split
    · exact ⟨rfl, rfl, rfl⟩
    · simp only
      split_ifs <;> exact ⟨rfl, rfl, rfl⟩

/-- Ingestion and the workers never touch the indices. -/
theorem step_indices (stod : Str → Option double) (p p' : gff_parser_t) (e : event)
    (h : step stod p e = some p') :
    p'._data_by_seqid = p._data_by_seqid ∧ p'._data_by_type = p._data_by_type ∧
      p'._data_by_source = p._data_by_source := by
  cases e with
  | line l =>
    simp only [step, gff_parser_t.operator_lshift] at h
    split_ifs at h
    · cases h; exact ⟨rfl, rfl, rfl⟩
    · split at h
      · cases h; exact ⟨rfl, rfl, rfl⟩
      · split at h
        · cases h
        · split_ifs at h
          · cases h; exact ⟨rfl, rfl, rfl⟩
          · cases h; exact operator_lshift_line_indices stod _ l
    · cases h; exact operator_lshift_line_indices stod _ l
  | worker i =>
    simp only [step] at h
    split at h
    · cases h; exact ⟨rfl, rfl, rfl⟩
    · cases h; exact ⟨rfl, rfl, rfl⟩

theorem run_indices (stod : Str → Option double) (evs : List event) :
    ∀ p p', run stod p evs = some p' →
      p'._data_by_seqid = p._data_by_seqid ∧ p'._data_by_type = p._data_by_type ∧
        p'._data_by_source = p._data_by_source := by
  induction evs with
  | nil => intro p p' h; simp only [run, Option.some.injEq] at h; subst h; exact ⟨rfl, rfl, rfl⟩
  | cons e rest ih =>
    intro p p' h
    simp only [run] at h
    split at h
    · cases h
    · rename_i p1 h1
      have a := step_indices stod p p1 e h1
      have b := ih p1 p' h
      exact ⟨b.1.trans a.1, b.2.1.trans a.2.1, b.2.2.trans a.2.2⟩

/-- After a run from a fresh parser the indices are still empty. -/
theorem run_init_indices (stod : Str → Option double) (threads : Int) (onlystr : Bool)
    (evs : List event) (s : gff_parser_t)
    (h : run stod (gff_parser_t.init threads onlystr) evs = some s) :
    s._data_by_seqid = [] := by
  have := (run_indices stod evs _ _ h).1
  rw [this]
  rfl

/-- The state the pool is left in by thread_pool_t::flush: nothing buffered and
no thread. -/
theorem pool_flush_drained (stod : Str → Option double) (tp : thread_pool_t) (error : Str) :
    (tp.flush stod error).1._tmpdata = [] ∧ (tp.flush stod error).1._tpool = [] := by
  unfold thread_pool_t.flush
  exact ⟨rfl, rfl⟩

/-- A pool that holds nothing is left as it is by thread_pool_t::flush. -/
theorem pool_flush_of_empty (stod : Str → Option double) (tp : thread_pool_t) (error : Str)
    (h : tp.empty = true) : tp.flush stod error = (tp, error) := by
  obtain ⟨thrmax, onlystr, tmpdata, data, tpool⟩ := tp
  simp only [thread_pool_t.empty, Bool.and_eq_true, decide_eq_true_eq] at h
  obtain ⟨⟨h1, h2⟩, h3⟩ := h
  subst h1 h2 h3
  simp [thread_pool_t.flush, join_all]

/-- The body of flush past its first test: the parser after the pool's batches
were merged into the store, before the indices are built. -/
theorem flush_of_index_nil (stod : Str → Option double) (p : gff_parser_t)
    (h : p._data_by_seqid = []) :
    ∃ q : gff_parser_t, p.flush stod = flush_index_loop q._data 0 q ∧
      q._data_by_seqid = [] ∧ q._data_by_type = [] ∧ q._data_by_source = [] ∧
      (∀ tp, q._thrpool = some tp → tp.empty = true) ∧
      (p._thrpool = none → q._data = p._data) ∧
      (∀ tp, p._thrpool = some tp → q._data =
        ((sort_pooldata (tp.flush stod p._error).1._data).map (fun t => t.data)).flatten) := by
  unfold gff_parser_t.flush
  rw [h]
  simp only [ne_eq, not_true_eq_false, decide_False, Bool.false_and, Bool.false_eq_true, if_false]
  cases hp : p._thrpool with
  | none =>
    refine ⟨{ p with _data_by_seqid := [], _data_by_source := [], _data_by_type := [] },
      rfl, rfl, rfl, rfl, ?_, fun _ => rfl, (fun tp htp => by cases htp)⟩
    intro tp htp
    simp only at htp
    rw [hp] at htp
    cases htp
  | some tp =>
    refine ⟨{ p with
        _thrpool := some { (tp.flush stod p._error).1 with _data := [] },
        _error := (tp.flush stod p._error).2,
        _data := ((sort_pooldata (tp.flush stod p._error).1._data).map
          (fun t => t.data)).flatten,
        _data_by_seqid := [], _data_by_source := [], _data_by_type := [] },
      rfl, rfl, rfl, rfl, ?_, (fun hn => by cases hn),
      (fun tp' htp' => by cases htp'; rfl)⟩
    intro tp' htp'
    simp only [Option.some.injEq] at htp'
    subst htp'
    have := pool_flush_drained stod tp p._error
    simp [thread_pool_t.empty, this.1, this.2]

/-- Lemma A: flush on a parser that has no index yet builds the three indices of
the store it leaves. -/
theorem flush_indexed (stod : Str → Option double) (p : gff_parser_t)
    (h : p._data_by_seqid = []) : indexed (p.flush stod) := by
  obtain ⟨q, hq, h1, h2, h3, h4, _, _⟩ := flush_of_index_nil stod p h
  rw [hq]
  have hfr := flush_index_loop_frame q._data 0 q
  have hsp := flush_index_loop_spec q._data 0 q
  refine ⟨?_, ?_, ?_, ?_, ?_, ?_⟩
  · intro k; rw [(hsp k).1, hfr.1, h1]; rfl
  · intro k; rw [(hsp k).2.1, hfr.1, h2]; rfl
  · intro k; rw [(hsp k).2.2, hfr.1, h3]; rfl
  · intro hd
    rw [hfr.1] at hd
    rw [hd]
    simp [flush_index_loop, h1, h2, h3]
  · intro hd
    rw [hfr.1] at hd
    exact ⟨flush_index_loop_ne_nil _ _ _ (Or.inl hd), flush_index_loop_type_ne_nil _ _ _ (Or.inl hd)⟩
  · intro tp htp
    rw [hfr.2.1] at htp
    exact h4 tp htp

/-- Lemma B: flush leaves an indexed parser as it is. -/
theorem flush_of_indexed (stod : Str → Option double) (s : gff_parser_t) (h : indexed s) :
    s.flush stod = s := by
  obtain ⟨_, _, _, h4, h5, h6⟩ := h
  by_cases hidx : s._data_by_seqid = []
  · have hd : s._data = [] := by
      by_contra hne
      exact (h5 hne).1 hidx
    obtain ⟨i1, i2, i3⟩ := h4 hd
    obtain ⟨threads, thrpool, ver, ln, os, err, data, ix1, ix2, ix3⟩ := s
    simp only at hd i1 i2 i3 h6
    subst hd i1 i2 i3
    cases thrpool with
    | none => simp [gff_parser_t.flush, flush_index_loop]
    | some tp =>
      have he := h6 tp rfl
      have hf := pool_flush_of_empty stod tp err he
      obtain ⟨thrmax, onlystr, tmpdata, pdata, tpool⟩ := tp
      simp only [thread_pool_t.empty, Bool.and_eq_true, decide_eq_true_eq] at he
      obtain ⟨⟨e1, e2⟩, e3⟩ := he
      subst e1 e2 e3
      simp [gff_parser_t.flush, hf, flush_index_loop, sort_pooldata]
  · unfold gff_parser_t.flush
    have : (match s._thrpool with
        | none => true
        | some tp => tp.empty) = true := by
      cases hp : s._thrpool with
      | none => rfl
      | some tp => exact h6 tp hp
    rw [this]
    simp [hidx]

theorem index_add_nodup (m : List (Str × List Nat)) (k : Str) (ptr : Nat)
    (h : (m.map Prod.fst).Nodup) : ((index_add m k ptr).map Prod.fst).Nodup := by
  unfold index_add
  split <;> exact umap_assign_nodup _ _ _ h

/-- The index loop of flush keeps the keys of each index distinct. -/
theorem flush_index_loop_nodup (l : List gff_data_t) :
    ∀ (ptr : Nat) (p : gff_parser_t),
      (p._data_by_seqid.map Prod.fst).Nodup → (p._data_by_type.map Prod.fst).Nodup →
      (p._data_by_source.map Prod.fst).Nodup →
      ((flush_index_loop l ptr p)._data_by_seqid.map Prod.fst).Nodup ∧
      ((flush_index_loop l ptr p)._data_by_type.map Prod.fst).Nodup ∧
      ((flush_index_loop l ptr p)._data_by_source.map Prod.fst).Nodup := by
  induction l with
  | nil => intro ptr p h1 h2 h3; exact ⟨h1, h2, h3⟩
  | cons d rest ih =>
    intro ptr p h1 h2 h3
    simp only [flush_index_loop]
    exact ih _ _ (index_add_nodup _ _ _ h1) (index_add_nodup _ _ _ h2)
      (index_add_nodup _ _ _ h3)

/-- The keys of each index flush builds are distinct. -/
theorem flush_nodup (stod : Str → Option double) (p : gff_parser_t)
    (h : p._data_by_seqid = []) :
    (((p.flush stod)._data_by_seqid).map Prod.fst).Nodup ∧
    (((p.flush stod)._data_by_type).map Prod.fst).Nodup ∧
    (((p.flush stod)._data_by_source).map Prod.fst).Nodup := by
  obtain ⟨q, hq, h1, h2, h3, _⟩ := flush_of_index_nil stod p h
  rw [hq]
  exact flush_index_loop_nodup _ _ _ (by rw [h1]; simp) (by rw [h2]; simp) (by rw [h3]; simp)

/-! ## The indices after flush (C8) -/

/-- C8: after a run from a fresh parser and flush, in each of the three indices
(by seqid, by type, by source) the bucket of every key k is exactly the list,
in store order, of the positions of the store records whose seqid (type,
source) is k, and a key that no record carries has no bucket; each index holds
a key once, so every record is referenced exactly once in each index. -/
theorem flush_index_spec (stod : Str → Option double) (threads : Int) (onlystr : Bool)
    (evs : List event) (s : gff_parser_t)
    (hrun : run stod (gff_parser_t.init threads onlystr) evs = some s) (k : Str) :
    umap_find (s.flush stod)._data_by_seqid k =
      (if (List.range (s.flush stod)._data.length).filter
            (fun i => ((s.flush stod).deref i).position.seqid = k) = [] then none
       else some ((List.range (s.flush stod)._data.length).filter
            (fun i => ((s.flush stod).deref i).position.seqid = k))) ∧
    umap_find (s.flush stod)._data_by_type k =
      (if (List.range (s.flush stod)._data.length).filter
            (fun i => ((s.flush stod).deref i).type = k) = [] then none
       else some ((List.range (s.flush stod)._data.length).filter
            (fun i => ((s.flush stod).deref i).type = k))) ∧
    umap_find (s.flush stod)._data_by_source k =
      (if (List.range (s.flush stod)._data.length).filter
            (fun i => ((s.flush stod).deref i).source = k) = [] then none
       else some ((List.range (s.flush stod)._data.length).filter
            (fun i => ((s.flush stod).deref i).source = k))) ∧
    ((s.flush stod)._data_by_seqid.map Prod.fst).Nodup ∧
    ((s.flush stod)._data_by_type.map Prod.fst).Nodup ∧
    ((s.flush stod)._data_by_source.map Prod.fst).Nodup := by
  have hnil := run_init_indices stod threads onlystr evs s hrun
  have hix := flush_indexed stod s hnil
  obtain ⟨n1, n2, n3⟩ := flush_nodup stod s hnil
  obtain ⟨h1, h2, h3, _⟩ := hix
  rw [h1 k, h2 k, h3 k]
  refine ⟨?_, ?_, ?_, n1, n2, n3⟩ <;> simp [positions_from_zero, bucket_ext, gff_parser_t.deref]

/-- Witness of C8: the example of the spec, ingested synchronously; the bucket
of "chr1" is the position of its one record. -/
theorem flush_index_spec_witness :
    run stod_unreached (gff_parser_t.init 0 false) (lines example_lines) = some example_sync_state ∧
    umap_find (example_sync_state.flush stod_unreached)._data_by_seqid "chr1".toList = some [0] :=
  ⟨by decide, by
    have h := (flush_index_spec stod_unreached 0 false (lines example_lines) example_sync_state
      (by decide) "chr1".toList).1
    rw [h]
    decide⟩

/-! ## Queries (C1) -/

/-- Reading a bucket of an index built by flush and filtering it by `g`: the
bucket is there and gives the positions whose record satisfies `full`, or it is
not there and no record satisfies `full`; `full` is `g` and the key test. -/
theorem query_bucket (s : gff_parser_t) (f g full : gff_data_t → Bool)
    (hfull : ∀ r, full r = (f r && g r)) :
    (bucket_ext none (positions_from f s._data 0) = some (positions_from f s._data 0) ∧
      (positions_from f s._data 0).filter (fun i => g (s.deref i)) =
        (List.range s._data.length).filter (fun i => full (s.deref i))) ∨
    (bucket_ext none (positions_from f s._data 0) = none ∧
      [] = (List.range s._data.length).filter (fun i => full (s.deref i))) := by
  have key : (positions_from f s._data 0).filter (fun i => g (s.deref i)) =
      (List.range s._data.length).filter (fun i => full (s.deref i)) := by
    rw [positions_from_zero, List.filter_filter]
    apply List.filter_congr
    intro i _
    rw [hfull, Bool.and_comm]
    rfl
  by_cases hB : positions_from f s._data 0 = []
  · right
    refine ⟨by simp [bucket_ext, hB], ?_⟩
    rw [← key, hB]
    rfl
  · left
    exact ⟨by simp [bucket_ext, hB], key⟩

/-- The test get_by makes on a record of the seqid bucket, with the key test of
the bucket, is the test of the spec when a position filter is present. -/
theorem query_matches_position (type : Str) (attr : List gff_attribute_t)
    (position : gff_postition_t) (hp : position.seqid ≠ []) (r : gff_data_t) :
    query_matches type attr position r =
      (decide (r.position.seqid = position.seqid) &&
        ((if position.singlepos = true then r.position.in_ position.start
          else r.position.intersect position.start position.end_) &&
          !(decide (type ≠ []) && decide (r.type ≠ type)) &&
          !(decide (attr ≠ []) && !check_attrs attr r))) := by
  have hsp : (position.singlepos = true) = (position.start = position.end_) := by
    simp [gff_postition_t.singlepos]
  simp only [query_matches, hsp, hp, decide_False, Bool.false_or]
  generalize (if position.start = position.end_ then r.position.in_ position.start
    else r.position.intersect position.start position.end_) = x
  by_cases ht : type = [] <;> by_cases ha : attr = [] <;>
    cases x <;> cases decide (r.position.seqid = position.seqid) <;>
    cases check_attrs attr r <;> by_cases hrt : r.type = type <;> simp [ht, ha, hrt]

/-- The test of the spec with a type filter and no position filter. -/
theorem query_matches_type (type : Str) (attr : List gff_attribute_t)
    (position : gff_postition_t) (ht : type ≠ []) (hp : position.seqid = []) (r : gff_data_t) :
    query_matches type attr position r = (decide (r.type = type) && check_attrs attr r) := by
  simp only [query_matches, hp, ht, decide_False, decide_True, Bool.false_or, Bool.true_or,
    Bool.and_true]
  by_cases ha : attr = []
  · subst ha
    simp [check_attrs, check_attrs_loop]
  · simp [ha]

theorem get_by_of_indexed (stod : Str → Option double) (s : gff_parser_t) (h : indexed s)
    (type : Str) (attr : List gff_attribute_t) (position : gff_postition_t)
    (hpresent : type ≠ [] ∨ attr ≠ [] ∨ position.seqid ≠ []) :
    (s.get_by stod type attr position).1 =
      (List.range s._data.length).filter
        (fun i => query_matches type attr position (s.deref i)) := by
  have hfl := flush_of_indexed stod s h
  obtain ⟨h1, h2, _, _⟩ := h
  unfold gff_parser_t.get_by gff_parser_t.get_by_type gff_parser_t.get_by_attr
    gff_parser_t.get_by_pos
  simp only [hfl, ite_self, h1, h2, gff_postition_t.empty, decide_eq_true_eq]
  by_cases ht : type = [] <;> by_cases ha : attr = [] <;> by_cases hp : position.seqid = []
  · simp [ht, ha, hp] at hpresent
  · -- position only
    simp only [ht, ha, hp, ne_eq, not_true_eq_false, not_false_eq_true, and_true, true_and,
      and_false, false_and, and_self, if_true, if_false]
    by_cases hs : position.singlepos = true
    · rcases query_bucket s (fun d => d.position.seqid = position.seqid)
        (fun d => d.position.in_sid position.seqid position.start)
        (query_matches [] [] position) (by
          intro r
          simp only [gff_postition_t.singlepos, decide_eq_true_eq] at hs
          simp only [query_matches, gff_postition_t.in_sid, gff_postition_t.in_, hs, if_true, hp]
          cases decide (r.position.seqid = position.seqid) <;> simp [check_attrs, check_attrs_loop])
        with ⟨hb, hres⟩ | ⟨hb, hres⟩ <;> rw [hb] <;> simp only [hs, if_true] <;> exact hres
    · rcases query_bucket s (fun d => d.position.seqid = position.seqid)
        (fun d => d.position.intersect_sid position.seqid position.start position.end_)
        (query_matches [] [] position) (by
          intro r
          simp only [gff_postition_t.singlepos, decide_eq_true_eq] at hs
          simp only [query_matches, gff_postition_t.intersect_sid, gff_postition_t.intersect,
            hs, if_false, hp]
          cases decide (r.position.seqid = position.seqid) <;> simp [check_attrs, check_attrs_loop])
        with ⟨hb, hres⟩ | ⟨hb, hres⟩ <;> rw [hb] <;> simp only [hs, if_false] <;> exact hres
  · -- attributes only
    simp only [ht, ha, hp, ne_eq, not_true_eq_false, not_false_eq_true, and_true, true_and,
      and_false, false_and, and_self, if_true, if_false]
    apply List.filter_congr
    intro i _
    simp [query_matches, ha, hp]
  · -- attributes and position
    simp only [ht, ha, hp, ne_eq, not_true_eq_false, not_false_eq_true, and_true, true_and,
      and_false, false_and, and_self, if_true, if_false]
    rcases query_bucket s (fun d => d.position.seqid = position.seqid) _
        (query_matches [] attr position) (query_matches_position [] attr position hp)
      with ⟨hb, hres⟩ | ⟨hb, hres⟩ <;> rw [hb] <;>
      simp only [ne_eq, ht, ha, not_true_eq_false, not_false_eq_true] at hres ⊢ <;> exact hres
  · -- type only
    simp only [ht, ha, hp, ne_eq, not_true_eq_false, not_false_eq_true, and_true, true_and,
      and_false, false_and, and_self, if_true, if_false]
    rcases query_bucket s (fun d => d.type = type) (fun d => check_attrs [] d)
        (query_matches type [] position) (query_matches_type type [] position ht hp)
      with ⟨hb, hres⟩ | ⟨hb, hres⟩ <;> rw [hb] <;> simp only
    · rw [← hres]
      simp [check_attrs, check_attrs_loop]
    · exact hres
  · -- type and position
    simp only [ht, ha, hp, ne_eq, not_true_eq_false, not_false_eq_true, and_true, true_and,
      and_false, false_and, and_self, if_true, if_false]
    rcases query_bucket s (fun d => d.position.seqid = position.seqid) _
        (query_matches type [] position) (query_matches_position type [] position hp)
      with ⟨hb, hres⟩ | ⟨hb, hres⟩ <;> rw [hb] <;>
      simp only [ne_eq, ht, ha, not_true_eq_false, not_false_eq_true] at hres ⊢ <;> exact hres
  · -- type and attributes
    simp only [ht, ha, hp, ne_eq, not_true_eq_false, not_false_eq_true, and_true, true_and,
      and_false, false_and, and_self, if_true, if_false]
    rcases query_bucket s (fun d => d.type = type) (fun d => check_attrs attr d)
        (query_matches type attr position) (query_matches_type type attr position ht hp)
      with ⟨hb, hres⟩ | ⟨hb, hres⟩ <;> rw [hb] <;> simp only <;> exact hres
  · -- type, attributes and position
    simp only [ht, ha, hp, ne_eq, not_true_eq_false, not_false_eq_true, and_true, true_and,
      and_false, false_and, and_self, if_true, if_false]
    rcases query_bucket s (fun d => d.position.seqid = position.seqid) _
        (query_matches type attr position) (query_matches_position type attr position hp)
      with ⟨hb, hres⟩ | ⟨hb, hres⟩ <;> rw [hb] <;>
      simp only [ne_eq, ht, ha, not_true_eq_false, not_false_eq_true] at hres ⊢ <;> exact hres

/-- C1: after any run from a fresh parser and flush, for every query with at
least one filter present (type not empty, attribute list not empty, or position
seqid not empty), get_by returns exactly the positions of the store records,
each once and in store order, that satisfy every present filter: the record's
type is `type`; check_attrs(attr, record) holds; the record's seqid is the
filter's seqid and its interval contains position.start when position.start ==
position.end, intersects [position.start, position.end] otherwise. -/
theorem get_by_spec (stod : Str → Option double) (threads : Int) (onlystr : Bool)
    (evs : List event) (s : gff_parser_t)
    (hrun : run stod (gff_parser_t.init threads onlystr) evs = some s)
    (type : Str) (attr : List gff_attribute_t) (position : gff_postition_t)
    (hpresent : type ≠ [] ∨ attr ≠ [] ∨ position.seqid ≠ []) :
    ((s.flush stod).get_by stod type attr position).1 =
      (List.range (s.flush stod)._data.length).filter
        (fun i => query_matches type attr position ((s.flush stod).deref i)) :=
  get_by_of_indexed stod (s.flush stod)
    (flush_indexed stod s (run_init_indices stod threads onlystr evs s hrun))
    type attr position hpresent

/-- Witness of C1: the example of the spec, ingested synchronously, queried by
the type "gene". -/
theorem get_by_spec_witness :
    ((example_sync_state.flush stod_unreached).get_by stod_unreached "gene".toList [] {}).1 =
      (List.range (example_sync_state.flush stod_unreached)._data.length).filter
        (fun i => query_matches "gene".toList [] {}
          ((example_sync_state.flush stod_unreached).deref i)) :=
  get_by_spec stod_unreached 0 false (lines example_lines) example_sync_state (by decide)
    "gene".toList [] {} (Or.inl (by decide))

/-! ## The end-to-end example (C7) -/

/-- C7: ingesting "##gff-version 3" and the line of chr1:100-200, a gene of
HAVANA with gene_id=G1 and gene_name=FOO, sets no error, whatever the number of
threads and the typing flag; after flush the query (type "gene") returns
exactly one record, whose gene_name is the text "FOO"; the point query chr1:150
returns that same record; the query (type "gene", point chr2:150) returns
none. -/
theorem end_to_end_example (stod : Str → Option double) (threads : Int) (onlystr : Bool) :
    ∃ s, run stod (gff_parser_t.init threads onlystr) (lines example_lines) = some s ∧
      s._error = [] ∧ (s.flush stod)._error = [] ∧
      ((s.flush stod).get_by stod "gene".toList [] {}).1 = [0] ∧
      ((s.flush stod).deref 0).get_attr "gene_name".toList = .string "FOO".toList ∧
      ((s.flush stod).get_by stod [] []
        { seqid := "chr1".toList, start := 150, end_ := 150 }).1 = [0] ∧
      ((s.flush stod).get_by stod "gene".toList []
        { seqid := "chr2".toList, start := 150, end_ := 150 }).1 = [] := by
  by_cases ht : threads > 0
  · refine ⟨{ _threads := threads,
              _thrpool := some { _thrmax := threads, _attronlystr := onlystr,
                                 _tmpdata := [{ data := example_lines.getD 1 [], lnum := 2 }] },
              _gff_version := 3, _linenum := 2, _onlystrval := onlystr }, ?_, ?_⟩
    · simp only [gff_parser_t.init, ht, if_true]
      rfl
    · cases onlystr <;> exact ⟨rfl, rfl, rfl, rfl, rfl, rfl⟩
  · refine ⟨{ _threads := threads, _thrpool := none, _gff_version := 3, _linenum := 2,
              _onlystrval := onlystr, _data := [example_record] }, ?_, ?_⟩
    · simp only [gff_parser_t.init, ht, if_false]
      cases onlystr <;> rfl
    · cases onlystr <;> exact ⟨rfl, rfl, rfl, rfl, rfl, rfl⟩

/-! ## The pooled pipeline (C2) -/

/-- The record parse_line returns does not depend on the old value of `error`. -/
theorem parse_line_record (stod : Str → Option double) (line error : Str) (linenum : Nat)
    (onlystrinval : Bool) :
    (parse_line stod line error linenum onlystrinval).1 =
      (parse_line stod line [] linenum onlystrinval).1 := by
  unfold parse_line
  split
  · simp only
    split
    · rfl
    · split
      · rfl
      · split
        · rfl
        · split
          · rfl
          · split
            · rfl
            · split <;> rfl
  · rfl

theorem records_append (stod : Str → Option double) (onlystr : Bool) (a b : List thr_data_t) :
    records stod onlystr (a ++ b) = records stod onlystr a ++ records stod onlystr b := by
  simp [records, List.filterMap_append]

theorem records_cons (stod : Str → Option double) (onlystr : Bool) (d : thr_data_t)
    (rest : List thr_data_t) :
    records stod onlystr (d :: rest) =
      (if (parse_line stod d.data [] d.lnum onlystr).1.empty then []
       else [(parse_line stod d.data [] d.lnum onlystr).1]) ++ records stod onlystr rest := by
  simp only [records, List.filterMap_cons, parse_ok]
  split_ifs <;> simp_all

/-- One step of a worker keeps its invariant and keeps what the pool's `_data`
holds with what the worker has still to push; the step finishes the worker or
shortens the lines it has left. -/
theorem thrproc_step_spec (stod : Str → Option double) (onlystr : Bool) (t : thrproc_t)
    (out : List gff_data_tmp_t) (error : Str) (h : worker_inv stod onlystr t) :
    worker_inv stod onlystr (thrproc_step stod onlystr t out error).1 ∧
    (thrproc_step stod onlystr t out error).2.1 ++
        (pending stod onlystr (thrproc_step stod onlystr t out error).1).toList =
      out ++ (pending stod onlystr t).toList ∧
    ((thrproc_step stod onlystr t out error).1.finished = true ∨
      (thrproc_step stod onlystr t out error).1.todo.length + 1 = t.todo.length) := by
  unfold thrproc_step
  by_cases hf : t.finished = true
  · simp only [hf, if_true]
    exact ⟨h, trivial, Or.inl trivial⟩
  · have hf' : t.finished = false := by simpa using hf
    simp only [hf', Bool.false_eq_true, if_false]
    have hw := h hf'
    cases htodo : t.todo with
    | nil =>
      rw [htodo] at hw
      simp only [records, List.filterMap_nil, List.append_nil] at hw
      simp only
      by_cases ho : t.outtmp = []
      · simp only [ho, ne_eq, not_true_eq_false, if_false]
        refine ⟨fun hc => by simp at hc, ?_, Or.inl trivial⟩
        have : batch_out stod onlystr t.data = none := by
          simp [batch_out, records, ← hw, ho]
        simp [pending, hf', this]
      · simp only [ne_eq, ho, not_false_eq_true, if_true]
        refine ⟨fun hc => by simp at hc, ?_, Or.inl trivial⟩
        have hne : records stod onlystr t.data ≠ [] := by
          simpa [records, ← hw] using ho
        have : batch_out stod onlystr t.data =
            some { data := t.outtmp, linestart := front_lnum t.data,
                   lineend := back_lnum t.data } := by
          simp only [batch_out, hne, if_false]
          simp [records, ← hw]
        simp [pending, hf', this]
    | cons d rest =>
      rw [htodo, records_cons] at hw
      simp only
      refine ⟨?_, ?_, Or.inr (by simp)⟩
      · intro _
        simp only
        rw [← hw]
        by_cases he : (parse_line stod d.data [] d.lnum onlystr).1.empty = true
        · simp [he]
        · simp [he]
      · simp [pending, hf']

/-- Steps of a worker: the invariant and the conservation of thrproc_step_spec,
and the worker has finished once it took more steps than it had lines left. -/
theorem thrproc_steps_spec (stod : Str → Option double) (onlystr : Bool) :
    ∀ (n : Nat) (t : thrproc_t) (out : List gff_data_tmp_t) (error : Str),
      worker_inv stod onlystr t →
      worker_inv stod onlystr (thrproc_steps stod onlystr n t out error).1 ∧
      (thrproc_steps stod onlystr n t out error).2.1 ++
          (pending stod onlystr (thrproc_steps stod onlystr n t out error).1).toList =
        out ++ (pending stod onlystr t).toList ∧
      (t.todo.length < n → (thrproc_steps stod onlystr n t out error).1.finished = true) := by
  intro n
  induction n with
  | zero =>
    intro t out error h
    exact ⟨h, rfl, fun hlt => absurd hlt (Nat.not_lt_zero _)⟩
  | succ n ih =>
    intro t out error h
    obtain ⟨h1, h2, h3⟩ := thrproc_step_spec stod onlystr t out error h
    obtain ⟨i1, i2, i3⟩ := ih (thrproc_step stod onlystr t out error).1
      (thrproc_step stod onlystr t out error).2.1
      (thrproc_step stod onlystr t out error).2.2 h1
    simp only [thrproc_steps]
    refine ⟨i1, i2.trans h2, ?_⟩
    intro hlt
    rcases h3 with hfin | hlen
    · by_cases hz : (thrproc_step stod onlystr t out error).1.todo.length < n
      · exact i3 hz
      · -- a finished worker stays finished
        have hstay : ∀ (m : Nat) (u : thrproc_t) (o : List gff_data_tmp_t) (e : Str),
            u.finished = true → (thrproc_steps stod onlystr m u o e).1.finished = true := by
          intro m
          induction m with
          | zero => intro u o e hu; exact hu
          | succ m ihm =>
            intro u o e hu
            simp only [thrproc_steps]
            have : thrproc_step stod onlystr u o e = (u, o, e) := by
              simp [thrproc_step, hu]
            rw [this]
            exact ihm u o e hu
        exact hstay _ _ _ _ hfin
    · exact i3 (by omega)

/-- The call join on a worker pushes what the worker had still to push. -/
theorem thrproc_join_spec (stod : Str → Option double) (onlystr : Bool) (t : thrproc_t)
    (out : List gff_data_tmp_t) (error : Str) (h : worker_inv stod onlystr t) :
    (thrproc_join stod onlystr t out error).1 = out ++ (pending stod onlystr t).toList := by
  obtain ⟨_, h2, h3⟩ := thrproc_steps_spec stod onlystr (t.todo.length + 1) t out error h
  have hfin := h3 (Nat.lt_succ_self _)
  unfold thrproc_join
  rw [← h2]
  simp [pending, hfin]

/-- Joining the threads of the pool pushes what each had still to push, in the
order of the threads. -/
theorem join_all_spec (stod : Str → Option double) (onlystr : Bool) :
    ∀ (ts : List thrproc_t) (out : List gff_data_tmp_t) (error : Str),
      (∀ t ∈ ts, worker_inv stod onlystr t) →
      (join_all stod onlystr ts out error).1 = out ++ ts.filterMap (pending stod onlystr) := by
  intro ts
  induction ts with
  | nil => intro out error _; simp [join_all]
  | cons t rest ih =>
    intro out error h
    simp only [join_all]
    rw [ih _ _ (fun u hu => h u (List.mem_cons_of_mem _ hu)),
      thrproc_join_spec stod onlystr t out error (h t (List.mem_cons_self _ _))]
    cases hp : pending stod onlystr t <;> simp [List.filterMap_cons, hp]

/-- Replacing a thread of the pool by its next state, when the step conserved
`_data` with what the thread has still to push. -/
theorem filterMap_set_perm {α β : Type} (f : α → Option β) :
    ∀ (l : List α) (i : Nat) (t t' : α) (out out' : List β),
      l[i]? = some t → out' ++ (f t').toList = out ++ (f t).toList →
      List.Perm (out' ++ (l.set i t').filterMap f) (out ++ l.filterMap f) := by
  intro l
  induction l with
  | nil => intro i t t' out out' h; simp at h
  | cons a rest ih =>
    intro i t t' out out' h hc
    cases i with
    | zero =>
      simp only [List.getElem?_cons_zero, Option.some.injEq] at h
      subst h
      have e1 : (a :: rest).set 0 t' = t' :: rest := rfl
      have e2 : ∀ (x : α) (xs : List α), (x :: xs).filterMap f = (f x).toList ++ xs.filterMap f := by
        intro x xs
        cases hx : f x <;> simp [List.filterMap_cons, hx]
      rw [e1, e2, e2, ← List.append_assoc, ← List.append_assoc, hc]
    | succ j =>
      simp only [List.getElem?_cons_succ] at h
      have e2 : ∀ (x : α) (xs : List α), (x :: xs).filterMap f = (f x).toList ++ xs.filterMap f := by
        intro x xs
        cases hx : f x <;> simp [List.filterMap_cons, hx]
      have e1 : (a :: rest).set (j + 1) t' = a :: rest.set j t' := rfl
      rw [e1, e2, e2]
      have := ih j t t' out out' h hc
      have p1 : List.Perm (out' ++ ((f a).toList ++ (rest.set j t').filterMap f))
          ((f a).toList ++ (out' ++ (rest.set j t').filterMap f)) := by
        rw [← List.append_assoc, ← List.append_assoc]
        exact List.Perm.append_right _ List.perm_append_comm
      have p2 : List.Perm ((f a).toList ++ (out' ++ (rest.set j t').filterMap f))
          ((f a).toList ++ (out ++ rest.filterMap f)) := List.Perm.append_left _ this
      have p3 : List.Perm ((f a).toList ++ (out ++ rest.filterMap f))
          (out ++ ((f a).toList ++ rest.filterMap f)) := by
        rw [← List.append_assoc, ← List.append_assoc]
        exact List.Perm.append_right _ List.perm_append_comm
      exact p1.trans (p2.trans p3)

theorem filterMap_toList {α β : Type} (f : α → Option β) (x : α) (xs : List α) :
    (x :: xs).filterMap f = (f x).toList ++ xs.filterMap f := by
  cases hx : f x <;> simp [List.filterMap_cons, hx]

theorem filterMap_snoc {α β : Type} (f : α → Option β) (xs : List α) (x : α) :
    (xs ++ [x]).filterMap f = xs.filterMap f ++ (f x).toList := by
  rw [List.filterMap_append, filterMap_toList]
  simp

/-- A thread that starts on a batch: nothing parsed yet, the whole result of
the batch still to push. -/
theorem fresh_worker (stod : Str → Option double) (onlystr : Bool) (b : List thr_data_t) :
    worker_inv stod onlystr { data := b, todo := b } ∧
    pending stod onlystr { data := b, todo := b } = batch_out stod onlystr b := by
  constructor
  · intro _; simp
  · simp [pending]

/-- The call makeproc(data, false): the result of the new batch joins what the
pool holds or has still to push. -/
theorem makeproc_async_spec (stod : Str → Option double) (tp : thread_pool_t) (error : Str)
    (b : List thr_data_t) (X : List gff_data_tmp_t)
    (hw : ∀ t ∈ tp._tpool, worker_inv stod tp._attronlystr t)
    (hp : List.Perm (tp._data ++ tp._tpool.filterMap (pending stod tp._attronlystr)) X) :
    (∀ t ∈ (tp.makeproc stod error b false).1._tpool, worker_inv stod tp._attronlystr t) ∧
    List.Perm ((tp.makeproc stod error b false).1._data ++
        (tp.makeproc stod error b false).1._tpool.filterMap (pending stod tp._attronlystr))
      (X ++ (batch_out stod tp._attronlystr b).toList) ∧
    (tp.makeproc stod error b false).1._tmpdata = tp._tmpdata ∧
    (tp.makeproc stod error b false).1._attronlystr = tp._attronlystr := by
  obtain ⟨fw1, fw2⟩ := fresh_worker stod tp._attronlystr b
  unfold thread_pool_t.makeproc
  simp only [Bool.false_eq_true, if_false]
  split_ifs with hfull
  · cases htp : tp._tpool with
    | nil =>
      rw [htp] at hp
      simp only
      refine ⟨?_, ?_, (by first | rfl | trivial), (by first | rfl | trivial)⟩
      · intro t ht
        simp only [List.mem_singleton] at ht
        subst ht
        exact fw1
      · simp only [List.filterMap_nil, List.append_nil] at hp
        simp only [filterMap_toList, fw2, List.filterMap_nil, List.append_nil]
        exact List.Perm.append_right _ hp
    | cons front rest =>
      rw [htp] at hp hw
      simp only
      have hj := thrproc_join_spec stod tp._attronlystr front tp._data error
        (hw front (List.mem_cons_self _ _))
      refine ⟨?_, ?_, (by first | rfl | trivial), (by first | rfl | trivial)⟩
      · intro t ht
        rcases List.mem_append.mp ht with h1 | h1
        · exact hw t (List.mem_cons_of_mem _ h1)
        · simp only [List.mem_singleton] at h1
          subst h1
          exact fw1
      · rw [hj, filterMap_snoc, fw2]
        rw [filterMap_toList] at hp
        rw [← List.append_assoc]
        refine List.Perm.append_right _ ?_
        rw [List.append_assoc]
        exact hp
  · simp only
    refine ⟨?_, ?_, (by first | rfl | trivial), (by first | rfl | trivial)⟩
    · intro t ht
      rcases List.mem_append.mp ht with h1 | h1
      · exact hw t h1
      · simp only [List.mem_singleton] at h1
        subst h1
        exact fw1
    · rw [filterMap_snoc, fw2, ← List.append_assoc]
      exact List.Perm.append_right _ hp

/-- The call makeproc(data, true): every thread is joined, the batch is parsed
by the caller, and the pool's `_data` holds every result. -/
theorem makeproc_sync_spec (stod : Str → Option double) (tp : thread_pool_t) (error : Str)
    (b : List thr_data_t) (X : List gff_data_tmp_t)
    (hw : ∀ t ∈ tp._tpool, worker_inv stod tp._attronlystr t)
    (hp : List.Perm (tp._data ++ tp._tpool.filterMap (pending stod tp._attronlystr)) X) :
    (tp.makeproc stod error b true).1._tpool = [] ∧
    List.Perm (tp.makeproc stod error b true).1._data
      (X ++ (batch_out stod tp._attronlystr b).toList) ∧
    (tp.makeproc stod error b true).1._attronlystr = tp._attronlystr := by
  obtain ⟨fw1, fw2⟩ := fresh_worker stod tp._attronlystr b
  unfold thread_pool_t.makeproc
  simp only [if_true]
  refine ⟨(by first | rfl | trivial), ?_, (by first | rfl | trivial)⟩
  rw [thrproc_join_spec stod tp._attronlystr _ _ _ fw1, fw2,
    join_all_spec stod tp._attronlystr _ _ _ hw]
  exact List.Perm.append_right _ hp

/-- A step of a worker keeps the invariant of the pool. -/
theorem worker_step_pool_inv (stod : Str → Option double) (tp : thread_pool_t) (error : Str)
    (i : Nat) (L : List thr_data_t) (h : pool_inv stod tp L) :
    pool_inv stod (tp.worker_step stod error i).1 L ∧
    (tp.worker_step stod error i).1._attronlystr = tp._attronlystr := by
  obtain ⟨bs, h1, h2, h3, h4⟩ := h
  unfold thread_pool_t.worker_step
  cases hi : tp._tpool[i]? with
  | none => exact ⟨⟨bs, h1, h2, h3, h4⟩, rfl⟩
  | some t =>
    simp only
    have ht : t ∈ tp._tpool := List.mem_iff_getElem?.mpr ⟨i, hi⟩
    obtain ⟨s1, s2, _⟩ := thrproc_step_spec stod tp._attronlystr t tp._data error (h3 t ht)
    refine ⟨⟨bs, h1, h2, ?_, ?_⟩, (by first | rfl | trivial)⟩
    · intro u hu
      simp only at hu
      rcases List.mem_or_eq_of_mem_set hu with hu' | hu'
      · exact h3 u hu'
      · rw [hu']; exact s1
    · simp only
      exact (filterMap_set_perm (pending stod tp._attronlystr) tp._tpool i t _ tp._data _
        hi s2).trans h4

/-- The call push(line, linenum) keeps the invariant of the pool, with one more
line. -/
theorem push_pool_inv (stod : Str → Option double) (tp : thread_pool_t) (error : Str)
    (line : Str) (linenum : Nat) (L : List thr_data_t) (h : pool_inv stod tp L) :
    pool_inv stod (tp.push stod error line linenum).1 (L ++ [{ data := line, lnum := linenum }]) ∧
    (tp.push stod error line linenum).1._attronlystr = tp._attronlystr := by
  obtain ⟨bs, h1, h2, h3, h4⟩ := h
  unfold thread_pool_t.push
  simp only
  split_ifs with hbig
  · obtain ⟨m1, m2, _, m4⟩ := makeproc_async_spec stod { tp with _tmpdata := [] } error
      (tp._tmpdata ++ [{ data := line, lnum := linenum }]) _ h3 h4
    simp only at m1 m2 m4 ⊢
    refine ⟨⟨bs ++ [tp._tmpdata ++ [{ data := line, lnum := linenum }]], ?_, ?_, ?_, ?_⟩, m4⟩
    · simp only [List.flatten_append, List.flatten_cons, List.flatten_nil, List.append_nil]
      rw [← h1]
      simp
    · intro b hb
      rcases List.mem_append.mp hb with hb' | hb'
      · exact h2 b hb'
      · simp only [List.mem_singleton] at hb'
        subst hb'
        simp
    · intro t ht
      simp only at ht
      rw [m4]
      exact m1 t ht
    · simp only
      rw [m4, filterMap_snoc]
      exact m2
  · refine ⟨⟨bs, ?_, h2, h3, h4⟩, rfl⟩
    simp only
    rw [← h1, List.append_assoc]

/-- The call thread_pool_t::flush: the pool's `_data` holds, in some order, the
results of batches that together are the lines pushed. -/
theorem pool_flush_spec (stod : Str → Option double) (tp : thread_pool_t) (error : Str)
    (L : List thr_data_t) (h : pool_inv stod tp L) :
    ∃ bs : List (List thr_data_t), bs.flatten = L ∧ (∀ b ∈ bs, b ≠ []) ∧
      List.Perm (tp.flush stod error).1._data (bs.filterMap (batch_out stod tp._attronlystr)) := by
  obtain ⟨bs, h1, h2, h3, h4⟩ := h
  unfold thread_pool_t.flush
  by_cases ht : tp._tmpdata = []
  · refine ⟨bs, by rw [← h1, ht]; simp, h2, ?_⟩
    simp only [ht, ne_eq, not_true_eq_false, if_false]
    rw [join_all_spec stod tp._attronlystr _ _ _ h3]
    exact h4
  · obtain ⟨m1, m2, m3⟩ := makeproc_sync_spec stod { tp with _tmpdata := [] } error
      tp._tmpdata _ h3 h4
    simp only at m1 m2 m3
    refine ⟨bs ++ [tp._tmpdata], by rw [← h1]; simp, ?_, ?_⟩
    · intro b hb
      rcases List.mem_append.mp hb with hb' | hb'
      · exact h2 b hb'
      · simp only [List.mem_singleton] at hb'
        subst hb'
        exact ht
    · simp only [ne_eq, ht, not_false_eq_true, if_true]
      rw [m1]
      simp only [join_all]
      rw [filterMap_snoc]
      exact m2

/-- The results of the batches, in the order the batches were dispatched, are in
strictly increasing order of `linestart`. -/
theorem batch_out_sorted (stod : Str → Option double) (onlystr : Bool) :
    ∀ bs : List (List thr_data_t), (∀ b ∈ bs, b ≠ []) →
      (bs.flatten.map (fun d => d.lnum)).Pairwise (fun a b => a < b) →
      (bs.filterMap (batch_out stod onlystr)).Pairwise
        (fun x y => x.linestart < y.linestart) := by
  intro bs
  induction bs with
  | nil => intro _ _; simp
  | cons b rest ih =>
    intro hne hp
    rw [filterMap_toList]
    simp only [List.flatten_cons, List.map_append, List.pairwise_append, List.mem_map,
      forall_exists_index, and_imp, forall_apply_eq_imp_iff₂] at hp
    obtain ⟨_, hrest, hcross⟩ := hp
    rw [List.pairwise_append]
    refine ⟨?_, ih (fun c hc => hne c (List.mem_cons_of_mem _ hc)) hrest, ?_⟩
    · cases batch_out stod onlystr b <;> simp
    · intro x hx y hy
      obtain ⟨c, hc, hyc⟩ := List.mem_filterMap.mp hy
      have hb : b ≠ [] := hne b (List.mem_cons_self _ _)
      have hcne : c ≠ [] := hne c (List.mem_cons_of_mem _ hc)
      have hxl : x.linestart = front_lnum b := by
        unfold batch_out at hx
        split_ifs at hx
        · simp at hx
        · simp only [Option.toList_some, List.mem_singleton] at hx
          rw [hx]
      have hyl : y.linestart = front_lnum c := by
        unfold batch_out at hyc
        split_ifs at hyc
        simp only [Option.some.injEq] at hyc
        rw [← hyc]
      rw [hxl, hyl]
      cases b with
      | nil => exact absurd rfl hb
      | cons b0 _ =>
        cases c with
        | nil => exact absurd rfl hcne
        | cons c0 ctl =>
          simp only [front_lnum, List.head?_cons]
          exact hcross b0 (List.mem_cons_self _ _) c0
            (List.mem_flatten.mpr ⟨c0 :: ctl, hc, List.mem_cons_self _ _⟩)

/-- A list in strictly increasing order of a key is the only arrangement of its
elements that is in increasing order of the key. -/
theorem sorted_perm_unique {α : Type} (key : α → Nat) :
    ∀ (X Z : List α), X.Pairwise (fun a b => key a < key b) → List.Perm Z X →
      Z.Pairwise (fun a b => key a ≤ key b) → Z = X := by
  intro X
  induction X with
  | nil => intro Z _ hp _; exact List.Perm.eq_nil hp
  | cons x xs ih =>
    intro Z hX hp hZ
    cases Z with
    | nil => exact absurd (List.Perm.symm hp).eq_nil (by simp)
    | cons z zs =>
      rw [List.pairwise_cons] at hX hZ
      have hzX : z ∈ x :: xs := hp.subset (List.mem_cons_self _ _)
      have hxZ : x ∈ z :: zs := hp.symm.subset (List.mem_cons_self _ _)
      have hzx : z = x := by
        rcases List.mem_cons.mp hzX with h | h
        · exact h
        · have h1 : key x < key z := hX.1 z h
          rcases List.mem_cons.mp hxZ with h' | h'
          · exact h'.symm
          · have h2 : key z ≤ key x := hZ.1 x h'
            omega
      subst hzx
      rw [ih zs hX.2 (List.Perm.cons_inv hp) hZ.2]

/-- The records of the results of the batches, one batch after the other, are
the records of the lines. -/
theorem batch_out_records (stod : Str → Option double) (onlystr : Bool) :
    ∀ bs : List (List thr_data_t),
      ((bs.filterMap (batch_out stod onlystr)).map (fun t => t.data)).flatten =
        records stod onlystr bs.flatten := by
  intro bs
  induction bs with
  | nil => simp [records]
  | cons b rest ih =>
    rw [filterMap_toList, List.map_append, List.flatten_append, ih, List.flatten_cons,
      records_append]
    congr 1
    unfold batch_out
    split_ifs with he
    · simp [he]
    · simp

/-- Sorting by linestart puts the results a pool holds back in the order their
batches were dispatched. -/
theorem sort_pooldata_spec (X Z : List gff_data_tmp_t)
    (hX : X.Pairwise (fun x y => x.linestart < y.linestart)) (hp : List.Perm Z X) :
    sort_pooldata Z = X := by
  haveI : IsTotal gff_data_tmp_t (fun a b => a.linestart ≤ b.linestart) :=
    ⟨fun a b => Nat.le_total _ _⟩
  haveI : IsTrans gff_data_tmp_t (fun a b => a.linestart ≤ b.linestart) :=
    ⟨fun _ _ _ h1 h2 => Nat.le_trans h1 h2⟩
  apply sorted_perm_unique (fun t => t.linestart) X _ hX
  · exact (List.perm_insertionSort _ Z).trans hp
  · exact List.sorted_insertionSort (fun a b => a.linestart ≤ b.linestart) Z

/-- The relation of the two parsers only reads the pool, the counters, the
seqid index and the store. -/
theorem sim_of_eq (stod : Str → Option double) (pp ps pp' ps' : gff_parser_t)
    (L : List thr_data_t) (h : sim stod pp ps L)
    (e1 : pp'._thrpool = pp._thrpool) (e2 : ps'._thrpool = ps._thrpool)
    (e3 : ps'._onlystrval = ps._onlystrval) (e4 : pp'._linenum = ps'._linenum)
    (e5 : pp'._gff_version = ps'._gff_version)
    (e6 : pp'._data_by_seqid = pp._data_by_seqid) (e7 : ps'._data_by_seqid = ps._data_by_seqid)
    (e8 : ps'._data = ps._data) : sim stod pp' ps' L := by
  obtain ⟨tp, h1, h2, h3, _, _, h6, h7, h8, h9, h10⟩ := h
  exact ⟨tp, e1.trans h1, e2.trans h2, h3.trans e3.symm, e4, e5, e6.trans h6, e7.trans h7, h8,
    by rw [e8, e3]; exact h9, h10⟩

/-- What operator<< does with a feature line in synchronous mode. -/
theorem operator_lshift_line_sync (stod : Str → Option double) (ps : gff_parser_t)
    (line : Str) (h2 : ps._thrpool = none) (hc : ¬ line.head? = some '#') :
    (ps.operator_lshift_line stod line)._thrpool = none ∧
    (ps.operator_lshift_line stod line)._onlystrval = ps._onlystrval ∧
    (ps.operator_lshift_line stod line)._linenum = ps._linenum ∧
    (ps.operator_lshift_line stod line)._gff_version = ps._gff_version ∧
    (ps.operator_lshift_line stod line)._data_by_seqid = ps._data_by_seqid ∧
    (ps.operator_lshift_line stod line)._data =
      ps._data ++ records stod ps._onlystrval [{ data := line, lnum := ps._linenum }] := by
  unfold gff_parser_t.operator_lshift_line
  simp only [hc, if_false]
  rw [h2]
  simp only
  have hr := parse_line_record stod line ps._error ps._linenum ps._onlystrval
  by_cases he : (parse_line stod line ps._error ps._linenum ps._onlystrval).1.empty = true
  · simp only [he, Bool.not_true, Bool.false_eq_true, if_false]
    refine ⟨trivial, trivial, trivial, trivial, trivial, ?_⟩
    rw [hr] at he
    simp [records, parse_ok, he]
  · have he' : (parse_line stod line ps._error ps._linenum ps._onlystrval).1.empty = false := by
      simpa using he
    simp only [he', Bool.not_false, if_true]
    refine ⟨trivial, trivial, trivial, trivial, trivial, ?_⟩
    rw [hr] at he' ⊢
    simp [records, parse_ok, he']

/-- What operator<< does with a feature line in pooled mode. -/
theorem operator_lshift_line_pool (stod : Str → Option double) (pp : gff_parser_t)
    (tp : thread_pool_t) (line : Str) (h1 : pp._thrpool = some tp)
    (hc : ¬ line.head? = some '#') :
    (pp.operator_lshift_line stod line)._thrpool =
      some (tp.push stod pp._error line pp._linenum).1 ∧
    (pp.operator_lshift_line stod line)._linenum = pp._linenum ∧
    (pp.operator_lshift_line stod line)._gff_version = pp._gff_version ∧
    (pp.operator_lshift_line stod line)._data_by_seqid = pp._data_by_seqid := by
  unfold gff_parser_t.operator_lshift_line
  simp only [hc, if_false]
  rw [h1]
  exact ⟨rfl, rfl, rfl, rfl⟩

/-- From `if(line.at(0) == '#')` on, operator<< keeps the two parsers related:
the pool is given the line the synchronous parser parses. -/
theorem operator_lshift_line_sim (stod : Str → Option double) (pp ps : gff_parser_t)
    (L : List thr_data_t) (line : Str) (h : sim stod pp ps L)
    (hb : ∀ d ∈ L, d.lnum < ps._linenum) :
    ∃ L', sim stod (pp.operator_lshift_line stod line) (ps.operator_lshift_line stod line) L' ∧
      ∀ d ∈ L', d.lnum ≤ (ps.operator_lshift_line stod line)._linenum := by
  by_cases hc : line.head? = some '#'
  · have e1 : pp.operator_lshift_line stod line = pp := by
      simp [gff_parser_t.operator_lshift_line, hc]
    have e2 : ps.operator_lshift_line stod line = ps := by
      simp [gff_parser_t.operator_lshift_line, hc]
    rw [e1, e2]
    exact ⟨L, h, fun d hd => Nat.le_of_lt (hb d hd)⟩
  · obtain ⟨tp, h1, h2, h3, h4, h5, h6, h7, h8, h9, h10⟩ := h
    obtain ⟨s1, s2, s3, s4, s5, s6⟩ := operator_lshift_line_sync stod ps line h2 hc
    obtain ⟨p1, p2, p3, p4⟩ := operator_lshift_line_pool stod pp tp line h1 hc
    obtain ⟨q1, q2⟩ := push_pool_inv stod tp pp._error line pp._linenum L h8
    refine ⟨L ++ [{ data := line, lnum := ps._linenum }],
      ⟨_, p1, s1, ?_, ?_, ?_, ?_, ?_, ?_, ?_, ?_⟩, ?_⟩
    · rw [q2, h3, s2]
    · rw [p2, s3, h4]
    · rw [p3, s4, h5]
    · rw [p4, h6]
    · rw [s5, h7]
    · rw [← h4]; exact q1
    · rw [s6, s2, records_append, h9]
    · rw [List.map_append, List.pairwise_append]
      refine ⟨h10, by simp, ?_⟩
      intro a ha b hb'
      simp only [List.map_cons, List.map_nil, List.mem_singleton] at hb'
      obtain ⟨d, hd, rfl⟩ := List.mem_map.mp ha
      rw [hb']
      exact hb d hd
    · intro d hd
      rw [s3]
      rcases List.mem_append.mp hd with h' | h'
      · exact Nat.le_of_lt (hb d h')
      · simp only [List.mem_singleton] at h'
        rw [h']

/-- The call operator<< keeps the two parsers related: it throws in both or in
neither. -/
theorem operator_lshift_sim (stod : Str → Option double) (pp ps : gff_parser_t)
    (L : List thr_data_t) (line : Str) (h : sim stod pp ps L)
    (hb : ∀ d ∈ L, d.lnum ≤ ps._linenum) :
    (pp.operator_lshift stod line = none ∧ ps.operator_lshift stod line = none) ∨
    ∃ pp' ps' L', pp.operator_lshift stod line = some pp' ∧
      ps.operator_lshift stod line = some ps' ∧ sim stod pp' ps' L' ∧
      ∀ d ∈ L', d.lnum ≤ ps'._linenum := by
  have hln : pp._linenum = ps._linenum := by
    obtain ⟨_, _, _, _, h4, _⟩ := h
    exact h4
  have hver : pp._gff_version = ps._gff_version := by
    obtain ⟨_, _, _, _, _, h5, _⟩ := h
    exact h5
  have hb' : ∀ d ∈ L, d.lnum < ps._linenum + 1 := fun d hd => Nat.lt_succ_of_le (hb d hd)
  -- the two parsers once the counter is advanced, with any version and errors
  have bump : ∀ (v : Int) (e1 e2 : Str),
      sim stod { pp with _linenum := pp._linenum + 1, _gff_version := v, _error := e1 }
        { ps with _linenum := ps._linenum + 1, _gff_version := v, _error := e2 } L := by
    intro v e1 e2
    exact sim_of_eq stod pp ps _ _ L h rfl rfl rfl (by simp [hln]) rfl rfl rfl rfl
  unfold gff_parser_t.operator_lshift
  simp only
  by_cases hl : line = []
  · right
    simp only [hl, if_true]
    refine ⟨_, _, L, rfl, rfl, ?_, fun d hd => Nat.le_of_lt (hb' d hd)⟩
    exact sim_of_eq stod pp ps _ _ L h rfl rfl rfl (by simp [hln]) hver rfl rfl rfl
  · simp only [hl, if_false]
    rw [hver]
    by_cases hz : ps._gff_version = 0
    · simp only [hz, if_true]
      cases hre : regex_match_gff_version line with
      | none =>
        right
        simp only
        exact ⟨_, _, L, rfl, rfl, bump 0 _ _, fun d hd => Nat.le_of_lt (hb' d hd)⟩
      | some sm1 =>
        simp only
        cases hst : stoi sm1 with
        | none => left; exact ⟨rfl, rfl⟩
        | some v =>
          right
          simp only
          by_cases hv : v = 3
          · simp only [hv, ne_eq, not_true_eq_false, if_false]
            obtain ⟨L', s1, s2⟩ := operator_lshift_line_sim stod _ _ L line
              (bump 3 pp._error ps._error) hb'
            exact ⟨_, _, L', rfl, rfl, s1, s2⟩
          · simp only [ne_eq, hv, not_false_eq_true, if_true]
            refine ⟨_, _, L, rfl, rfl, ?_, fun d hd => Nat.le_of_lt (hb' d hd)⟩
            exact sim_of_eq stod pp ps _ _ L h rfl rfl rfl (by simp [hln]) rfl rfl rfl rfl
    · right
      simp only [hz, if_false]
      obtain ⟨L', s1, s2⟩ := operator_lshift_line_sim stod _ _ L line
        (bump ps._gff_version pp._error ps._error) hb'
      exact ⟨_, _, L', rfl, rfl, s1, s2⟩

/-- A step of a worker keeps the pooled parser related to the synchronous one. -/
theorem worker_sim (stod : Str → Option double) (pp ps : gff_parser_t) (L : List thr_data_t)
    (i : Nat) (h : sim stod pp ps L) :
    ∃ pp', step stod pp (.worker i) = some pp' ∧ sim stod pp' ps L := by
  obtain ⟨tp, h1, h2, h3, h4, h5, h6, h7, h8, h9, h10⟩ := h
  obtain ⟨w1, w2⟩ := worker_step_pool_inv stod tp pp._error i L h8
  simp only [step]
  rw [h1]
  simp only
  exact ⟨_, rfl, _, rfl, h2, w2.trans h3, h4, h5, h6, h7, w1, h9, h10⟩

/-- The store flush leaves in pooled mode is the store of the synchronous
parser. -/
theorem flush_sim (stod : Str → Option double) (pp ps : gff_parser_t) (L : List thr_data_t)
    (h : sim stod pp ps L) : (pp.flush stod)._data = (ps.flush stod)._data := by
  obtain ⟨tp, h1, h2, h3, _, _, h6, h7, h8, h9, h10⟩ := h
  obtain ⟨qs, hqs, _, _, _, _, hds, _⟩ := flush_of_index_nil stod ps h7
  obtain ⟨qp, hqp, _, _, _, _, _, hdp⟩ := flush_of_index_nil stod pp h6
  rw [hqs, hqp, (flush_index_loop_frame _ _ _).1, (flush_index_loop_frame _ _ _).1, hds h2,
    hdp tp h1, h9]
  obtain ⟨bs, b1, b2, b3⟩ := pool_flush_spec stod tp pp._error L h8
  have hsorted := batch_out_sorted stod tp._attronlystr bs b2 (by rw [b1]; exact h10)
  rw [sort_pooldata_spec _ _ hsorted b3, batch_out_records, b1, h3]

/-- A fresh pooled parser and a fresh synchronous parser are related. -/
theorem init_sim (stod : Str → Option double) (threads : Int) (hN : threads ≥ 1)
    (onlystr : Bool) :
    sim stod (gff_parser_t.init threads onlystr) (gff_parser_t.init 0 onlystr) [] := by
  have ht : threads > 0 := by omega
  refine ⟨{ _thrmax := threads, _attronlystr := onlystr }, ?_, rfl, rfl, rfl, rfl, rfl, rfl,
    ?_, rfl, by simp⟩
  · simp [gff_parser_t.init, ht]
  · exact ⟨[], rfl, by simp, by simp, by simp⟩

/-- Related parsers stay related along a run; the workers' steps only move the
pooled one. -/
theorem run_sim (stod : Str → Option double) (evs : List event) :
    ∀ (pp ps : gff_parser_t) (L : List thr_data_t), sim stod pp ps L →
      (∀ d ∈ L, d.lnum ≤ ps._linenum) →
      (run stod pp evs).map (fun s => (s.flush stod)._data) =
        (run stod ps (lines (lines_of evs))).map (fun s => (s.flush stod)._data) := by
  induction evs with
  | nil =>
    intro pp ps L h _
    simp only [run, lines_of, lines, List.map_nil, Option.map_some']
    rw [flush_sim stod pp ps L h]
  | cons e rest ih =>
    intro pp ps L h hb
    cases e with
    | line l =>
      simp only [run, lines_of, lines, List.map_cons, step]
      rcases operator_lshift_sim stod pp ps L l h hb with ⟨n1, n2⟩ | ⟨pp', ps', L', s1, s2, s3, s4⟩
      · rw [n1, n2]
      · rw [s1, s2]
        exact ih pp' ps' L' s3 s4
    | worker i =>
      obtain ⟨pp', w1, w2⟩ := worker_sim stod pp ps L i h
      simp only [run, lines_of]
      rw [w1]
      exact ih pp' ps L w2 hb

/-- C2: for every sequence of events (the input lines, with the steps of the
worker threads interleaved in any order) and every thread count N >= 1, the
record sequence the parser holds after flush in pooled mode is the record
sequence synchronous ingestion (threads = 0) of the same lines holds; an
exception that leaves operator<< leaves it in both runs. -/
theorem pooled_eq_sync (stod : Str → Option double) (threads : Int) (hN : threads ≥ 1)
    (onlystr : Bool) (evs : List event) :
    (run stod (gff_parser_t.init threads onlystr) evs).map (fun s => (s.flush stod)._data) =
      (run stod (gff_parser_t.init 0 onlystr) (lines (lines_of evs))).map
        (fun s => (s.flush stod)._data) :=
  run_sim stod evs _ _ [] (init_sim stod threads hN onlystr) (by simp)

/-- Witness of C2: the example of the spec with four threads, a worker step
scheduled between the two lines. -/
theorem pooled_eq_sync_witness :
    (run stod_unreached (gff_parser_t.init 4 false)
        [.line (example_lines.getD 0 []), .worker 0, .line (example_lines.getD 1 [])]).map
        (fun s => (s.flush stod_unreached)._data) =
      (run stod_unreached (gff_parser_t.init 0 false)
        (lines (lines_of
          [.line (example_lines.getD 0 []), .worker 0, .line (example_lines.getD 1 [])]))).map
        (fun s => (s.flush stod_unreached)._data) :=
  pooled_eq_sync stod_unreached 4 (by decide) false _

/-! ## utils::trim and the missing tokens -/

/-- The quirk of utils::trim: a text made only of whitespace is returned as it
is (both searches reach the end and fall back to the whole text). -/
theorem trim_all_space (str : Str) (h : ∀ c ∈ str, isspace c = true) : utils.trim str = str := by
  have h1 : str.takeWhile isspace = str := List.takeWhile_eq_self_iff.mpr h
  have h2 : str.reverse.takeWhile isspace = str.reverse :=
    List.takeWhile_eq_self_iff.mpr (fun c hc => h c (List.mem_reverse.mp hc))
  simp [utils.trim, h1, h2]

/-- The text utils::trim returns for whitespace, a core that starts and ends with
a character that is not whitespace, and whitespace: the core. -/
theorem trim_core (ws1 core ws2 : Str) (h1 : ∀ c ∈ ws1, isspace c = true)
    (h2 : ∀ c ∈ ws2, isspace c = true) (a b : Char) (mid : Str)
    (hcore : core = a :: mid) (hlast : core.getLast? = some b)
    (ha : isspace a = false) (hb : isspace b = false) :
    utils.trim (ws1 ++ core ++ ws2) = core := by
  have hne : core ≠ [] := by rw [hcore]; simp
  have t1 : (ws1 ++ core ++ ws2).takeWhile isspace = ws1 := by
    rw [List.append_assoc, List.takeWhile_append_of_pos h1, hcore]
    simp [ha]
  obtain ⟨init, hinit⟩ : ∃ init, core = init ++ [b] := by
    rcases List.eq_nil_or_concat core with h | ⟨L, x, h⟩
    · exact absurd h hne
    · refine ⟨L, ?_⟩
      rw [h] at hlast
      simp at hlast
      rw [h, hlast]
      simp
  have t2 : (ws1 ++ core ++ ws2).reverse.takeWhile isspace = ws2.reverse := by
    rw [List.reverse_append, List.takeWhile_append_of_pos
      (fun c hc => h2 c (List.mem_reverse.mp hc)), hinit]
    simp [hb]
  have hlen : core.length > 0 := List.length_pos.mpr hne
  unfold utils.trim
  simp only [t1, t2, List.length_reverse, List.length_append]
  have e1 : ¬ ws1.length = ws1.length + core.length + ws2.length := by omega
  have e2 : ¬ ws2.length = ws1.length + core.length + ws2.length := by omega
  simp only [e1, e2, if_false]
  have e3 : ws1.length + core.length + ws2.length - ws2.length = (ws1 ++ core).length := by
    simp
  rw [e3, List.take_left', List.drop_left']
  · rfl
  · rfl

/-- The six missing tokens are the texts utils::check_no_data accepts; none holds
a whitespace character, so utils::trim returns each as it is. -/
theorem missing_tokens_spec (tok : Str) (h : tok ∈ missing_tokens) :
    utils.check_no_data tok = true ∧ utils.trim tok = tok ∧
    (tok = [] ∨ ∃ a b mid, tok = a :: mid ∧ tok.getLast? = some b ∧
      isspace a = false ∧ isspace b = false) := by
  simp only [missing_tokens, List.mem_cons, List.mem_singleton, List.not_mem_nil, or_false] at h
  rcases h with rfl | rfl | rfl | rfl | rfl | rfl
  · exact ⟨by decide, by decide, Or.inl rfl⟩
  · exact ⟨by decide, by decide, Or.inr ⟨'.', '.', [], by decide, by decide, by decide, by decide⟩⟩
  · exact ⟨by decide, by decide, Or.inr ⟨'n', 'a', ['a'], by decide, by decide, by decide, by decide⟩⟩
  · exact ⟨by decide, by decide, Or.inr ⟨'N', 'A', ['A'], by decide, by decide, by decide, by decide⟩⟩
  · exact ⟨by decide, by decide,
      Or.inr ⟨'N', 'A', ['/', 'A'], by decide, by decide, by decide, by decide⟩⟩
  · exact ⟨by decide, by decide,
      Or.inr ⟨'n', 'a', ['/', 'a'], by decide, by decide, by decide, by decide⟩⟩

/-- The function std::stoll finds no digit in a text made only of whitespace. -/
theorem stoll_all_space (str : Str) (h : ∀ c ∈ str, isspace c = true) : stoll str = none := by
  have hd : str.dropWhile isspace = [] := by
    rw [List.dropWhile_eq_nil_iff]
    exact h
  simp [stoll, hd]

/-- A start or end column that holds a missing token between whitespace never
yields a number: utils::check_no_data rejects it, or std::stoll does. -/
theorem missing_column_rejected (ws1 tok ws2 : Str) (h1 : ∀ c ∈ ws1, isspace c = true)
    (h2 : ∀ c ∈ ws2, isspace c = true) (htok : tok ∈ missing_tokens) :
    (if utils.check_no_data (utils.trim (ws1 ++ tok ++ ws2)) = true then none
      else convert_str_to_uint64 (utils.trim (ws1 ++ tok ++ ws2))) = none := by
  obtain ⟨hc, _, hshape⟩ := missing_tokens_spec tok htok
  rcases hshape with rfl | ⟨a, b, mid, e1, e2, e3, e4⟩
  · have hall : ∀ c ∈ ws1 ++ [] ++ ws2, isspace c = true := by
      intro c hc'
      simp only [List.append_nil, List.mem_append] at hc'
      rcases hc' with h | h
      · exact h1 c h
      · exact h2 c h
    rw [trim_all_space _ hall]
    split_ifs
    · rfl
    · have hs := stoll_all_space _ hall
      unfold convert_str_to_uint64
      rw [hs]
  · rw [trim_core ws1 tok ws2 h1 h2 a b mid e1 e2 e3 e4, hc]
    rfl

/-! ## parse_line column by column (C11 to C14) -/

/-- The returns of parse_line on a nine-field line, in the order of its checks:
each failed check returns `gff_data_t()` with its message; when the five column
checks pass, the attribute loop decides. -/
theorem parse_line_unfold (stod : Str → Option double) (line error : Str) (linenum : Nat)
    (onlystrinval : Bool) (seqid source type start end_ score strand phase attributes : Str)
    (hf : utils.get_fields line '\t' =
      [seqid, source, type, start, end_, score, strand, phase, attributes]) :
    ((if utils.check_no_data (utils.trim start) = true then none
        else convert_str_to_uint64 (utils.trim start)) = none →
      parse_line stod line error linenum onlystrinval =
        ({}, line_error linenum " wrong 'start' field")) ∧
    (∀ vstart, (if utils.check_no_data (utils.trim start) = true then none
        else convert_str_to_uint64 (utils.trim start)) = some vstart →
      ((if utils.check_no_data (utils.trim end_) = true then none
          else convert_str_to_uint64 (utils.trim end_)) = none →
        parse_line stod line error linenum onlystrinval =
          ({}, line_error linenum " wrong 'end' field")) ∧
      (∀ vend, (if utils.check_no_data (utils.trim end_) = true then none
          else convert_str_to_uint64 (utils.trim end_)) = some vend →
        ((if utils.check_no_data (utils.trim score) = true then some gff_data_t.d_nodata
            else convert_str_to_double stod (utils.trim score)) = none →
          parse_line stod line error linenum onlystrinval =
            ({}, line_error linenum " wrong 'score' field")) ∧
        (∀ vscore, (if utils.check_no_data (utils.trim score) = true
            then some gff_data_t.d_nodata
            else convert_str_to_double stod (utils.trim score)) = some vscore →
          ((if utils.check_no_data (utils.trim strand) = true then some (Char.ofNat 0)
              else if (utils.trim strand).length ≠ 1 then none
              else (utils.trim strand).head?) = none →
            parse_line stod line error linenum onlystrinval =
              ({}, line_error linenum " wrong 'strand' field")) ∧
          (∀ vstrand, (if utils.check_no_data (utils.trim strand) = true
              then some (Char.ofNat 0)
              else if (utils.trim strand).length ≠ 1 then none
              else (utils.trim strand).head?) = some vstrand →
            ((if utils.check_no_data (utils.trim phase) = true then some (Char.ofNat 0)
                else if (utils.trim phase).length ≠ 1 then none
                else (utils.trim phase).head?) = none →
              parse_line stod line error linenum onlystrinval =
                ({}, line_error linenum " wrong 'phase' field")) ∧
            (∀ vphase, (if utils.check_no_data (utils.trim phase) = true
                then some (Char.ofNat 0)
                else if (utils.trim phase).length ≠ 1 then none
                else (utils.trim phase).head?) = some vphase →
              parse_line stod line error linenum onlystrinval =
                match parse_line_attrs stod onlystrinval
                    (utils.get_fields (utils.trim attributes) ';')
                    { source := source, type := type,
                      position := { seqid := seqid, start := vstart, end_ := vend },
                      score := vscore, strand := vstrand, phase := vphase,
                      linenum := linenum } with
                | none => ({}, line_error linenum " wrong 'attributes' field format")
                | some linedata => (linedata, error)))))) := by
  refine ⟨fun h1 => ?_, fun vstart h1 => ⟨fun h2 => ?_, fun vend h2 => ⟨fun h3 => ?_,
    fun vscore h3 => ⟨fun h4 => ?_, fun vstrand h4 => ⟨fun h5 => ?_, fun vphase h5 => ?_⟩⟩⟩⟩⟩
  · unfold parse_line; rw [hf]; simp only [h1]
  · unfold parse_line; rw [hf]; simp only [h1, h2]
  · unfold parse_line; rw [hf]; simp only [h1, h2, h3]
  · unfold parse_line; rw [hf]; simp only [h1, h2, h3, h4]
  · unfold parse_line; rw [hf]; simp only [h1, h2, h3, h4, h5]
  · unfold parse_line; rw [hf]; simp only [h1, h2, h3, h4, h5]

/-- The value parse_line reads from a strand or phase column that passes its
check: 0 for a missing token, the character for a one-character column. -/
theorem char_column_value (col : Str)
    (h : utils.check_no_data (utils.trim col) = true ∨ (utils.trim col).length = 1) :
    ∃ c, (if utils.check_no_data (utils.trim col) = true then some (Char.ofNat 0)
        else if (utils.trim col).length ≠ 1 then none else (utils.trim col).head?) = some c ∧
      (utils.check_no_data (utils.trim col) = true → c = Char.ofNat 0) ∧
      (utils.check_no_data (utils.trim col) = false → utils.trim col = [c]) := by
  by_cases hn : utils.check_no_data (utils.trim col) = true
  · exact ⟨_, by rw [if_pos hn], fun _ => rfl, fun hf => by rw [hn] at hf; cases hf⟩
  · rcases h with h' | h'
    · exact absurd h' hn
    · rw [if_neg hn, if_neg (by simpa using h')]
      match hcs : utils.trim col with
      | [] => rw [hcs] at h'; simp at h'
      | [c] => exact ⟨c, rfl, fun ht => absurd (hcs ▸ ht) hn, fun _ => rfl⟩
      | _ :: _ :: _ => rw [hcs] at h'; simp at h'

/-- The values parse_line reads from columns 4 to 8 when they pass its checks. -/
theorem columns_valid_values (stod : Str → Option double) (start end_ score strand phase : Str)
    (hv : columns_valid stod start end_ score strand phase = true) :
    ∃ vstart vend vscore vstrand vphase,
      (if utils.check_no_data (utils.trim start) = true then none
        else convert_str_to_uint64 (utils.trim start)) = some vstart ∧
      (if utils.check_no_data (utils.trim end_) = true then none
        else convert_str_to_uint64 (utils.trim end_)) = some vend ∧
      (if utils.check_no_data (utils.trim score) = true then some gff_data_t.d_nodata
        else convert_str_to_double stod (utils.trim score)) = some vscore ∧
      (if utils.check_no_data (utils.trim strand) = true then some (Char.ofNat 0)
        else if (utils.trim strand).length ≠ 1 then none
        else (utils.trim strand).head?) = some vstrand ∧
      (if utils.check_no_data (utils.trim phase) = true then some (Char.ofNat 0)
        else if (utils.trim phase).length ≠ 1 then none
        else (utils.trim phase).head?) = some vphase ∧
      (utils.check_no_data (utils.trim score) = true → vscore = gff_data_t.d_nodata) ∧
      (utils.check_no_data (utils.trim strand) = true → vstrand = Char.ofNat 0) ∧
      (utils.check_no_data (utils.trim strand) = false → utils.trim strand = [vstrand]) ∧
      (utils.check_no_data (utils.trim phase) = true → vphase = Char.ofNat 0) ∧
      (utils.check_no_data (utils.trim phase) = false → utils.trim phase = [vphase]) := by
  simp only [columns_valid, Bool.and_eq_true, Bool.not_eq_true', Bool.or_eq_true,
    Option.isSome_iff_exists, decide_eq_true_eq] at hv
  obtain ⟨⟨⟨⟨⟨hs1, vstart, hs2⟩, he1, vend, he2⟩, hsc⟩, hst⟩, hph⟩ := hv
  obtain ⟨vstrand, a1, a2, a3⟩ := char_column_value strand hst
  obtain ⟨vphase, b1, b2, b3⟩ := char_column_value phase hph
  have hsc' : ∃ vscore, (if utils.check_no_data (utils.trim score) = true
      then some gff_data_t.d_nodata
      else convert_str_to_double stod (utils.trim score)) = some vscore ∧
      (utils.check_no_data (utils.trim score) = true → vscore = gff_data_t.d_nodata) := by
    by_cases h : utils.check_no_data (utils.trim score) = true
    · exact ⟨_, by rw [if_pos h], fun _ => rfl⟩
    · rcases hsc with h' | ⟨v, h'⟩
      · exact absurd h' h
      · exact ⟨v, by rw [if_neg h, h'], fun ht => absurd ht h⟩
  obtain ⟨vscore, c1, c2⟩ := hsc'
  refine ⟨vstart, vend, vscore, vstrand, vphase, ?_, ?_, c1, a1, b1, c2, a2, a3, b2, b3⟩
  · rw [hs1]; simpa using hs2
  · rw [he1]; simpa using he2

/-- A nine-field line whose columns 4 to 8 pass their checks and whose attribute
pieces each hold one '=' parses: `error` is left alone and the record carries
the columns read. -/
theorem parse_line_valid_record (stod : Str → Option double) (line error : Str)
    (linenum : Nat) (onlystrinval : Bool)
    (seqid source type start end_ score strand phase attributes : Str)
    (hf : utils.get_fields line '\t' =
      [seqid, source, type, start, end_, score, strand, phase, attributes])
    (hv : columns_valid stod start end_ score strand phase = true)
    (hall : ∀ p ∈ utils.get_fields (utils.trim attributes) ';', p.count '=' = 1) :
    ∃ d : gff_data_t, parse_line stod line error linenum onlystrinval = (d, error) ∧
      d.position.seqid = seqid ∧ d.source = source ∧ d.type = type ∧ d.linenum = linenum ∧
      (if utils.check_no_data (utils.trim start) = true then none
        else convert_str_to_uint64 (utils.trim start)) = some d.position.start ∧
      (if utils.check_no_data (utils.trim end_) = true then none
        else convert_str_to_uint64 (utils.trim end_)) = some d.position.end_ ∧
      (utils.check_no_data (utils.trim score) = true → d.score = gff_data_t.d_nodata) ∧
      (utils.check_no_data (utils.trim score) = false →
        convert_str_to_double stod (utils.trim score) = some d.score) ∧
      (utils.check_no_data (utils.trim strand) = true → d.strand = Char.ofNat 0) ∧
      (utils.check_no_data (utils.trim strand) = false → utils.trim strand = [d.strand]) ∧
      (utils.check_no_data (utils.trim phase) = true → d.phase = Char.ofNat 0) ∧
      (utils.check_no_data (utils.trim phase) = false → utils.trim phase = [d.phase]) := by
  obtain ⟨vstart, vend, vscore, vstrand, vphase, e1, e2, e3, e4, e5, c1, c2, c3, c4, c5⟩ :=
    columns_valid_values stod start end_ score strand phase hv
  have hpl := ((((((parse_line_unfold stod line error linenum onlystrinval seqid source type
    start end_ score strand phase attributes hf).2 vstart e1).2 vend e2).2 vscore e3).2
    vstrand e4).2 vphase e5)
  obtain ⟨d', hd', _, _⟩ := (parse_line_attrs_spec stod onlystrinval
    (utils.get_fields (utils.trim attributes) ';')
    { source := source, type := type,
      position := { seqid := seqid, start := vstart, end_ := vend },
      score := vscore, strand := vstrand, phase := vphase, linenum := linenum }).2 hall
  obtain ⟨f1, f2, f3, f4, f5, f6, f7⟩ := parse_line_attrs_frame stod onlystrinval _ _ _ hd'
  rw [hd'] at hpl
  refine ⟨d', hpl, by rw [f1], by rw [f3], by rw [f4], by rw [f2], by rw [f1]; exact e1,
    by rw [f1]; exact e2, fun h => by rw [f5]; exact c1 h, fun h => ?_,
    fun h => by rw [f6]; exact c2 h, fun h => by rw [f6]; exact c3 h,
    fun h => by rw [f7]; exact c4 h, fun h => by rw [f7]; exact c5 h⟩
  rw [f5]
  rw [h] at e3
  simpa using e3

/-- C11: on a nine-field line with a non-empty seqid whose columns pass their
checks and whose attributes are well formed, parse_line succeeds, and a column
that is one of the six missing tokens "", ".", "na", "NA", "N/A", "n/a" (each
passes the check of its column by itself) gives the no-value sentinel: the
score is d_nodata, which is not zero, the strand is the character 0, the phase
is the character 0. -/
theorem parse_line_missing_tokens (stod : Str → Option double) (line error : Str)
    (linenum : Nat) (onlystrinval : Bool)
    (seqid source type start end_ score strand phase attributes tok : Str)
    (hf : utils.get_fields line '\t' =
      [seqid, source, type, start, end_, score, strand, phase, attributes])
    (hseq : seqid ≠ [])
    (hv : columns_valid stod start end_ score strand phase = true)
    (hall : ∀ p ∈ utils.get_fields (utils.trim attributes) ';', p.count '=' = 1)
    (htok : tok ∈ missing_tokens) :
    utils.check_no_data (utils.trim tok) = true ∧
    (parse_line stod line error linenum onlystrinval).2 = error ∧
    (parse_line stod line error linenum onlystrinval).1.empty = false ∧
    (score = tok →
      (parse_line stod line error linenum onlystrinval).1.score = gff_data_t.d_nodata) ∧
    (strand = tok →
      (parse_line stod line error linenum onlystrinval).1.strand = Char.ofNat 0) ∧
    (phase = tok →
      (parse_line stod line error linenum onlystrinval).1.phase = Char.ofNat 0) ∧
    gff_data_t.d_nodata.eq ⟨0⟩ = false ∧ gff_data_t.d_nodata ≠ ⟨0⟩ := by
  obtain ⟨t1, t2, _⟩ := missing_tokens_spec tok htok
  have ht : utils.check_no_data (utils.trim tok) = true := by rw [t2]; exact t1
  obtain ⟨d, hd, d1, _, _, _, _, _, s1, _, s2, _, s3, _⟩ :=
    parse_line_valid_record stod line error linenum onlystrinval seqid source type start end_
      score strand phase attributes hf hv hall
  rw [hd]
  refine ⟨ht, rfl, ?_, fun h => s1 (h ▸ ht), fun h => s2 (h ▸ ht), fun h => s3 (h ▸ ht),
    by decide, by decide⟩
  simp [gff_data_t.empty, gff_postition_t.empty, d1, hseq]

/-- Witness of C11: the line of the example, whose score and phase are ".". -/
theorem parse_line_missing_tokens_witness :
    (parse_line stod_unreached
        "chr1\tHAVANA\tgene\t100\t200\t.\t+\t.\tgene_id=G1;gene_name=FOO".toList
        [] 2 false).2 = [] ∧
    (parse_line stod_unreached
        "chr1\tHAVANA\tgene\t100\t200\t.\t+\t.\tgene_id=G1;gene_name=FOO".toList
        [] 2 false).1.score = gff_data_t.d_nodata :=
  have h := parse_line_missing_tokens stod_unreached
    "chr1\tHAVANA\tgene\t100\t200\t.\t+\t.\tgene_id=G1;gene_name=FOO".toList [] 2 false
    "chr1".toList "HAVANA".toList "gene".toList "100".toList "200".toList ".".toList
    "+".toList ".".toList "gene_id=G1;gene_name=FOO".toList ".".toList
    (by decide) (by decide) (by decide) (by decide) (by decide)
  ⟨h.2.1, h.2.2.2.1 rfl⟩

/-- C12: on a nine-field line whose start column is one of the six missing tokens,
possibly between whitespace, parse_line returns the empty record `gff_data_t()`
and sets the error "line#<n> wrong 'start' field"; with a start column that
passes its check and such an end column, the error is "line#<n> wrong 'end'
field". -/
theorem parse_line_missing_start_end (stod : Str → Option double) (line error : Str)
    (linenum : Nat) (onlystrinval : Bool)
    (seqid source type start end_ score strand phase attributes ws1 tok ws2 : Str)
    (hf : utils.get_fields line '\t' =
      [seqid, source, type, start, end_, score, strand, phase, attributes])
    (h1 : ∀ c ∈ ws1, isspace c = true) (h2 : ∀ c ∈ ws2, isspace c = true)
    (htok : tok ∈ missing_tokens) :
    (start = ws1 ++ tok ++ ws2 →
      parse_line stod line error linenum onlystrinval =
        ({}, "line#".toList ++ to_string linenum ++ " wrong 'start' field".toList) ∧
      (parse_line stod line error linenum onlystrinval).1.empty = true) ∧
    (utils.check_no_data (utils.trim start) = false →
      (convert_str_to_uint64 (utils.trim start)).isSome = true →
      end_ = ws1 ++ tok ++ ws2 →
      parse_line stod line error linenum onlystrinval =
        ({}, "line#".toList ++ to_string linenum ++ " wrong 'end' field".toList) ∧
      (parse_line stod line error linenum onlystrinval).1.empty = true) := by
  have hrej := missing_column_rejected ws1 tok ws2 h1 h2 htok
  have hu := parse_line_unfold stod line error linenum onlystrinval seqid source type
    start end_ score strand phase attributes hf
  constructor
  · intro hs
    have := hu.1 (by rw [hs]; exact hrej)
    rw [this]
    exact ⟨rfl, rfl⟩
  · intro hs1 hs2 he
    obtain ⟨vstart, hvs⟩ := Option.isSome_iff_exists.mp hs2
    have := (hu.2 vstart (by rw [hs1]; simpa using hvs)).1 (by rw [he]; exact hrej)
    rw [this]
    exact ⟨rfl, rfl⟩

/-- Witness of C12: the start column " n/a " on line 5. -/
theorem parse_line_missing_start_end_witness :
    parse_line stod_unreached "chr1\tsrc\tgene\t n/a \t200\t.\t+\t.\tID=x".toList [] 5 false =
      ({}, "line#5 wrong 'start' field".toList) :=
  ((parse_line_missing_start_end stod_unreached
    "chr1\tsrc\tgene\t n/a \t200\t.\t+\t.\tID=x".toList [] 5 false
    "chr1".toList "src".toList "gene".toList " n/a ".toList "200".toList ".".toList
    "+".toList ".".toList "ID=x".toList " ".toList "n/a".toList " ".toList
    (by decide) (by decide) (by decide) (by decide)).1 (by decide)).1

/-- C13 on the code: the line whose start column is "12abc" and whose end column
is "20xyz" parses; std::stoll reads the leading digits and ignores the rest, no
error is set and the record has start 12 and end 20. -/
theorem parse_line_trailing_text :
    (parse_line stod_unreached "chr1\tsrc\tgene\t12abc\t20xyz\t.\t+\t.\tID=x".toList
      [] 1 false).2 = [] ∧
    (parse_line stod_unreached "chr1\tsrc\tgene\t12abc\t20xyz\t.\t+\t.\tID=x".toList
      [] 1 false).1.empty = false ∧
    (parse_line stod_unreached "chr1\tsrc\tgene\t12abc\t20xyz\t.\t+\t.\tID=x".toList
      [] 1 false).1.position = { seqid := "chr1".toList, start := 12, end_ := 20 } := by
  decide

/-- C14: on a nine-field line whose start, end and score pass their checks
(`columns_valid` with an empty strand and phase, which pass theirs), a
trimmed strand column that is not a missing token and is not one character long
makes parse_line return `gff_data_t()` with "line#<n> wrong 'strand' field";
with a strand that passes, such a phase column gives "line#<n> wrong 'phase'
field"; and when the trimmed strand (resp. phase) is one character that is not
the missing token "." and the rest of the line is well formed, the line parses
and the record's strand (resp. phase) is that character. -/
theorem parse_line_strand_phase (stod : Str → Option double) (line error : Str)
    (linenum : Nat) (onlystrinval : Bool)
    (seqid source type start end_ score strand phase attributes : Str)
    (hf : utils.get_fields line '\t' =
      [seqid, source, type, start, end_, score, strand, phase, attributes])
    (hv : columns_valid stod start end_ score [] [] = true) :
    (utils.check_no_data (utils.trim strand) = false → (utils.trim strand).length ≠ 1 →
      parse_line stod line error linenum onlystrinval =
        ({}, "line#".toList ++ to_string linenum ++ " wrong 'strand' field".toList)) ∧
    ((utils.check_no_data (utils.trim strand) = true ∨ (utils.trim strand).length = 1) →
      utils.check_no_data (utils.trim phase) = false → (utils.trim phase).length ≠ 1 →
      parse_line stod line error linenum onlystrinval =
        ({}, "line#".toList ++ to_string linenum ++ " wrong 'phase' field".toList)) ∧
    (∀ c, utils.check_no_data (utils.trim strand) = false → utils.trim strand = [c] →
      (utils.check_no_data (utils.trim phase) = true ∨ (utils.trim phase).length = 1) →
      (∀ p ∈ utils.get_fields (utils.trim attributes) ';', p.count '=' = 1) →
      (parse_line stod line error linenum onlystrinval).2 = error ∧
      (parse_line stod line error linenum onlystrinval).1.strand = c) ∧
    (∀ c, utils.check_no_data (utils.trim phase) = false → utils.trim phase = [c] →
      (utils.check_no_data (utils.trim strand) = true ∨ (utils.trim strand).length = 1) →
      (∀ p ∈ utils.get_fields (utils.trim attributes) ';', p.count '=' = 1) →
      (parse_line stod line error linenum onlystrinval).2 = error ∧
      (parse_line stod line error linenum onlystrinval).1.phase = c) := by
  have hu := parse_line_unfold stod line error linenum onlystrinval seqid source type
    start end_ score strand phase attributes hf
  obtain ⟨vstart, vend, vscore, _, _, e1, e2, e3, _⟩ :=
    columns_valid_values stod start end_ score [] [] hv
  have hu3 := ((hu.2 vstart e1).2 vend e2).2 vscore e3
  -- the five checks pass together when strand and phase pass
  have hvalid : (utils.check_no_data (utils.trim strand) = true ∨ (utils.trim strand).length = 1) →
      (utils.check_no_data (utils.trim phase) = true ∨ (utils.trim phase).length = 1) →
      columns_valid stod start end_ score strand phase = true := by
    intro hs hp
    simp only [columns_valid, Bool.and_eq_true, Bool.or_eq_true, decide_eq_true_eq] at hv ⊢
    exact ⟨⟨⟨hv.1.1.1, hv.1.1.2⟩, hs⟩, hp⟩
  refine ⟨?_, ?_, ?_, ?_⟩
  · intro hn hl
    have := hu3.1 (by rw [hn]; simp [hl])
    rw [this]; rfl
  · intro hs hn hl
    obtain ⟨vstrand, a1, _, _⟩ := char_column_value strand hs
    have := (hu3.2 vstrand a1).1 (by rw [hn]; simp [hl])
    rw [this]; rfl
  · intro c hn hc hp hall
    obtain ⟨d, hd, _, _, _, _, _, _, _, _, _, s2, _, _⟩ :=
      parse_line_valid_record stod line error linenum onlystrinval seqid source type start
        end_ score strand phase attributes hf (hvalid (Or.inr (by rw [hc]; rfl)) hp) hall
    rw [hd]
    have := s2 hn
    rw [hc] at this
    simp only [List.cons.injEq, and_true] at this
    exact ⟨rfl, this.symm⟩
  · intro c hn hc hs hall
    obtain ⟨d, hd, _, _, _, _, _, _, _, _, _, _, _, s4⟩ :=
      parse_line_valid_record stod line error linenum onlystrinval seqid source type start
        end_ score strand phase attributes hf (hvalid hs (Or.inr (by rw [hc]; rfl))) hall
    rw [hd]
    have := s4 hn
    rw [hc] at this
    simp only [List.cons.injEq, and_true] at this
    exact ⟨rfl, this.symm⟩

/-- Witness of C14: the strand column "+-" on line 3. -/
theorem parse_line_strand_phase_witness :
    parse_line stod_unreached "chr1\tsrc\tgene\t100\t200\t.\t+-\t.\tID=x".toList [] 3 false =
      ({}, "line#3 wrong 'strand' field".toList) :=
  (parse_line_strand_phase stod_unreached
    "chr1\tsrc\tgene\t100\t200\t.\t+-\t.\tID=x".toList [] 3 false
    "chr1".toList "src".toList "gene".toList "100".toList "200".toList ".".toList
    "+-".toList ".".toList "ID=x".toList (by decide) (by decide)).1 (by decide) (by decide)

/-! ## Auto-typing of attribute values (C15 to C17) -/

/-- A decimal digit is not whitespace, a sign or the point. -/
theorem isdigit_not_other (c : Char) (h : isdigit c = true) :
    isspace c = false ∧ c ≠ '-' ∧ c ≠ '+' ∧ c ≠ '.' := by
  simp only [isdigit, decide_eq_true_eq] at h
  have hne : ∀ x : Char, (x.toNat < '0'.toNat ∨ '9'.toNat < x.toNat) → c ≠ x := by
    intro x hx hcx
    rw [hcx] at h
    omega
  refine ⟨?_, hne _ (by decide), hne _ (by decide), hne _ (by decide)⟩
  simp only [isspace, Bool.or_eq_false_iff, decide_eq_false_iff_not]
  exact ⟨⟨⟨⟨⟨hne _ (by decide), hne _ (by decide)⟩, hne _ (by decide)⟩, hne _ (by decide)⟩,
    hne _ (by decide)⟩, hne _ (by decide)⟩

/-- The scan of set_attr_auto: `isdigit` says whether every character is a digit
or the point; when it does, `dotcnt` has counted the points. -/
theorem set_attr_auto_scan_spec (val : Str) :
    ∀ n, (gff_data_t.set_attr_auto_scan val n).1 = val.all (fun c => c = '.' || isdigit c) ∧
      ((gff_data_t.set_attr_auto_scan val n).1 = true →
        (gff_data_t.set_attr_auto_scan val n).2 = n + val.count '.') := by
  induction val with
  | nil => intro n; simp [gff_data_t.set_attr_auto_scan]
  | cons c cs ih =>
    intro n
    by_cases hc : c = '.'
    · subst hc
      have := ih (n + 1)
      simp only [gff_data_t.set_attr_auto_scan, if_true, List.all_cons, List.count_cons_self]
      refine ⟨by rw [this.1]; simp, fun h => by rw [this.2 h]; omega⟩
    · by_cases hd : isdigit c = true
      · have := ih n
        simp only [gff_data_t.set_attr_auto_scan, hc, if_false, hd, Bool.not_true,
          Bool.false_eq_true, List.all_cons]
        refine ⟨by rw [this.1]; simp [hd], fun h => ?_⟩
        rw [this.2 h, List.count_cons]
        have : (c == '.') = false := by simpa using hc
        simp [this]
      · have hd' : isdigit c = false := by simpa using hd
        simp [gff_data_t.set_attr_auto_scan, hc, hd']

/-- The function std::stol on a non-empty text of digits: its value, when it
fits a signed 64-bit integer. -/
theorem stol_digits (val : Str) (hne : val ≠ []) (hd : ∀ c ∈ val, isdigit c = true) :
    stol val = if digits_value val < 2 ^ 63 then some (digits_value val : Int) else none := by
  obtain ⟨c, cs, rfl⟩ := List.exists_cons_of_ne_nil hne
  obtain ⟨n1, n2, n3, _⟩ := isdigit_not_other c (hd c (List.mem_cons_self _ _))
  have h1 : (c :: cs).dropWhile isspace = c :: cs := by simp [n1]
  have h2 : (c :: cs).takeWhile isdigit = c :: cs := List.takeWhile_eq_self_iff.mpr hd
  unfold stol stoll
  simp only [h1, List.head?_cons, Option.some.injEq, n2, n3, or_self, if_false, h2,
    decide_False, Bool.false_eq_true]
  generalize digits_value (c :: cs) = v
  norm_num
  rw [if_neg (List.cons_ne_nil c cs)]
  by_cases hlt : v < 9223372036854775808
  · rw [if_pos hlt, if_neg]
    rintro (h | h) <;> omega
  · rw [if_neg hlt, if_pos]
    right
    omega

/-- The function set_attr_auto with its scan replaced by what the scan computes. -/
theorem set_attr_auto_unfold (stod : Str → Option double) (d : gff_data_t) (name val : Str) :
    d.set_attr_auto stod name val =
      if val.all (fun c => c = '.' || isdigit c) = false ∨ val.count '.' > 1 then
        d.set_attr name (.string val)
      else if val.count '.' = 1 then
        match stod val with
        | some x => d.set_attr name (.float x)
        | none => d.set_attr name (.string val)
      else
        match stol val with
        | some x => d.set_attr name (.integer x)
        | none => d.set_attr name (.string val) := by
  obtain ⟨h1, h2⟩ := set_attr_auto_scan_spec val 0
  unfold gff_data_t.set_attr_auto
  cases hall : val.all (fun c => c = '.' || isdigit c) with
  | false =>
    rw [hall] at h1
    simp [h1]
  | true =>
    rw [hall] at h1
    have h3 := h2 h1
    simp only [Nat.zero_add] at h3
    simp only [h1, h3, Bool.not_true, Bool.false_or, decide_eq_true_eq, Bool.true_eq_false,
      false_or]

/-- The value stored under a name by set_attr is the value read back. -/
theorem get_attr_set_attr (d : gff_data_t) (name : Str) (v : gff_attr_t) :
    (d.set_attr name v).get_attr name = v := by
  simp [gff_data_t.get_attr, gff_data_t.set_attr, umap_find_assign]

/-- C15: with auto-typing, an attribute value that is a non-empty text of decimal
digits whose value fits a signed 64-bit integer is stored as the Integer of that
value, not as Text; "42" becomes Integer 42. -/
theorem set_attr_auto_integer (stod : Str → Option double) (d : gff_data_t) (name val : Str)
    (hne : val ≠ []) (hd : ∀ c ∈ val, isdigit c = true) (hfit : digits_value val < 2 ^ 63) :
    d.set_attr_auto stod name val = d.set_attr name (.integer (digits_value val)) ∧
    (d.set_attr_auto stod name val).get_attr name = .integer (digits_value val) ∧
    ((d.set_attr_auto stod name val).get_attr name).is_integer = true ∧
    ((d.set_attr_auto stod name val).get_attr name).is_string = false ∧
    (d.set_attr_auto stod name "42".toList).get_attr name = .integer 42 := by
  have key : ∀ v : Str, v ≠ [] → (∀ c ∈ v, isdigit c = true) → digits_value v < 2 ^ 63 →
      d.set_attr_auto stod name v = d.set_attr name (.integer (digits_value v)) := by
    intro v hv hdv hfv
    have hall : v.all (fun c => c = '.' || isdigit c) = true := by
      rw [List.all_eq_true]
      intro c hc
      simp [hdv c hc]
    have hcnt : v.count '.' = 0 := by
      rw [List.count_eq_zero]
      intro hmem
      exact (isdigit_not_other '.' (hdv '.' hmem)).2.2.2 rfl
    rw [set_attr_auto_unfold, hall, hcnt, stol_digits v hv hdv, if_pos hfv]
    simp
  have h42 := key "42".toList (by decide) (by decide) (by decide)
  rw [key val hne hd hfit, h42, get_attr_set_attr, get_attr_set_attr]
  exact ⟨rfl, rfl, rfl, rfl, by decide⟩

/-- Witness of C15: the value "42". -/
theorem set_attr_auto_integer_witness :
    (({} : gff_data_t).set_attr_auto stod_unreached "n".toList "42".toList).get_attr "n".toList =
      .integer (digits_value "42".toList) :=
  (set_attr_auto_integer stod_unreached {} "n".toList "42".toList
    (by decide) (by decide) (by decide)).2.1

/-- C16: with auto-typing, an attribute value is stored as Text equal to the raw
value when it holds a character that is neither a digit nor '.', or more than
one '.', or when its conversion fails: std::stol on a text of digits (the empty
text, a value that exceeds the signed 64-bit range), std::stod on a text with
one '.' (a lone "." when std::stod rejects it, as the reference std::stod
does); "3.14.1" becomes Text "3.14.1". -/
theorem set_attr_auto_text (stod : Str → Option double) (d : gff_data_t) (name val : Str) :
    ((∃ c ∈ val, c ≠ '.' ∧ isdigit c = false) →
      d.set_attr_auto stod name val = d.set_attr name (.string val)) ∧
    (val.count '.' > 1 → d.set_attr_auto stod name val = d.set_attr name (.string val)) ∧
    (val.count '.' = 1 → stod val = none →
      d.set_attr_auto stod name val = d.set_attr name (.string val)) ∧
    (val.count '.' = 0 → stol val = none →
      d.set_attr_auto stod name val = d.set_attr name (.string val)) ∧
    ((∀ c ∈ val, isdigit c = true) → 2 ^ 63 ≤ digits_value val →
      d.set_attr_auto stod name val = d.set_attr name (.string val)) ∧
    d.set_attr_auto stod name [] = d.set_attr name (.string []) ∧
    (stod ".".toList = none →
      d.set_attr_auto stod name ".".toList = d.set_attr name (.string ".".toList)) ∧
    stod_decimal ".".toList = none ∧
    d.set_attr_auto stod name "3.14.1".toList = d.set_attr name (.string "3.14.1".toList) ∧
    (d.set_attr name (.string val)).get_attr name = .string val := by
  have hu := set_attr_auto_unfold stod d name
  have hbad : val.count '.' > 1 → d.set_attr_auto stod name val = d.set_attr name (.string val) := by
    intro h
    rw [hu, if_pos (Or.inr h)]
  have hstod : ∀ v : Str, v.count '.' = 1 → stod v = none →
      d.set_attr_auto stod name v = d.set_attr name (.string v) := by
    intro v h hs
    rw [hu, hs]
    split_ifs <;> rfl
  have hstol : ∀ v : Str, v.count '.' = 0 → stol v = none →
      d.set_attr_auto stod name v = d.set_attr name (.string v) := by
    intro v h hs
    rw [hu, hs]
    by_cases h1 : v.all (fun c => c = '.' || isdigit c) = false ∨ v.count '.' > 1
    · rw [if_pos h1]
    · rw [if_neg h1, if_neg (by omega)]
  refine ⟨?_, hbad, hstod val, hstol val, ?_, hstol [] (by decide) (by decide),
    hstod ".".toList (by decide), by decide, ?_, get_attr_set_attr _ _ _⟩
  · rintro ⟨c, hc, h1, h2⟩
    have : val.all (fun c => c = '.' || isdigit c) = false := by
      rw [List.all_eq_false]
      exact ⟨c, hc, by simp [h1, h2]⟩
    rw [hu, if_pos (Or.inl this)]
  · intro hd hbig
    by_cases hne : val = []
    · subst hne
      exact hstol [] (by decide) (by decide)
    · have hcnt : val.count '.' = 0 := by
        rw [List.count_eq_zero]
        intro hmem
        exact (isdigit_not_other '.' (hd '.' hmem)).2.2.2 rfl
      refine hstol val hcnt ?_
      rw [stol_digits val hne hd, if_neg (by omega)]
  · rw [hu, if_pos (Or.inr (by decide))]

/-- C17, as the code has it: with auto-typing, an attribute value made of decimal
digits and exactly one '.' is stored with the Float tag, holding the converted
value (is_float holds, is_string and is_integer do not), when std::stod
converts it; when std::stod throws, the value is stored as Text. -/
theorem set_attr_auto_float (stod : Str → Option double) (d : gff_data_t) (name val : Str)
    (hchars : ∀ c ∈ val, c = '.' ∨ isdigit c = true) (hdot : val.count '.' = 1) :
    (∀ x, stod val = some x →
      (d.set_attr_auto stod name val).get_attr name = .float x ∧
      ((d.set_attr_auto stod name val).get_attr name).is_float = true ∧
      ((d.set_attr_auto stod name val).get_attr name).is_string = false ∧
      ((d.set_attr_auto stod name val).get_attr name).is_integer = false) ∧
    (stod val = none →
      (d.set_attr_auto stod name val).get_attr name = .string val ∧
      ((d.set_attr_auto stod name val).get_attr name).is_float = false) := by
  have hall : val.all (fun c => c = '.' || isdigit c) = true := by
    rw [List.all_eq_true]
    intro c hc
    rcases hchars c hc with h | h <;> simp [h]
  have hu : d.set_attr_auto stod name val =
      match stod val with
      | some x => d.set_attr name (.float x)
      | none => d.set_attr name (.string val) := by
    rw [set_attr_auto_unfold, hall, hdot]
    simp
  constructor
  · intro x hx
    rw [hu, hx]
    rw [get_attr_set_attr]
    exact ⟨rfl, rfl, rfl, rfl⟩
  · intro hn
    rw [hu, hn]
    rw [get_attr_set_attr]
    exact ⟨rfl, rfl⟩

set_option maxRecDepth 100000 in
/-- Witness of C17: the value "3.14" under the reference std::stod is stored as
the Float 3.14 (the double 0x40091EB851EB851F). -/
theorem set_attr_auto_float_witness :
    (({} : gff_data_t).set_attr_auto stod_decimal "n".toList "3.14".toList).get_attr "n".toList =
      .float ⟨0x40091EB851EB851F⟩ :=
  ((set_attr_auto_float stod_decimal {} "n".toList "3.14".toList (by decide) (by decide)).1
    ⟨0x40091EB851EB851F⟩ (by decide)).1

set_option maxRecDepth 100000 in
set_option exponentiation.threshold 2000 in
/-- C17 fails as stated: the value "1", 309 zeros and ".", made of digits and one
'.', is 10^309, above the largest double; std::stod throws std::out_of_range
and set_attr_auto stores the value as Text. -/
theorem set_attr_auto_float_overflow :
    is_point_literal ('1' :: List.replicate 309 '0' ++ ['.']) = true ∧
    (({} : gff_data_t).set_attr_auto stod_decimal "n".toList
        ('1' :: List.replicate 309 '0' ++ ['.'])).get_attr "n".toList =
      .string ('1' :: List.replicate 309 '0' ++ ['.']) ∧
    ((({} : gff_data_t).set_attr_auto stod_decimal "n".toList
        ('1' :: List.replicate 309 '0' ++ ['.'])).get_attr "n".toList).is_float = false := by
  decide

/-! ## Attribute values kept as text (C18) -/

theorem split_from_ne_nil (delim : Char) (l : Str) : ∀ part, split_from delim l part ≠ [] := by
  intro part h
  have := split_from_length delim l part
  rw [h] at this
  simp at this

theorem split_from_single (delim : Char) (l : Str) :
    ∀ part b, split_from delim l part = [b] → b = part ++ l := by
  induction l with
  | nil => intro part b h; simp [split_from] at h; simp [h]
  | cons c cs ih =>
    intro part b h
    by_cases hc : c = delim
    · simp only [split_from, hc, if_true, List.cons.injEq] at h
      exact absurd h.2 (split_from_ne_nil delim cs [])
    · simp only [split_from, hc, if_false] at h
      rw [ih _ _ h]
      simp

/-- A text that splits into exactly two fields is the first field, the delimiter
and the second field. -/
theorem split_from_pair (delim : Char) (l : Str) :
    ∀ part a b, split_from delim l part = [a, b] → part ++ l = a ++ delim :: b := by
  induction l with
  | nil => intro part a b h; simp [split_from] at h
  | cons c cs ih =>
    intro part a b h
    by_cases hc : c = delim
    · simp only [split_from, hc, if_true, List.cons.injEq] at h
      have := split_from_single delim cs [] b h.2
      rw [this, h.1, hc]
      simp
    · simp only [split_from, hc, if_false] at h
      have := ih _ _ _ h
      rw [← this]
      simp

theorem get_fields_pair (p nm val : Str) (h : utils.get_fields p '=' = [nm, val]) :
    p = nm ++ '=' :: val := by
  rw [get_fields_eq] at h
  simpa using split_from_pair '=' p [] nm val h

/-- The attribute loop without auto-typing: an attribute of the record it leaves
was there before, or holds as Text the value of a piece `name=value`. -/
theorem parse_line_attrs_text (stod : Str → Option double) (pieces : List Str) :
    ∀ d d', parse_line_attrs stod true pieces d = some d' →
      ∀ k v, umap_find d'.attributes k = some v →
        umap_find d.attributes k = some v ∨
        ∃ p ∈ pieces, ∃ val, p = k ++ '=' :: val ∧ v = .string val := by
  induction pieces with
  | nil =>
    intro d d' h k v hk
    simp only [parse_line_attrs, Option.some.injEq] at h
    subst h
    exact Or.inl hk
  | cons p rest ih =>
    intro d d' h k v hk
    unfold parse_line_attrs at h
    split at h
    · rename_i nm val hfs
      simp only [if_true] at h
      rcases ih _ _ h k v hk with h1 | ⟨q, hq, val', e1, e2⟩
      · simp only [gff_data_t.set_attr, umap_find_assign] at h1
        by_cases hnk : nm = k
        · right
          rw [if_pos hnk] at h1
          simp only [Option.some.injEq] at h1
          exact ⟨p, List.mem_cons_self _ _, val, by rw [← hnk]; exact get_fields_pair p nm val hfs,
            h1.symm⟩
        · rw [if_neg hnk] at h1
          exact Or.inl h1
      · exact Or.inr ⟨q, List.mem_cons_of_mem _ hq, val', e1, e2⟩
    · cases h

/-- C18: without auto-typing, on every nine-field line, every attribute of the
record parse_line returns is stored as Text, equal to the text after '=' of a
piece `name=value` of the attributes column with that name (a line that does
not parse gives `gff_data_t()`, which has no attribute); so "42" stays Text
"42". -/
theorem parse_line_attrs_only_text (stod : Str → Option double) (line error : Str)
    (linenum : Nat) (seqid source type start end_ score strand phase attributes : Str)
    (hf : utils.get_fields line '\t' =
      [seqid, source, type, start, end_, score, strand, phase, attributes])
    (k : Str) (v : gff_attr_t)
    (hk : umap_find (parse_line stod line error linenum true).1.attributes k = some v) :
    (∃ p ∈ utils.get_fields (utils.trim attributes) ';', ∃ val,
      p = k ++ '=' :: val ∧ v = .string val) ∧
    v.is_string = true ∧
    (({} : gff_data_t).set_attr "n".toList (.string "42".toList)).get_attr "n".toList =
      .string "42".toList := by
  have hu := parse_line_unfold stod line error linenum true seqid source type
    start end_ score strand phase attributes hf
  have hfail : ∀ msg, parse_line stod line error linenum true = ({}, msg) → False := by
    intro msg hm
    rw [hm] at hk
    simp [umap_find] at hk
  have main : ∃ p ∈ utils.get_fields (utils.trim attributes) ';', ∃ val,
      p = k ++ '=' :: val ∧ v = .string val := by
    cases h1 : (if utils.check_no_data (utils.trim start) = true then none
        else convert_str_to_uint64 (utils.trim start)) with
    | none => exact absurd (hu.1 h1) (fun h => hfail _ h)
    | some vstart =>
      have hu := hu.2 vstart h1
      cases h2 : (if utils.check_no_data (utils.trim end_) = true then none
          else convert_str_to_uint64 (utils.trim end_)) with
      | none => exact absurd (hu.1 h2) (fun h => hfail _ h)
      | some vend =>
        have hu := hu.2 vend h2
        cases h3 : (if utils.check_no_data (utils.trim score) = true
            then some gff_data_t.d_nodata
            else convert_str_to_double stod (utils.trim score)) with
        | none => exact absurd (hu.1 h3) (fun h => hfail _ h)
        | some vscore =>
          have hu := hu.2 vscore h3
          cases h4 : (if utils.check_no_data (utils.trim strand) = true
              then some (Char.ofNat 0)
              else if (utils.trim strand).length ≠ 1 then none
              else (utils.trim strand).head?) with
          | none => exact absurd (hu.1 h4) (fun h => hfail _ h)
          | some vstrand =>
            have hu := hu.2 vstrand h4
            cases h5 : (if utils.check_no_data (utils.trim phase) = true
                then some (Char.ofNat 0)
                else if (utils.trim phase).length ≠ 1 then none
                else (utils.trim phase).head?) with
            | none => exact absurd (hu.1 h5) (fun h => hfail _ h)
            | some vphase =>
              have hpl := hu.2 vphase h5
              cases ha : parse_line_attrs stod true
                  (utils.get_fields (utils.trim attributes) ';')
                  { source := source, type := type,
                    position := { seqid := seqid, start := vstart, end_ := vend },
                    score := vscore, strand := vstrand, phase := vphase,
                    linenum := linenum } with
              | none =>
                rw [ha] at hpl
                exact absurd hpl (fun h => hfail _ h)
              | some d' =>
                rw [ha] at hpl
                rw [hpl] at hk
                rcases parse_line_attrs_text stod _ _ _ ha k v hk with h | h
                · simp [umap_find] at h
                · exact h
  obtain ⟨p, hp, val, e1, e2⟩ := main
  exact ⟨⟨p, hp, val, e1, e2⟩, by rw [e2]; rfl, by decide⟩

/-- Witness of C18: the attribute ID of the line whose attributes column is
"ID=42". -/
theorem parse_line_attrs_only_text_witness :
    ∃ p ∈ utils.get_fields (utils.trim "ID=42".toList) ';', ∃ val,
      p = "ID".toList ++ '=' :: val ∧ gff_attr_t.string "42".toList = .string val :=
  (parse_line_attrs_only_text stod_unreached
    "chr1\tsrc\tgene\t100\t200\t.\t+\t.\tID=42".toList [] 1
    "chr1".toList "src".toList "gene".toList "100".toList "200".toList ".".toList
    "+".toList ".".toList "ID=42".toList (by decide) "ID".toList (.string "42".toList)
    (by decide)).1

/-! ## gff_attr_t: equality and rendering (C19, C20) -/

/-- C20 on the code: a default-constructed gff_attr_t, which is what get_attr
returns for a name the record does not have, holds the first alternative of the
variant, an empty text: empty() is false and str() renders "string="; no value
is ever empty. A value built from a text, an integer or a double renders as
"string=", "integer=" or "float=" and the value. -/
theorem gff_attr_default_not_empty (dtos : double → Str) (name : Str) :
    gff_attr_t.default.empty = false ∧
    gff_attr_t.default.str dtos = "string=".toList ∧
    (({} : gff_data_t).get_attr name).empty = false ∧
    (({} : gff_data_t).get_attr name).str dtos = "string=".toList ∧
    (∀ a : gff_attr_t, a.empty = false) ∧
    (∀ s : Str, (gff_attr_t.string s).str dtos = "string=".toList ++ s) ∧
    (∀ i : Int, (gff_attr_t.integer i).str dtos = "integer=".toList ++ to_string_int i) ∧
    (∀ x : double, (gff_attr_t.float x).str dtos = "float=".toList ++ dtos x) := by
  have hempty : ∀ a : gff_attr_t, a.empty = false := by
    intro a
    cases a <;> simp [gff_attr_t.empty, gff_attr_t.index, variant_npos]
  refine ⟨hempty _, ?_, hempty _, ?_, hempty, ?_, ?_, ?_⟩
  · simp [gff_attr_t.str, hempty, gff_attr_t.default]
  · simp [gff_attr_t.str, hempty, gff_data_t.get_attr, umap_find, gff_attr_t.default]
  · intro s; simp [gff_attr_t.str, hempty]
  · intro i; simp [gff_attr_t.str, hempty]
  · intro x; simp [gff_attr_t.str, hempty]

/-! ## Ingestion line by line (C21 to C25) -/

/-- A blank line only advances the line counter. -/
theorem operator_lshift_blank (stod : Str → Option double) (p : gff_parser_t) :
    p.operator_lshift stod [] = some { p with _linenum := p._linenum + 1 } := by
  simp [gff_parser_t.operator_lshift]

/-- Once the version is set, operator<< goes straight to the comment test. -/
theorem operator_lshift_versioned (stod : Str → Option double) (p : gff_parser_t) (line : Str)
    (hv : p._gff_version ≠ 0) (hl : line ≠ []) :
    p.operator_lshift stod line =
      some (gff_parser_t.operator_lshift_line stod { p with _linenum := p._linenum + 1 } line) := by
  simp [gff_parser_t.operator_lshift, hv, hl]

/-- Once the version is set, a comment line only advances the line counter. -/
theorem operator_lshift_comment (stod : Str → Option double) (p : gff_parser_t) (line : Str)
    (hv : p._gff_version ≠ 0) (hc : line.head? = some '#') :
    p.operator_lshift stod line = some { p with _linenum := p._linenum + 1 } := by
  have hl : line ≠ [] := by
    intro h
    rw [h] at hc
    cases hc
  rw [operator_lshift_versioned stod p line hv hl]
  simp [gff_parser_t.operator_lshift_line, hc]

/-- The capture group of the version regex on "##gff-version", one space and
digits. -/
theorem regex_match_gff_version_digits (ds : Str) (hne : ds ≠ [])
    (hd : ∀ c ∈ ds, isdigit c = true) :
    regex_match_gff_version ("##gff-version ".toList ++ ds) = some ds := by
  have hall : ds.all isdigit = true := by
    rw [List.all_eq_true]
    exact hd
  simp [regex_match_gff_version, List.isPrefixOf, isspace, hne, hall]

/-- The header "##gff-version 3" on a parser without a version: the version is
set and nothing else changes but the line counter. -/
theorem operator_lshift_header (stod : Str → Option double) (p : gff_parser_t)
    (hv : p._gff_version = 0) :
    p.operator_lshift stod "##gff-version 3".toList =
      some { p with _linenum := p._linenum + 1, _gff_version := 3 } := by
  have hre : regex_match_gff_version "##gff-version 3".toList = some "3".toList := by decide
  have hst : stoi "3".toList = some 3 := by decide
  have hne : "##gff-version 3".toList ≠ [] := by decide
  have hc : "##gff-version 3".toList.head? = some '#' := by decide
  unfold gff_parser_t.operator_lshift
  simp only [hne, if_false, hv, if_true, hre, hst]
  simp [gff_parser_t.operator_lshift_line, hc]

theorem run_append (stod : Str → Option double) (a b : List event) :
    ∀ p, run stod p (a ++ b) = (run stod p a).bind (fun q => run stod q b) := by
  induction a with
  | nil => intro p; simp [run]
  | cons e rest ih =>
    intro p
    simp only [List.cons_append, run]
    cases step stod p e with
    | none => rfl
    | some q => exact ih q

/-- Blank lines only advance the line counter. -/
theorem run_blank_lines (stod : Str → Option double) (k : Nat) :
    ∀ p, run stod p (lines (List.replicate k [])) =
      some { p with _linenum := p._linenum + k } := by
  induction k with
  | zero => intro p; simp [run, lines]
  | succ k ih =>
    intro p
    simp only [lines, List.replicate_succ, List.map_cons, run, step]
    rw [operator_lshift_blank]
    simp only
    have := ih { p with _linenum := p._linenum + 1 }
    simp only [lines] at this
    rw [this]
    simp only [Option.some.injEq]
    congr 1
    omega

/-- The message parse_line leaves: its own when it sets one, the old value of
`error` otherwise. -/
theorem parse_line_error (stod : Str → Option double) (line error : Str) (linenum : Nat)
    (onlystrinval : Bool) :
    (parse_line stod line error linenum onlystrinval).2 =
      if (parse_line stod line [] linenum onlystrinval).2 = [] then error
      else (parse_line stod line [] linenum onlystrinval).2 := by
  unfold parse_line
  split
  · simp only
    split
    · rw [if_neg (line_error_ne_nil _ _)]
    · split
      · rw [if_neg (line_error_ne_nil _ _)]
      · split
        · rw [if_neg (line_error_ne_nil _ _)]
        · split
          · rw [if_neg (line_error_ne_nil _ _)]
          · split
            · rw [if_neg (line_error_ne_nil _ _)]
            · split
              · rw [if_neg (line_error_ne_nil _ _)]
              · simp
  · simp [line_error]

/-- Every message parse_line sets starts with "line#" and the line number. -/
theorem parse_line_error_form (stod : Str → Option double) (line : Str) (linenum : Nat)
    (onlystrinval : Bool) (h : (parse_line stod line [] linenum onlystrinval).2 ≠ []) :
    ∃ rest, (parse_line stod line [] linenum onlystrinval).2 =
      "line#".toList ++ to_string linenum ++ rest := by
  revert h
  unfold parse_line
  split
  · simp only
    split
    · intro _; exact ⟨_, rfl⟩
    · split
      · intro _; exact ⟨_, rfl⟩
      · split
        · intro _; exact ⟨_, rfl⟩
        · split
          · intro _; exact ⟨_, rfl⟩
          · split
            · intro _; exact ⟨_, rfl⟩
            · split
              · intro _; exact ⟨_, rfl⟩
              · intro h; exact absurd rfl h
  · intro _
    refine ⟨" wrong line format (fields count '".toList ++
      (to_string (utils.get_fields line '\t').length ++
        ("' instead of '".toList ++ (to_string 9 ++ "')".toList))), ?_⟩
    simp only [line_error, List.append_assoc]

/-- The record parse_line returns when it sets a message is the empty one. -/
theorem parse_line_error_empty (stod : Str → Option double) (line : Str) (linenum : Nat)
    (onlystrinval : Bool) (h : (parse_line stod line [] linenum onlystrinval).2 ≠ []) :
    (parse_line stod line [] linenum onlystrinval).1 = {} := by
  rcases parse_line_cases stod line [] linenum onlystrinval with ⟨msg, _, hm⟩ | ⟨d, hd, _⟩
  · rw [hm]
  · rw [hd] at h
    exact absurd rfl h

theorem errors_of_cons (stod : Str → Option double) (onlystr : Bool) (d : thr_data_t)
    (rest : List thr_data_t) :
    errors_of stod onlystr (d :: rest) =
      (if (parse_line stod d.data [] d.lnum onlystr).2 = [] then []
       else [(parse_line stod d.data [] d.lnum onlystr).2]) ++ errors_of stod onlystr rest := by
  simp only [errors_of, List.filterMap_cons]
  split_ifs <;> simp_all

/-- The message left after the failures `es` of later lines: the last of them. -/
theorem getLast_getD_cons (e : Str) (es : List Str) (error : Str) :
    ((e :: es).getLast?).getD error = (es.getLast?).getD e := by
  rw [List.getLast?_cons]
  rfl

/-- What operator<< does with a feature line in synchronous mode, once the
version is set: the record is appended when it is not empty, and the message is
replaced when parse_line sets one. -/
theorem operator_lshift_sync_feature (stod : Str → Option double) (p : gff_parser_t)
    (line : Str) (h2 : p._thrpool = none) (hv : p._gff_version ≠ 0) (hl : line ≠ [])
    (hc : ¬ line.head? = some '#') :
    p.operator_lshift stod line =
      some { p with
        _linenum := p._linenum + 1,
        _data := p._data ++
          records stod p._onlystrval [{ data := line, lnum := p._linenum + 1 }],
        _error := ((errors_of stod p._onlystrval
          [{ data := line, lnum := p._linenum + 1 }]).getLast?).getD p._error } := by
  rw [operator_lshift_versioned stod p line hv hl]
  obtain ⟨threads, thrpool, ver, ln, os, err, data, ix1, ix2, ix3⟩ := p
  simp only at h2
  subst h2
  simp only [gff_parser_t.operator_lshift_line, hc, if_false, Option.some.injEq]
  have hr := parse_line_record stod line err (ln + 1) os
  have he := parse_line_error stod line err (ln + 1) os
  rw [errors_of_cons, records_cons]
  by_cases hemp : (parse_line stod line [] (ln + 1) os).1.empty = true
  · rw [hr, hemp, he]
    by_cases herr : (parse_line stod line [] (ln + 1) os).2 = []
    · simp [herr, records, errors_of]
    · simp [herr, records, errors_of]
  · have hemp' : (parse_line stod line [] (ln + 1) os).1.empty = false := by simpa using hemp
    rw [hr, hemp', he]
    by_cases herr : (parse_line stod line [] (ln + 1) os).2 = []
    · simp [herr, records, errors_of]
    · simp [herr, records, errors_of]

theorem errors_of_append (stod : Str → Option double) (onlystr : Bool) (a b : List thr_data_t) :
    errors_of stod onlystr (a ++ b) = errors_of stod onlystr a ++ errors_of stod onlystr b := by
  simp [errors_of, List.filterMap_append]

/-- The last message of two runs of failures, `error` when there is none. -/
theorem getLast_getD_append (a b : List Str) (error : Str) :
    ((a ++ b).getLast?).getD error = (b.getLast?).getD ((a.getLast?).getD error) := by
  rw [List.getLast?_append]
  cases b.getLast? <;> cases a.getLast? <;> rfl

theorem feature_lines_cons_feature (n : Nat) (l : Str) (rest : List Str) (hl : l ≠ [])
    (hc : ¬ l.head? = some '#') :
    feature_lines n (l :: rest) = { data := l, lnum := n + 1 } :: feature_lines (n + 1) rest := by
  simp [feature_lines, hl, hc]

theorem feature_lines_cons_skip (n : Nat) (l : Str) (rest : List Str)
    (h : l = [] ∨ l.head? = some '#') :
    feature_lines n (l :: rest) = feature_lines (n + 1) rest := by
  simp [feature_lines, h]

/-- Synchronous ingestion once the version is set: the lines fed advance the
line counter, the records of the feature lines are appended to the store in
order, and the message is that of the last feature line that failed. -/
theorem run_sync_spec (stod : Str → Option double) :
    ∀ (ls : List Str) (p : gff_parser_t), p._thrpool = none → p._gff_version ≠ 0 →
      run stod p (lines ls) =
        some { p with
          _linenum := p._linenum + ls.length,
          _data := p._data ++ records stod p._onlystrval (feature_lines p._linenum ls),
          _error := ((errors_of stod p._onlystrval
            (feature_lines p._linenum ls)).getLast?).getD p._error } := by
  intro ls
  induction ls with
  | nil =>
    intro p _ _
    obtain ⟨threads, thrpool, ver, ln, os, err, data, ix1, ix2, ix3⟩ := p
    simp [run, lines, feature_lines, records, errors_of]
  | cons l rest ih =>
    intro p h2 hv
    simp only [lines, List.map_cons, run, step]
    by_cases hskip : l = [] ∨ l.head? = some '#'
    · have hstep : p.operator_lshift stod l = some { p with _linenum := p._linenum + 1 } := by
        rcases hskip with hl | hc
        · rw [hl]; exact operator_lshift_blank stod p
        · exact operator_lshift_comment stod p l hv hc
      rw [hstep]
      simp only
      have := ih { p with _linenum := p._linenum + 1 } h2 hv
      simp only [lines] at this
      rw [this, feature_lines_cons_skip _ _ _ hskip]
      simp only [List.length_cons, Option.some.injEq]
      congr 1
      omega
    · have hl : l ≠ [] := fun h => hskip (Or.inl h)
      have hc : ¬ l.head? = some '#' := fun h => hskip (Or.inr h)
      rw [operator_lshift_sync_feature stod p l h2 hv hl hc]
      simp only
      have := ih { p with
        _linenum := p._linenum + 1,
        _data := p._data ++
          records stod p._onlystrval [{ data := l, lnum := p._linenum + 1 }],
        _error := ((errors_of stod p._onlystrval
          [{ data := l, lnum := p._linenum + 1 }]).getLast?).getD p._error } h2 hv
      simp only [lines] at this
      rw [this, feature_lines_cons_feature _ _ _ hl hc]
      have e1 : records stod p._onlystrval
          ({ data := l, lnum := p._linenum + 1 } :: feature_lines (p._linenum + 1) rest) =
          records stod p._onlystrval [{ data := l, lnum := p._linenum + 1 }] ++
            records stod p._onlystrval (feature_lines (p._linenum + 1) rest) :=
        records_append stod p._onlystrval [_] _
      have e2 : errors_of stod p._onlystrval
          ({ data := l, lnum := p._linenum + 1 } :: feature_lines (p._linenum + 1) rest) =
          errors_of stod p._onlystrval [{ data := l, lnum := p._linenum + 1 }] ++
            errors_of stod p._onlystrval (feature_lines (p._linenum + 1) rest) :=
        errors_of_append stod p._onlystrval [_] _
      rw [e1, e2, getLast_getD_append]
      simp only [List.length_cons, Option.some.injEq, List.append_assoc]
      congr 1
      omega

/-- The first line after blank lines meets the parser with only its line
counter advanced. -/
theorem run_after_blanks (stod : Str → Option double) (p : gff_parser_t) (k : Nat) (l : Str) :
    run stod p (lines (List.replicate k [] ++ [l])) =
      gff_parser_t.operator_lshift stod { p with _linenum := p._linenum + k } l := by
  have h := run_append stod (lines (List.replicate k [])) (lines [l]) p
  simp only [lines, ← List.map_append] at h
  simp only [lines]
  rw [h]
  have hb := run_blank_lines stod k p
  simp only [lines] at hb
  rw [hb]
  simp only [Option.some_bind, List.map_cons, List.map_nil, run, step]
  cases gff_parser_t.operator_lshift stod { p with _linenum := p._linenum + k } l <;> rfl

/-- A line that is not a version header, on a parser without a version. -/
theorem operator_lshift_no_tag (stod : Str → Option double) (p : gff_parser_t) (line : Str)
    (hv : p._gff_version = 0) (hl : line ≠ []) (hre : regex_match_gff_version line = none) :
    p.operator_lshift stod line =
      some { p with _linenum := p._linenum + 1,
                    _error := "gff-version tag doesn't found".toList } := by
  unfold gff_parser_t.operator_lshift
  simp only [hl, if_false, hv, if_true, hre]

/-- A version header whose number is not 3, on a parser without a version. -/
theorem operator_lshift_other_version (stod : Str → Option double) (p : gff_parser_t)
    (line ds : Str) (v : Int) (hv : p._gff_version = 0) (hl : line ≠ [])
    (hre : regex_match_gff_version line = some ds) (hst : stoi ds = some v) (h3 : v ≠ 3) :
    p.operator_lshift stod line =
      some { p with _linenum := p._linenum + 1, _gff_version := v,
                    _error := "incompatible gff-version ('".toList ++ ds ++
                      "' instead of '3')".toList } := by
  unfold gff_parser_t.operator_lshift
  simp only [hl, if_false, hv, if_true, hre, hst, h3, ne_eq, not_false_eq_true]

/-- A version header whose number does not fit an int, on a parser without a
version: std::stoi throws. -/
theorem operator_lshift_version_overflow (stod : Str → Option double) (p : gff_parser_t)
    (line ds : Str) (hv : p._gff_version = 0) (hl : line ≠ [])
    (hre : regex_match_gff_version line = some ds) (hst : stoi ds = none) :
    p.operator_lshift stod line = none := by
  unfold gff_parser_t.operator_lshift
  simp only [hl, if_false, hv, if_true, hre, hst]

/-- C21 on the code: on a fresh parser (any thread count), after any number of
blank lines, (1) the header "##gff-version 99999999999" makes std::stoi throw
std::out_of_range out of operator<<, and so does every version number that does
not fit an int: no error message is set; (2) the header "##gff-version 3" sets
the version and leaves no error and no record (nothing is stored or pushed);
(3) a header "##gff-version d" whose number d fits an int and is not 3 sets the
error "incompatible gff-version ('d' instead of '3')"; (4) a line the version
regex does not match sets the error "gff-version tag doesn't found". -/
theorem operator_lshift_first_line (stod : Str → Option double) (threads : Int)
    (onlystr : Bool) (k : Nat) :
    run stod (gff_parser_t.init threads onlystr)
        (lines (List.replicate k [] ++ ["##gff-version 99999999999".toList])) = none ∧
    (∀ ds : Str, ds ≠ [] → (∀ c ∈ ds, isdigit c = true) → stoi ds = none →
      run stod (gff_parser_t.init threads onlystr)
        (lines (List.replicate k [] ++ ["##gff-version ".toList ++ ds])) = none) ∧
    run stod (gff_parser_t.init threads onlystr)
        (lines (List.replicate k [] ++ ["##gff-version 3".toList])) =
      some { gff_parser_t.init threads onlystr with _linenum := k + 1, _gff_version := 3 } ∧
    ({ gff_parser_t.init threads onlystr with
        _linenum := k + 1, _gff_version := 3 } : gff_parser_t).has_error = false ∧
    ({ gff_parser_t.init threads onlystr with
        _linenum := k + 1, _gff_version := 3 } : gff_parser_t).size = 0 ∧
    (∀ (ds : Str) (v : Int), ds ≠ [] → (∀ c ∈ ds, isdigit c = true) → stoi ds = some v →
      v ≠ 3 →
      ∃ s, run stod (gff_parser_t.init threads onlystr)
          (lines (List.replicate k [] ++ ["##gff-version ".toList ++ ds])) = some s ∧
        s.error = "incompatible gff-version ('".toList ++ ds ++ "' instead of '3')".toList ∧
        s.size = 0) ∧
    (∀ line : Str, line ≠ [] → regex_match_gff_version line = none →
      ∃ s, run stod (gff_parser_t.init threads onlystr)
          (lines (List.replicate k [] ++ [line])) = some s ∧
        s.error = "gff-version tag doesn't found".toList ∧ s.size = 0) := by
  have hover : ∀ ds : Str, ds ≠ [] → (∀ c ∈ ds, isdigit c = true) → stoi ds = none →
      run stod (gff_parser_t.init threads onlystr)
        (lines (List.replicate k [] ++ ["##gff-version ".toList ++ ds])) = none := by
    intro ds hne hd hst
    rw [run_after_blanks]
    exact operator_lshift_version_overflow stod _ _ ds rfl (by simp)
      (regex_match_gff_version_digits ds hne hd) hst
  refine ⟨?_, hover, ?_, ?_, ?_, ?_, ?_⟩
  · exact hover "99999999999".toList (by decide) (by decide) (by decide)
  · rw [run_after_blanks, operator_lshift_header stod _ rfl]
    simp [gff_parser_t.init]
  · simp [gff_parser_t.has_error, gff_parser_t.init]
  · simp [gff_parser_t.size, gff_parser_t.init]
  · intro ds v hne hd hst h3
    rw [run_after_blanks, operator_lshift_other_version stod _ _ ds v rfl (by simp)
      (regex_match_gff_version_digits ds hne hd) hst h3]
    exact ⟨_, rfl, rfl, rfl⟩
  · intro line hl hre
    rw [run_after_blanks, operator_lshift_no_tag stod _ line rfl hl hre]
    exact ⟨_, rfl, rfl, rfl⟩

/-- The store of a synchronous parser is not changed by flush. -/
theorem flush_sync_data (stod : Str → Option double) (p : gff_parser_t)
    (h2 : p._thrpool = none) : (p.flush stod)._data = p._data := by
  unfold gff_parser_t.flush
  rw [h2]
  simp only
  split_ifs
  · rfl
  · rw [(flush_index_loop_frame _ _ _).1]

/-- C22 fails as stated: with the comment line "# annotations" before the
header, synchronous ingestion of the comment, the header and the feature line of
the example ends with has_error() true and the message "gff-version tag doesn't
found" (the feature line is parsed and stored all the same). -/
theorem comment_before_header_error :
    (run stod_unreached (gff_parser_t.init 0 false)
      (lines ["# annotations".toList, "##gff-version 3".toList, example_lines.getD 1 []])).map
        (fun s => (s.has_error, s.error, s.size)) =
      some (true, "gff-version tag doesn't found".toList, 1) := by
  decide

/-- C22, amended: the version header is required as the first non-empty line.
For every input in which only blank lines (k of them) precede the line
"##gff-version 3", ingesting the blank lines and the header sets no error and
stores nothing, whatever the thread count; the lines `ls` after the header are
then parsed as usual: in synchronous mode the store holds the records of the
feature lines of `ls` in order, numbered from k + 2, and the only error can be
the message of a feature line that fails; in pooled mode the store after flush
holds the same records. A comment line met before the header is not skipped: it
sets the error "gff-version tag doesn't found". -/
theorem header_after_blank_lines (stod : Str → Option double) (threads : Int)
    (onlystr : Bool) (k : Nat) (ls : List Str) :
    run stod (gff_parser_t.init threads onlystr)
        (lines (List.replicate k [] ++ ["##gff-version 3".toList])) =
      some { gff_parser_t.init threads onlystr with _linenum := k + 1, _gff_version := 3 } ∧
    run stod (gff_parser_t.init 0 onlystr)
        (lines ((List.replicate k [] ++ ["##gff-version 3".toList]) ++ ls)) =
      some { gff_parser_t.init 0 onlystr with
        _gff_version := 3,
        _linenum := k + 1 + ls.length,
        _data := records stod onlystr (feature_lines (k + 1) ls),
        _error := ((errors_of stod onlystr (feature_lines (k + 1) ls)).getLast?).getD [] } ∧
    (threads ≥ 1 →
      (run stod (gff_parser_t.init threads onlystr)
        (lines ((List.replicate k [] ++ ["##gff-version 3".toList]) ++ ls))).map
          (fun s => (s.flush stod)._data) =
        some (records stod onlystr (feature_lines (k + 1) ls))) ∧
    (∀ c : Str, c.head? = some '#' → regex_match_gff_version c = none →
      run stod (gff_parser_t.init threads onlystr) (lines (List.replicate k [] ++ [c])) =
        some { gff_parser_t.init threads onlystr with
          _linenum := k + 1, _error := "gff-version tag doesn't found".toList }) := by
  have hhead : ∀ th : Int, run stod (gff_parser_t.init th onlystr)
        (lines (List.replicate k [] ++ ["##gff-version 3".toList])) =
      some { gff_parser_t.init th onlystr with _linenum := k + 1, _gff_version := 3 } := by
    intro th
    rw [run_after_blanks, operator_lshift_header stod _ rfl]
    simp [gff_parser_t.init]
  have hsync : run stod (gff_parser_t.init 0 onlystr)
        (lines ((List.replicate k [] ++ ["##gff-version 3".toList]) ++ ls)) =
      some { gff_parser_t.init 0 onlystr with
        _gff_version := 3,
        _linenum := k + 1 + ls.length,
        _data := records stod onlystr (feature_lines (k + 1) ls),
        _error := ((errors_of stod onlystr (feature_lines (k + 1) ls)).getLast?).getD [] } := by
    have h := run_append stod (lines (List.replicate k [] ++ ["##gff-version 3".toList]))
      (lines ls) (gff_parser_t.init 0 onlystr)
    simp only [lines, ← List.map_append] at h
    simp only [lines]
    rw [h]
    have hh := hhead 0
    simp only [lines] at hh
    rw [hh]
    simp only [Option.some_bind]
    have hs := run_sync_spec stod ls
      { gff_parser_t.init 0 onlystr with _linenum := k + 1, _gff_version := 3 } rfl (by simp)
    simp only [lines] at hs
    rw [hs]
    simp [gff_parser_t.init]
  refine ⟨hhead threads, hsync, ?_, ?_⟩
  · intro hN
    have hsim := run_sim stod (lines ((List.replicate k [] ++ ["##gff-version 3".toList]) ++ ls))
      _ _ [] (init_sim stod threads hN onlystr) (by simp)
    have hlo : ∀ l : List Str, lines_of (lines l) = l := by
      intro l
      induction l with
      | nil => rfl
      | cons a r ih => simp only [lines, List.map_cons, lines_of] at ih ⊢; rw [ih]
    rw [hlo] at hsim
    rw [hsim, hsync]
    simp only [Option.map_some', Option.some.injEq]
    rw [flush_sync_data stod _ rfl]
  · intro c hc hre
    have hl : c ≠ [] := by
      intro h
      rw [h] at hc
      cases hc
    rw [run_after_blanks, operator_lshift_no_tag stod _ c rfl hl hre]
    simp [gff_parser_t.init]

/-- A record parse_line returns that is not empty carries the line number it
was given. -/
theorem parse_line_linenum (stod : Str → Option double) (line error : Str) (linenum : Nat)
    (onlystrinval : Bool)
    (h : (parse_line stod line error linenum onlystrinval).1.empty = false) :
    (parse_line stod line error linenum onlystrinval).1.linenum = linenum := by
  rcases parse_line_cases stod line error linenum onlystrinval with ⟨msg, _, hm⟩ | ⟨d, hd, _, hn⟩
  · rw [hm] at h
    simp [gff_data_t.empty, gff_postition_t.empty] at h
  · rw [hd]
    exact hn

/-- What operator<< leaves, from the comment test on: the counters and the flag
as they were; without a pool, the store as it was or with the record of the
line appended; with a pool, the store as it was. -/
theorem operator_lshift_line_frame (stod : Str → Option double) (p : gff_parser_t)
    (line : Str) :
    (p.operator_lshift_line stod line)._linenum = p._linenum ∧
    (p.operator_lshift_line stod line)._onlystrval = p._onlystrval ∧
    (p.operator_lshift_line stod line)._gff_version = p._gff_version ∧
    (p._thrpool = none →
      (p.operator_lshift_line stod line)._thrpool = none ∧
      ((p.operator_lshift_line stod line)._data = p._data ∨
        ((parse_line stod line [] p._linenum p._onlystrval).1.empty = false ∧
          (p.operator_lshift_line stod line)._data =
            p._data ++ [(parse_line stod line [] p._linenum p._onlystrval).1]))) ∧
    (∀ tp, p._thrpool = some tp →
      (p.operator_lshift_line stod line)._thrpool.isSome = true ∧
      (p.operator_lshift_line stod line)._data = p._data) := by
  obtain ⟨threads, thrpool, ver, ln, os, err, data, ix1, ix2, ix3⟩ := p
  by_cases hc : line.head? = some '#'
  · simp only [gff_parser_t.operator_lshift_line, hc, if_true]
    exact ⟨trivial, trivial, trivial, fun h => ⟨h, Or.inl trivial⟩,
      fun tp h => ⟨by simp [h], trivial⟩⟩
  · cases thrpool with
    | some tp =>
      simp [gff_parser_t.operator_lshift_line, hc]
    | none =>
      have hr := parse_line_record stod line err ln os
      by_cases he : (parse_line stod line [] ln os).1.empty = true
      · simp [gff_parser_t.operator_lshift_line, hc, hr, he]
      · have he' : (parse_line stod line [] ln os).1.empty = false := by simpa using he
        simp [gff_parser_t.operator_lshift_line, hc, hr, he']

/-- The two ways out of operator<<: std::stoi throws on the digits of a version
header met while no version is set; or the call returns, the line counter is
advanced by one, and the store is as operator_lshift_line_frame says. -/
theorem operator_lshift_cases (stod : Str → Option double) (p : gff_parser_t) (line : Str) :
    (p.operator_lshift stod line = none ∧ p._gff_version = 0 ∧
      ∃ ds, regex_match_gff_version line = some ds ∧ stoi ds = none) ∨
    ∃ q, p.operator_lshift stod line = some q ∧
      q._linenum = p._linenum + 1 ∧ q._onlystrval = p._onlystrval ∧
      (p._thrpool = none →
        q._thrpool = none ∧
        (q._data = p._data ∨
          ((parse_line stod line [] (p._linenum + 1) p._onlystrval).1.empty = false ∧
            q._data = p._data ++ [(parse_line stod line [] (p._linenum + 1) p._onlystrval).1]))) ∧
      (∀ tp, p._thrpool = some tp → q._thrpool.isSome = true ∧ q._data = p._data) := by
  have hline : ∀ (v : Int),
      ∃ q, some (gff_parser_t.operator_lshift_line stod
          { p with _linenum := p._linenum + 1, _gff_version := v } line) = some q ∧
        q._linenum = p._linenum + 1 ∧ q._onlystrval = p._onlystrval ∧
        (p._thrpool = none →
          q._thrpool = none ∧
          (q._data = p._data ∨
            ((parse_line stod line [] (p._linenum + 1) p._onlystrval).1.empty = false ∧
              q._data =
                p._data ++ [(parse_line stod line [] (p._linenum + 1) p._onlystrval).1]))) ∧
        (∀ tp, p._thrpool = some tp → q._thrpool.isSome = true ∧ q._data = p._data) := by
    intro v
    obtain ⟨f1, f2, _, f4, f5⟩ := operator_lshift_line_frame stod
      { p with _linenum := p._linenum + 1, _gff_version := v } line
    exact ⟨_, rfl, f1, f2, f4, f5⟩
  have hsame : ∀ (v : Int) (e : Str),
      ∃ q, some ({ p with _linenum := p._linenum + 1, _gff_version := v, _error := e } :
          gff_parser_t) = some q ∧
        q._linenum = p._linenum + 1 ∧ q._onlystrval = p._onlystrval ∧
        (p._thrpool = none →
          q._thrpool = none ∧
          (q._data = p._data ∨
            ((parse_line stod line [] (p._linenum + 1) p._onlystrval).1.empty = false ∧
              q._data =
                p._data ++ [(parse_line stod line [] (p._linenum + 1) p._onlystrval).1]))) ∧
        (∀ tp, p._thrpool = some tp → q._thrpool.isSome = true ∧ q._data = p._data) := by
    intro v e
    exact ⟨_, rfl, rfl, rfl, fun h => ⟨h, Or.inl rfl⟩, fun tp h => ⟨by simp [h], rfl⟩⟩
  unfold gff_parser_t.operator_lshift
  simp only
  by_cases hl : line = []
  · right
    simp only [hl, if_true]
    exact ⟨_, rfl, rfl, rfl, fun h => ⟨h, Or.inl rfl⟩, fun tp h => ⟨by simp [h], rfl⟩⟩
  · simp only [hl, if_false]
    by_cases hz : p._gff_version = 0
    · simp only [hz, if_true]
      cases hre : regex_match_gff_version line with
      | none =>
        right
        simp only
        exact hsame 0 "gff-version tag doesn't found".toList
      | some ds =>
        simp only
        cases hst : stoi ds with
        | none => left; exact ⟨rfl, trivial, ds, rfl, hst⟩
        | some v =>
          right
          simp only
          by_cases hv : v = 3
          · simp only [hv, ne_eq, not_true_eq_false, if_false]
            exact hline 3
          · simp only [ne_eq, hv, not_false_eq_true, if_true]
            exact hsame v _
    · right
      simp only [hz, if_false]
      have := hline p._gff_version
      exact this

/-- A step of a worker leaves the counters, the flag and the store. -/
theorem worker_step_frame (stod : Str → Option double) (p : gff_parser_t) (i : Nat) :
    ∃ q, step stod p (.worker i) = some q ∧ q._linenum = p._linenum ∧
      q._onlystrval = p._onlystrval ∧ q._data = p._data ∧
      (p._thrpool = none → q = p) ∧ q._thrpool.isSome = p._thrpool.isSome := by
  simp only [step]
  cases hp : p._thrpool with
  | none => exact ⟨p, rfl, rfl, rfl, rfl, fun _ => rfl, by rw [hp]⟩
  | some tp => exact ⟨_, rfl, rfl, rfl, rfl, (fun h => by cases h), rfl⟩

/-- Along a run in which std::stoi does not throw, every call of operator<<
advances the line counter by one; without a pool, every record of the store was
there before or is the record parse_line returns for one of the lines fed, with
the number of that line. -/
theorem run_linenum (stod : Str → Option double) (evs : List event) :
    ∀ p : gff_parser_t,
      (∀ l ∈ lines_of evs, ∀ ds, regex_match_gff_version l = some ds → stoi ds ≠ none) →
      ∃ s, run stod p evs = some s ∧
        s._linenum = p._linenum + (lines_of evs).length ∧
        s._onlystrval = p._onlystrval ∧
        (p._thrpool = none →
          s._thrpool = none ∧
          ∀ r ∈ s._data, r ∈ p._data ∨
            ∃ i, i < (lines_of evs).length ∧ r.linenum = p._linenum + i + 1 ∧
              r = (parse_line stod ((lines_of evs).getD i []) [] (p._linenum + i + 1)
                p._onlystrval).1) := by
  induction evs with
  | nil =>
    intro p _
    exact ⟨p, rfl, rfl, rfl, fun h => ⟨h, fun r hr => Or.inl hr⟩⟩
  | cons e rest ih =>
    intro p hno
    cases e with
    | worker i =>
      obtain ⟨q, hq, q1, q2, q3, q4, _⟩ := worker_step_frame stod p i
      have hno' : ∀ l ∈ lines_of rest, ∀ ds, regex_match_gff_version l = some ds →
          stoi ds ≠ none := by
        intro l hl
        exact hno l (by simpa [lines_of] using hl)
      obtain ⟨s, hs, s1, s2, s3⟩ := ih q hno'
      refine ⟨s, ?_, ?_, ?_, ?_⟩
      · simp only [run]
        rw [hq]
        exact hs
      · rw [s1, q1]
        rfl
      · rw [s2, q2]
      · intro hp
        have hqp := q4 hp
        subst hqp
        exact s3 hp
    | line l =>
      have hno' : ∀ l' ∈ lines_of rest, ∀ ds, regex_match_gff_version l' = some ds →
          stoi ds ≠ none := by
        intro l' hl'
        exact hno l' (by simp [lines_of, hl'])
      rcases operator_lshift_cases stod p l with ⟨_, _, ds, hre, hst⟩ | ⟨q, hq, q1, q2, q3, _⟩
      · exact absurd hst (hno l (by simp [lines_of]) ds hre)
      · obtain ⟨s, hs, s1, s2, s3⟩ := ih q hno'
        refine ⟨s, ?_, ?_, ?_, ?_⟩
        · simp only [run, step]
          rw [hq]
          exact hs
        · rw [s1, q1]
          simp only [lines_of, List.length_cons]
          omega
        · rw [s2, q2]
        · intro hp
          obtain ⟨qp, qd⟩ := q3 hp
          obtain ⟨sp, sd⟩ := s3 qp
          refine ⟨sp, ?_⟩
          intro r hr
          rcases sd r hr with hin | ⟨i, hi, hn, hrec⟩
          · rcases qd with hsame | ⟨hne, happ⟩
            · rw [hsame] at hin
              exact Or.inl hin
            · rw [happ] at hin
              rcases List.mem_append.mp hin with h1 | h1
              · exact Or.inl h1
              · right
                simp only [List.mem_singleton] at h1
                refine ⟨0, by simp [lines_of], ?_, ?_⟩
                · rw [h1]
                  exact parse_line_linenum stod l [] (p._linenum + 1) p._onlystrval hne
                · rw [h1]
                  simp [lines_of]
          · right
            refine ⟨i + 1, by simp only [lines_of, List.length_cons]; omega, ?_, ?_⟩
            · rw [hn, q1]
              omega
            · rw [hrec, q1, q2]
              simp only [lines_of, List.getD_cons_succ]
              have : p._linenum + 1 + i + 1 = p._linenum + (i + 1) + 1 := by omega
              rw [this]

/-- C23: along every run from a fresh parser (any thread count, the steps of the
workers interleaved in any order) in which no line fed is a version header
whose number does not fit an int (so that no call of operator<< is left by the
exception of std::stoi), after the calls of the run linenum() is their number:
every call advances the line counter by one, whatever the line (blank, comment,
header or feature line). Once the header is accepted, a blank line or a
comment line changes nothing but the line counter: no record, no error. In
synchronous mode every stored record is the record parse_line returns for one
of the lines fed, and its linenum is the 1-based index of that line among all
lines fed. -/
theorem ingest_linenum (stod : Str → Option double) (threads : Int) (onlystr : Bool)
    (evs : List event)
    (hno : ∀ l ∈ lines_of evs, ∀ ds, regex_match_gff_version l = some ds → stoi ds ≠ none) :
    (∃ s, run stod (gff_parser_t.init threads onlystr) evs = some s ∧
      s.linenum = (lines_of evs).length ∧
      (threads ≤ 0 → ∀ r ∈ s._data, ∃ i, i < (lines_of evs).length ∧ r.linenum = i + 1 ∧
        r = (parse_line stod ((lines_of evs).getD i []) [] (i + 1) onlystr).1)) ∧
    (∀ (p q : gff_parser_t) (line : Str), p.operator_lshift stod line = some q →
      q.linenum = p.linenum + 1) ∧
    (∀ (p : gff_parser_t) (line : Str), p._gff_version = 3 →
      line = [] ∨ line.head? = some '#' →
      p.operator_lshift stod line = some { p with _linenum := p._linenum + 1 }) := by
  refine ⟨?_, ?_, ?_⟩
  · obtain ⟨s, hs, s1, _, s3⟩ := run_linenum stod evs (gff_parser_t.init threads onlystr) hno
    refine ⟨s, hs, ?_, ?_⟩
    · rw [gff_parser_t.linenum, s1]
      simp [gff_parser_t.init]
    · intro ht
      have hp : (gff_parser_t.init threads onlystr)._thrpool = none := by
        have : ¬ threads > 0 := by omega
        simp [gff_parser_t.init, this]
      intro r hr
      rcases (s3 hp).2 r hr with hin | ⟨i, hi, hn, hrec⟩
      · simp [gff_parser_t.init] at hin
      · refine ⟨i, hi, ?_, ?_⟩
        · rw [hn]
          simp [gff_parser_t.init]
        · rw [hrec]
          simp [gff_parser_t.init]
  · intro p q line h
    rcases operator_lshift_cases stod p line with ⟨hn, _⟩ | ⟨q', hq, q1, _⟩
    · rw [hn] at h
      cases h
    · rw [hq] at h
      cases h
      exact q1
  · intro p line hv hskip
    have hv' : p._gff_version ≠ 0 := by
      rw [hv]
      decide
    rcases hskip with hl | hc
    · rw [hl]
      exact operator_lshift_blank stod p
    · exact operator_lshift_comment stod p line hv' hc

/-- Witness of C23: the two lines of the example, ingested synchronously. -/
theorem ingest_linenum_witness :
    (∃ s, run stod_unreached (gff_parser_t.init 0 false) (lines example_lines) = some s ∧
      s.linenum = (lines_of (lines example_lines)).length ∧
      ((0 : Int) ≤ 0 → ∀ r ∈ s._data, ∃ i, i < (lines_of (lines example_lines)).length ∧
        r.linenum = i + 1 ∧
        r = (parse_line stod_unreached ((lines_of (lines example_lines)).getD i []) []
          (i + 1) false).1)) ∧
    (∀ (p q : gff_parser_t) (line : Str), p.operator_lshift stod_unreached line = some q →
      q.linenum = p.linenum + 1) ∧
    (∀ (p : gff_parser_t) (line : Str), p._gff_version = 3 →
      line = [] ∨ line.head? = some '#' →
      p.operator_lshift stod_unreached line = some { p with _linenum := p._linenum + 1 }) :=
  ingest_linenum stod_unreached 0 false (lines example_lines) (by
    intro l hl ds hre
    have h1 : regex_match_gff_version "##gff-version 3".toList = some "3".toList := by decide
    have h2 : regex_match_gff_version
        "chr1\tHAVANA\tgene\t100\t200\t.\t+\t.\tgene_id=G1;gene_name=FOO".toList = none := by
      decide
    simp only [lines, example_lines, List.map_cons, List.map_nil, lines_of, List.mem_cons,
      List.mem_singleton, List.not_mem_nil, or_false] at hl
    rcases hl with rfl | rfl
    · rw [h1] at hre
      cases hre
      decide
    · rw [h2] at hre
      cases hre)

/-- A line for which parse_line returns a record that is not empty sets no
message. -/
theorem parse_line_record_no_error (stod : Str → Option double) (line : Str) (linenum : Nat)
    (onlystrinval : Bool)
    (h : (parse_line stod line [] linenum onlystrinval).1.empty = false) :
    (parse_line stod line [] linenum onlystrinval).2 = [] := by
  rcases parse_line_cases stod line [] linenum onlystrinval with ⟨msg, _, hm⟩ | ⟨d, hd, _, _⟩
  · rw [hm] at h
    simp [gff_data_t.empty, gff_postition_t.empty] at h
  · rw [hd]

/-- C24 fails as stated: after the header, the nine-field line
"<TAB>a<TAB>b<TAB>1<TAB>2<TAB>.<TAB>.<TAB>.<TAB>x=y", whose first column is
empty, is a feature line for which parse_line returns the empty record and sets
no error. Ingested synchronously as line 2 it leaves has_error() false, the
error empty and size() 0: taken as a line that parse_line rejects, no error
surfaces; taken as a line that parses, no record is added. -/
theorem sync_empty_seqid_neither :
    (parse_line stod_unreached "\ta\tb\t1\t2\t.\t.\t.\tx=y".toList [] 2 false).1.empty = true ∧
    (parse_line stod_unreached "\ta\tb\t1\t2\t.\t.\t.\tx=y".toList [] 2 false).2 = [] ∧
    (example_header_state.operator_lshift stod_unreached
      "\ta\tb\t1\t2\t.\t.\t.\tx=y".toList).map
        (fun q => (q.has_error, q.error, q.size, q.linenum)) = some (false, [], 0, 2) := by
  decide

/-- C24, amended: in synchronous mode, once the header is accepted, a feature
line (not blank, not a comment) is of exactly one of three kinds. (1) parse_line
sets an error: the error surfaces at once, right after the call has_error() is
true, error() is the message of parse_line for that line, which starts with
"line#" and the number of the line, and the store and size() are unchanged.
(2) parse_line returns a record that is not empty: exactly that record is
appended (size() grows by one) and the error is left as it was. (3) parse_line
sets no error and returns an empty record, which happens only when the first
column of the line is empty: the call changes nothing but the line counter, no
error and no record. -/
theorem sync_error_immediate (stod : Str → Option double) (p : gff_parser_t) (line : Str)
    (h2 : p._thrpool = none) (hv : p._gff_version = 3) (hl : line ≠ [])
    (hc : ¬ line.head? = some '#') :
    ((parse_line stod line [] (p._linenum + 1) p._onlystrval).2 ≠ [] →
      ∃ q, p.operator_lshift stod line = some q ∧ q.has_error = true ∧
        q.error = (parse_line stod line [] (p._linenum + 1) p._onlystrval).2 ∧
        (∃ rest, q.error = "line#".toList ++ to_string (p.linenum + 1) ++ rest) ∧
        q.linenum = p.linenum + 1 ∧ q.size = p.size ∧ q._data = p._data) ∧
    ((parse_line stod line [] (p._linenum + 1) p._onlystrval).1.empty = false →
      ∃ q, p.operator_lshift stod line = some q ∧ q.size = p.size + 1 ∧
        q._data = p._data ++ [(parse_line stod line [] (p._linenum + 1) p._onlystrval).1] ∧
        q.linenum = p.linenum + 1 ∧ q.error = p.error) ∧
    ((parse_line stod line [] (p._linenum + 1) p._onlystrval).2 = [] →
      (parse_line stod line [] (p._linenum + 1) p._onlystrval).1.empty = true →
      p.operator_lshift stod line = some { p with _linenum := p._linenum + 1 } ∧
      line.takeWhile (fun c => c ≠ '\t') = []) ∧
    (((parse_line stod line [] (p._linenum + 1) p._onlystrval).2 ≠ [] ∧
        (parse_line stod line [] (p._linenum + 1) p._onlystrval).1.empty = true) ∨
      ((parse_line stod line [] (p._linenum + 1) p._onlystrval).2 = [] ∧
        (parse_line stod line [] (p._linenum + 1) p._onlystrval).1.empty = false) ∨
      ((parse_line stod line [] (p._linenum + 1) p._onlystrval).2 = [] ∧
        (parse_line stod line [] (p._linenum + 1) p._onlystrval).1.empty = true ∧
        line.takeWhile (fun c => c ≠ '\t') = [])) := by
  have hv' : p._gff_version ≠ 0 := by
    rw [hv]
    decide
  have hstep := operator_lshift_sync_feature stod p line h2 hv' hl hc
  have hfirst : (parse_line stod line [] (p._linenum + 1) p._onlystrval).2 = [] →
      (parse_line stod line [] (p._linenum + 1) p._onlystrval).1.empty = true →
      line.takeWhile (fun c => c ≠ '\t') = [] := by
    intro herr hemp
    have hhead := get_fields_head line '\t'
    rcases parse_line_cases stod line [] (p._linenum + 1) p._onlystrval with
      ⟨msg, hmsg, hm⟩ | ⟨d, hd, hseq, _⟩
    · rw [hm] at herr
      exact absurd herr hmsg
    · rw [hd] at hemp
      rw [hseq] at hhead
      simp only [Option.some.injEq] at hhead
      rw [← hhead]
      simpa [gff_data_t.empty, gff_postition_t.empty] using hemp
  refine ⟨?_, ?_, ?_, ?_⟩
  · intro herr
    have hrec := parse_line_error_empty stod line (p._linenum + 1) p._onlystrval herr
    have hemp : (parse_line stod line [] (p._linenum + 1) p._onlystrval).1.empty = true := by
      rw [hrec]
      rfl
    have e1 : records stod p._onlystrval [{ data := line, lnum := p._linenum + 1 }] = [] := by
      simp [records, parse_ok, hemp]
    have e2 : errors_of stod p._onlystrval [{ data := line, lnum := p._linenum + 1 }] =
        [(parse_line stod line [] (p._linenum + 1) p._onlystrval).2] := by
      simp [errors_of, herr]
    rw [e1, e2] at hstep
    refine ⟨_, hstep, ?_, ?_, ?_, rfl, ?_, ?_⟩
    · simpa [gff_parser_t.has_error] using herr
    · simp [gff_parser_t.error]
    · obtain ⟨rest, hrest⟩ := parse_line_error_form stod line (p._linenum + 1) p._onlystrval herr
      exact ⟨rest, by simpa [gff_parser_t.error, gff_parser_t.linenum] using hrest⟩
    · simp [gff_parser_t.size]
    · simp
  · intro hne
    have herr := parse_line_record_no_error stod line (p._linenum + 1) p._onlystrval hne
    have e1 : records stod p._onlystrval [{ data := line, lnum := p._linenum + 1 }] =
        [(parse_line stod line [] (p._linenum + 1) p._onlystrval).1] := by
      simp [records, parse_ok, hne]
    have e2 : errors_of stod p._onlystrval [{ data := line, lnum := p._linenum + 1 }] = [] := by
      simp [errors_of, herr]
    rw [e1, e2] at hstep
    refine ⟨_, hstep, ?_, rfl, rfl, ?_⟩
    · simp [gff_parser_t.size]
    · simp [gff_parser_t.error]
  · intro herr hemp
    have e1 : records stod p._onlystrval [{ data := line, lnum := p._linenum + 1 }] = [] := by
      simp [records, parse_ok, hemp]
    have e2 : errors_of stod p._onlystrval [{ data := line, lnum := p._linenum + 1 }] = [] := by
      simp [errors_of, herr]
    rw [e1, e2] at hstep
    refine ⟨?_, hfirst herr hemp⟩
    rw [hstep]
    simp
  · by_cases herr : (parse_line stod line [] (p._linenum + 1) p._onlystrval).2 = []
    · by_cases hemp : (parse_line stod line [] (p._linenum + 1) p._onlystrval).1.empty = true
      · exact Or.inr (Or.inr ⟨herr, hemp, hfirst herr hemp⟩)
      · exact Or.inr (Or.inl ⟨herr, by simpa using hemp⟩)
    · have hrec := parse_line_error_empty stod line (p._linenum + 1) p._onlystrval herr
      exact Or.inl ⟨herr, by rw [hrec]; rfl⟩

/-- Witness of C24: after the header, the line "chr1" alone (one field instead
of nine) as line 2 of a synchronous parser. -/
theorem sync_error_immediate_witness :
    ∃ q, example_header_state.operator_lshift stod_unreached "chr1".toList = some q ∧
      q.has_error = true ∧
      q.error = (parse_line stod_unreached "chr1".toList []
        (example_header_state._linenum + 1) example_header_state._onlystrval).2 ∧
      (∃ rest, q.error = "line#".toList ++ to_string (example_header_state.linenum + 1) ++
        rest) ∧
      q.linenum = example_header_state.linenum + 1 ∧ q.size = example_header_state.size ∧
      q._data = example_header_state._data :=
  (sync_error_immediate stod_unreached example_header_state "chr1".toList
    rfl rfl (by decide) (by decide)).1 (by decide)

/-! ## Which error message is kept (C25) -/

/-- A worker that has returned takes no more steps. -/
theorem thrproc_steps_finished (stod : Str → Option double) (onlystr : Bool) :
    ∀ (n : Nat) (t : thrproc_t) (out : List gff_data_tmp_t) (error : Str),
      t.finished = true → thrproc_steps stod onlystr n t out error = (t, out, error) := by
  intro n
  induction n with
  | zero => intro t out error _; rfl
  | succ n ih =>
    intro t out error h
    simp only [thrproc_steps]
    have : thrproc_step stod onlystr t out error = (t, out, error) := by
      simp [thrproc_step, h]
    rw [this]
    exact ih t out error h

/-- The message a running worker leaves in the shared `*error` when it runs to
its end with no other writer: that of the last line left that fails. -/
theorem thrproc_steps_error (stod : Str → Option double) (onlystr : Bool) :
    ∀ (n : Nat) (t : thrproc_t) (out : List gff_data_tmp_t) (error : Str),
      t.finished = false → t.todo.length < n →
      (thrproc_steps stod onlystr n t out error).2.2 =
        ((errors_of stod onlystr t.todo).getLast?).getD error := by
  intro n
  induction n with
  | zero => intro t out error _ h; exact absurd h (Nat.not_lt_zero _)
  | succ n ih =>
    intro t out error hf hlen
    simp only [thrproc_steps]
    cases htodo : t.todo with
    | nil =>
      have hfin : (thrproc_step stod onlystr t out error).1.finished = true ∧
          (thrproc_step stod onlystr t out error).2.2 = error := by
        unfold thrproc_step
        simp only [hf, Bool.false_eq_true, if_false, htodo]
        split_ifs <;> exact ⟨rfl, rfl⟩
      rw [thrproc_steps_finished stod onlystr n _ _ _ hfin.1, hfin.2]
      simp [errors_of]
    | cons d rest =>
      have hstep : (thrproc_step stod onlystr t out error).1.finished = false ∧
          (thrproc_step stod onlystr t out error).1.todo = rest ∧
          (thrproc_step stod onlystr t out error).2.2 =
            if (parse_line stod d.data [] d.lnum onlystr).2 ≠ [] then
              (parse_line stod d.data [] d.lnum onlystr).2 else error := by
        unfold thrproc_step
        simp [hf, htodo]
      rw [htodo] at hlen
      have := ih (thrproc_step stod onlystr t out error).1
        (thrproc_step stod onlystr t out error).2.1
        (thrproc_step stod onlystr t out error).2.2 hstep.1
        (by rw [hstep.2.1]; simp only [List.length_cons] at hlen; omega)
      rw [this, hstep.2.1, hstep.2.2, errors_of_cons]
      by_cases he : (parse_line stod d.data [] d.lnum onlystr).2 = []
      · simp [he]
      · simp only [he, if_false, ne_eq, not_false_eq_true, if_true]
        rw [List.singleton_append, getLast_getD_cons]

/-- C25 fails as stated: after the header, the two lines "a" and "b" (one field
each) fail as lines 2 and 3; synchronous ingestion ends with the message of
line 3, not that of line 2, and so does a worker given the two lines as one
batch. -/
theorem first_error_replaced :
    (run stod_unreached (gff_parser_t.init 0 false)
      (lines ["##gff-version 3".toList, "a".toList, "b".toList])).map gff_parser_t.error =
      some "line#3 wrong line format (fields count '1' instead of '9')".toList ∧
    (parse_line stod_unreached "a".toList [] 2 false).2 =
      "line#2 wrong line format (fields count '1' instead of '9')".toList ∧
    (thrproc_join stod_unreached false
      { data := [{ data := "a".toList, lnum := 2 }, { data := "b".toList, lnum := 3 }],
        todo := [{ data := "a".toList, lnum := 2 }, { data := "b".toList, lnum := 3 }] }
      [] []).2 = "line#3 wrong line format (fields count '1' instead of '9')".toList := by
  decide

/-- C25, amended: the last error wins. In synchronous mode, once the version is
set, after the lines `ls` error() is the message of the last feature line of
`ls` that fails, in input order (the message held before when none fails): each
failure replaces the message of the one before. In pooled mode a worker that
runs its batch `b` leaves in the shared error the message of the last line of
`b` that fails (the message held before when none fails). -/
theorem last_error_wins (stod : Str → Option double) (p : gff_parser_t) (ls : List Str)
    (h2 : p._thrpool = none) (hv : p._gff_version ≠ 0) :
    (∃ s, run stod p (lines ls) = some s ∧
      s.error = ((errors_of stod p._onlystrval (feature_lines p._linenum ls)).getLast?).getD
        p.error) ∧
    (∀ (onlystr : Bool) (b : List thr_data_t) (out : List gff_data_tmp_t) (error : Str),
      (thrproc_join stod onlystr { data := b, todo := b } out error).2 =
        ((errors_of stod onlystr b).getLast?).getD error) := by
  constructor
  · exact ⟨_, run_sync_spec stod ls p h2 hv, rfl⟩
  · intro onlystr b out error
    unfold thrproc_join
    exact thrproc_steps_error stod onlystr _ _ out error rfl (Nat.lt_succ_self _)

/-- Witness of C25: the lines "a" and "b" after the header; the message kept is
that of "b", line 3. -/
theorem last_error_wins_witness :
    (∃ s, run stod_unreached example_header_state (lines ["a".toList, "b".toList]) = some s ∧
      s.error = ((errors_of stod_unreached example_header_state._onlystrval
        (feature_lines example_header_state._linenum ["a".toList, "b".toList])).getLast?).getD
        example_header_state.error) ∧
    (∀ (onlystr : Bool) (b : List thr_data_t) (out : List gff_data_tmp_t) (error : Str),
      (thrproc_join stod_unreached onlystr { data := b, todo := b } out error).2 =
        ((errors_of stod_unreached onlystr b).getLast?).getD error) :=
  last_error_wins stod_unreached example_header_state ["a".toList, "b".toList] rfl (by decide)

/-! ## flush twice (C26) -/

/-- Past its first test, flush does not read the seqid index. -/
theorem flush_forget_index (stod : Str → Option double) (p : gff_parser_t)
    (h : (p._data_by_seqid ≠ [] &&
      (match p._thrpool with
       | none => true
       | some tp => tp.empty)) = false) :
    p.flush stod = gff_parser_t.flush stod { p with _data_by_seqid := [] } := by
  obtain ⟨threads, thrpool, ver, ln, os, err, data, ix1, ix2, ix3⟩ := p
  simp only at h
  unfold gff_parser_t.flush
  simp only [h, Bool.false_eq_true, if_false]
  cases thrpool <;> simp

/-- Whatever the parser, flush leaves an indexed one or leaves it as it is. -/
theorem flush_fixed (stod : Str → Option double) (p : gff_parser_t) :
    p.flush stod = p ∨ indexed (p.flush stod) := by
  by_cases h : (p._data_by_seqid ≠ [] &&
      (match p._thrpool with
       | none => true
       | some tp => tp.empty)) = true
  · left
    unfold gff_parser_t.flush
    rw [if_pos h]
  · right
    have h' : (p._data_by_seqid ≠ [] &&
        (match p._thrpool with
         | none => true
         | some tp => tp.empty)) = false := by simpa using h
    rw [flush_forget_index stod p h']
    exact flush_indexed stod _ rfl

/-- A second flush right after the first changes nothing. -/
theorem flush_flush (stod : Str → Option double) (p : gff_parser_t) :
    (p.flush stod).flush stod = p.flush stod := by
  rcases flush_fixed stod p with hp | hi
  · rw [hp, hp]
  · exact flush_of_indexed stod _ hi

/-- C26: flush is idempotent. For every parser state (so for the state after
any ingested input, in synchronous and in pooled mode), a second flush right
after the first leaves the whole parser, its store, its three indices and its
error among the rest, exactly as the first flush left it. -/
theorem flush_idempotent (stod : Str → Option double) (p : gff_parser_t) :
    (p.flush stod).flush stod = p.flush stod ∧
    ((p.flush stod).flush stod)._data = (p.flush stod)._data ∧
    ((p.flush stod).flush stod)._data_by_seqid = (p.flush stod)._data_by_seqid ∧
    ((p.flush stod).flush stod)._data_by_type = (p.flush stod)._data_by_type ∧
    ((p.flush stod).flush stod)._data_by_source = (p.flush stod)._data_by_source ∧
    ((p.flush stod).flush stod).error = (p.flush stod).error := by
  rw [flush_flush stod p]
  exact ⟨rfl, rfl, rfl, rfl, rfl, rfl⟩

/-! ## Ingestion after flush (C27) -/

/-- C27 fails as stated: the synchronous parser of the example, flushed, holds
one record; ingesting one more valid feature line (a gene on chr2) then makes
size() 2, and the type index built by flush is not updated: the query by the
type "gene" still returns the first record only, though the store holds two
records of that type. -/
theorem store_grows_after_flush :
    (example_sync_state.flush stod_unreached).size = 1 ∧
    ((example_sync_state.flush stod_unreached).operator_lshift stod_unreached
      "chr2\tHAVANA\tgene\t5\t9\t.\t+\t.\tgene_id=G2".toList).map gff_parser_t.size = some 2 ∧
    ((example_sync_state.flush stod_unreached).operator_lshift stod_unreached
      "chr2\tHAVANA\tgene\t5\t9\t.\t+\t.\tgene_id=G2".toList).map
        (fun q => ((q.get_by stod_unreached "gene".toList [] {}).1,
          q._data.map (fun r => r.type))) =
      some ([0], ["gene".toList, "gene".toList]) := by
  decide

/-- C27, amended: the parser does not enforce ingest-then-freeze. A call of
operator<< that returns, on any parser state `s` (so also after flush or a
first query built the indices), leaves the three indices as they are; in pooled
mode it leaves the store and size() unchanged (the line is only buffered in the
pool); in synchronous mode the store is unchanged or the record of the line is
appended to it, and it is appended (size() grows by one) whenever the version
is set and the line is a feature line for which parse_line returns a record. -/
theorem ingest_after_flush (stod : Str → Option double) (s q : gff_parser_t) (line : Str)
    (h : s.operator_lshift stod line = some q) :
    (q._data_by_seqid = s._data_by_seqid ∧ q._data_by_type = s._data_by_type ∧
      q._data_by_source = s._data_by_source) ∧
    (∀ tp, s._thrpool = some tp → q._data = s._data ∧ q.size = s.size) ∧
    (s._thrpool = none →
      (q._data = s._data ∨
        q._data = s._data ++ [(parse_line stod line [] (s._linenum + 1) s._onlystrval).1])) ∧
    (s._thrpool = none → s._gff_version ≠ 0 → line ≠ [] → ¬ line.head? = some '#' →
      (parse_line stod line [] (s._linenum + 1) s._onlystrval).1.empty = false →
      q._data = s._data ++ [(parse_line stod line [] (s._linenum + 1) s._onlystrval).1] ∧
      q.size = s.size + 1) := by
  refine ⟨step_indices stod s q (.line line) h, ?_, ?_, ?_⟩
  · intro tp htp
    rcases operator_lshift_cases stod s line with ⟨hn, _⟩ | ⟨q', hq, _, _, _, q4⟩
    · rw [hn] at h
      cases h
    · rw [hq] at h
      cases h
      have := (q4 tp htp).2
      exact ⟨this, by simp [gff_parser_t.size, this]⟩
  · intro hp
    rcases operator_lshift_cases stod s line with ⟨hn, _⟩ | ⟨q', hq, _, _, q3, _⟩
    · rw [hn] at h
      cases h
    · rw [hq] at h
      cases h
      rcases (q3 hp).2 with h1 | ⟨_, h1⟩
      · exact Or.inl h1
      · exact Or.inr h1
  · intro hp hv hl hc hne
    rw [operator_lshift_sync_feature stod s line hp hv hl hc] at h
    cases h
    have e1 : records stod s._onlystrval [{ data := line, lnum := s._linenum + 1 }] =
        [(parse_line stod line [] (s._linenum + 1) s._onlystrval).1] := by
      simp [records, parse_ok, hne]
    simp [gff_parser_t.size, e1]

/-- Witness of C27: the flushed parser of the example and one more gene line. -/
theorem ingest_after_flush_witness :
    ∃ q, (example_sync_state.flush stod_unreached).operator_lshift stod_unreached
        "chr2\tHAVANA\tgene\t5\t9\t.\t+\t.\tgene_id=G2".toList = some q ∧
      q._data_by_type = (example_sync_state.flush stod_unreached)._data_by_type ∧
      q.size = (example_sync_state.flush stod_unreached).size + 1 :=
  ⟨_, rfl,
    (ingest_after_flush stod_unreached (example_sync_state.flush stod_unreached) _
      "chr2\tHAVANA\tgene\t5\t9\t.\t+\t.\tgene_id=G2".toList rfl).1.2.1,
    ((ingest_after_flush stod_unreached (example_sync_state.flush stod_unreached) _
      "chr2\tHAVANA\tgene\t5\t9\t.\t+\t.\tgene_id=G2".toList rfl).2.2.2
        rfl (by decide) (by decide) (by decide) (by decide)).2⟩

/-! ## Queries without a flush before (C28) -/

/-- C28 on the code: get_by_attr scans the store and, unlike get_by_type,
get_by_pos and the conjunctions of get_by, never calls flush. With one thread,
after the two lines of the example and no flush, the attribute-only query
gene_id = "G1" returns nothing (the record is still in the pool), and after an
explicit flush it returns the record. The other queries do build the indices
first: on a parser whose indices are empty, a query that is not attribute-only
returns without a flush before what it returns after one; and so does the
attribute-only query in synchronous mode. -/
theorem get_by_attr_without_flush :
    (run stod_unreached (gff_parser_t.init 1 false) (lines example_lines)).map
      (fun s => (s.get_by stod_unreached []
        [{ name := "gene_id".toList, value := .string "G1".toList }] {}).1) = some [] ∧
    (run stod_unreached (gff_parser_t.init 1 false) (lines example_lines)).map
      (fun s => ((s.flush stod_unreached).get_by stod_unreached []
        [{ name := "gene_id".toList, value := .string "G1".toList }] {}).1) = some [0] ∧
    (∀ (stod : Str → Option double) (s : gff_parser_t) (type : Str)
      (attr : List gff_attribute_t) (position : gff_postition_t),
      s._data_by_seqid = [] → s._data_by_type = [] →
      ¬ (type = [] ∧ attr ≠ [] ∧ position.empty = true) →
      (s.get_by stod type attr position).1 =
        ((s.flush stod).get_by stod type attr position).1) ∧
    (∀ (stod : Str → Option double) (s : gff_parser_t) (attr : List gff_attribute_t)
      (position : gff_postition_t), s._thrpool = none → position.empty = true →
      (s.get_by stod [] attr position).1 =
        ((s.flush stod).get_by stod [] attr position).1) := by
  refine ⟨by decide, by decide, ?_, ?_⟩
  · intro stod s type attr position h1 h2 hq
    have hff := flush_flush stod s
    unfold gff_parser_t.get_by gff_parser_t.get_by_type gff_parser_t.get_by_pos
    simp only [h1, h2, if_true, hff, ite_self]
    split_ifs <;> rfl
  · intro stod s attr position hp hpos
    by_cases ha : attr = []
    · simp [gff_parser_t.get_by, ha, hpos]
    · have hd := flush_sync_data stod s hp
      simp [gff_parser_t.get_by, ha, hpos, gff_parser_t.get_by_attr, gff_parser_t.deref, hd]

/-! ## The size of a batch (C29) -/

/-- The call push below the threshold: the line is buffered and nothing else
happens. -/
theorem push_buffered (stod : Str → Option double) (tp : thread_pool_t) (error line : Str)
    (n : Nat) (h : tp._tmpdata.length < 1000) :
    tp.push stod error line n =
      ({ tp with _tmpdata := tp._tmpdata ++ [{ data := line, lnum := n }] }, error) := by
  unfold thread_pool_t.push
  have : ¬ (tp._tmpdata ++ [({ data := line, lnum := n } : thr_data_t)]).length >
      thread_pool_t.max_lines_in_pool := by
    simp only [List.length_append, List.length_singleton, thread_pool_t.max_lines_in_pool]
    omega
  simp only [this, if_false]

/-- The call push at the threshold: the buffer and the new line, one batch, are
given to a new thread, the last of the pool, and the buffer is emptied. -/
theorem push_dispatched (stod : Str → Option double) (tp : thread_pool_t) (error line : Str)
    (n : Nat) (h : tp._tmpdata.length ≥ 1000) :
    (tp.push stod error line n).1._tmpdata = [] ∧
    (tp.push stod error line n).1._tpool.getLast? =
      some { data := tp._tmpdata ++ [{ data := line, lnum := n }],
             todo := tp._tmpdata ++ [{ data := line, lnum := n }] } := by
  unfold thread_pool_t.push
  have : (tp._tmpdata ++ [({ data := line, lnum := n } : thr_data_t)]).length >
      thread_pool_t.max_lines_in_pool := by
    simp only [List.length_append, List.length_singleton, thread_pool_t.max_lines_in_pool]
    omega
  simp only [this, if_true]
  unfold thread_pool_t.makeproc
  simp only [Bool.false_eq_true, if_false]
  split_ifs
  · cases tp._tpool with
    | nil => exact ⟨trivial, by simp⟩
    | cons front rest => exact ⟨trivial, by simp⟩
  · exact ⟨trivial, by simp⟩

theorem push_lines_append (stod : Str → Option double) (a b : List thr_data_t) :
    ∀ (tp : thread_pool_t) (error : Str),
      push_lines stod tp error (a ++ b) =
        push_lines stod (push_lines stod tp error a).1 (push_lines stod tp error a).2 b := by
  induction a with
  | nil => intro tp error; rfl
  | cons d rest ih =>
    intro tp error
    simp only [List.cons_append, push_lines]
    exact ih _ _

/-- Pushes that do not pass the threshold only fill the buffer. -/
theorem push_lines_buffered (stod : Str → Option double) (L : List thr_data_t) :
    ∀ (tp : thread_pool_t) (error : Str), tp._tmpdata.length + L.length ≤ 1000 →
      push_lines stod tp error L = ({ tp with _tmpdata := tp._tmpdata ++ L }, error) := by
  induction L with
  | nil => intro tp error _; simp [push_lines]
  | cons d rest ih =>
    intro tp error h
    simp only [List.length_cons] at h
    simp only [push_lines]
    rw [push_buffered stod tp error d.data d.lnum (by omega)]
    simp only
    rw [ih _ _ (by simp only [List.length_append, List.length_singleton]; omega)]
    simp

/-- The number of lines in the buffer after pushes. -/
theorem push_lines_length (stod : Str → Option double) (L : List thr_data_t) :
    ∀ (tp : thread_pool_t) (error : Str), tp._tmpdata.length ≤ 1000 →
      (push_lines stod tp error L).1._tmpdata.length = (tp._tmpdata.length + L.length) % 1001 := by
  induction L with
  | nil =>
    intro tp error h
    simp only [push_lines, List.length_nil, Nat.add_zero]
    rw [Nat.mod_eq_of_lt (by omega)]
  | cons d rest ih =>
    intro tp error h
    simp only [push_lines, List.length_cons]
    by_cases hlt : tp._tmpdata.length < 1000
    · rw [push_buffered stod tp error d.data d.lnum hlt]
      simp only
      rw [ih _ _ (by simp only [List.length_append, List.length_singleton]; omega)]
      simp only [List.length_append, List.length_singleton]
      congr 1
      omega
    · have hd := push_dispatched stod tp error d.data d.lnum (by omega)
      rw [ih _ _ (by rw [hd.1]; simp)]
      rw [hd.1]
      have : tp._tmpdata.length + (rest.length + 1) = rest.length + 1001 := by omega
      rw [this]
      simp

/-- C29 on the code: push dispatches when the buffer holds more than
max_lines_in_pool = 1000 lines, so a batch holds 1001 lines. On a fresh pool,
1000 pushes (of any lines `L`, or fewer) leave every line in the buffer and no
thread: no batch has been dispatched, where the claim has one batch and an
empty buffer; the next push hands the 1001 lines to a thread, the only one of
the pool, and empties the buffer; after k pushes the buffer holds k mod 1001
lines. Whatever the pool, a push that dispatches gives the new thread the
buffer and the new line. -/
theorem push_batch_size (stod : Str → Option double) (thrmax : Int) (onlystr : Bool)
    (error : Str) (d : thr_data_t) :
    (∀ L : List thr_data_t, L.length ≤ 1000 →
      push_lines stod { _thrmax := thrmax, _attronlystr := onlystr } error L =
        ({ _thrmax := thrmax, _attronlystr := onlystr, _tmpdata := L }, error)) ∧
    (push_lines stod { _thrmax := thrmax, _attronlystr := onlystr } error
      (List.replicate 1000 d)).1._tmpdata.length = 1000 ∧
    (push_lines stod { _thrmax := thrmax, _attronlystr := onlystr } error
      (List.replicate 1000 d)).1._tpool = [] ∧
    (∀ L : List thr_data_t, L.length = 1000 →
      (push_lines stod { _thrmax := thrmax, _attronlystr := onlystr } error
        (L ++ [d])).1._tmpdata = [] ∧
      (push_lines stod { _thrmax := thrmax, _attronlystr := onlystr } error
        (L ++ [d])).1._tpool = [{ data := L ++ [d], todo := L ++ [d] }] ∧
      (L ++ [d]).length = 1001) ∧
    (∀ L : List thr_data_t,
      (push_lines stod { _thrmax := thrmax, _attronlystr := onlystr } error
        L).1._tmpdata.length = L.length % 1001) ∧
    (∀ (tp : thread_pool_t) (e line : Str) (n : Nat), tp._tmpdata.length = 1000 →
      (tp.push stod e line n).1._tmpdata = [] ∧
      ∃ t, (tp.push stod e line n).1._tpool.getLast? = some t ∧ t.data.length = 1001) := by
  have hbuf : ∀ L : List thr_data_t, L.length ≤ 1000 →
      push_lines stod { _thrmax := thrmax, _attronlystr := onlystr } error L =
        ({ _thrmax := thrmax, _attronlystr := onlystr, _tmpdata := L }, error) := by
    intro L hL
    rw [push_lines_buffered stod L _ error (by simpa using hL)]
    simp
  refine ⟨hbuf, ?_, ?_, ?_, ?_, ?_⟩
  · rw [hbuf _ (le_of_eq (List.length_replicate _ _))]
    exact List.length_replicate _ _
  · rw [hbuf _ (le_of_eq (List.length_replicate _ _))]
  · intro L hL
    rw [push_lines_append, hbuf L (by omega)]
    simp only [push_lines]
    refine ⟨?_, ?_, by simp [hL]⟩
    · exact (push_dispatched stod _ error d.data d.lnum (by simp [hL])).1
    · have hgt : (L ++ [({ data := d.data, lnum := d.lnum } : thr_data_t)]).length >
          thread_pool_t.max_lines_in_pool := by
        simp [thread_pool_t.max_lines_in_pool, hL]
      simp only [thread_pool_t.push, hgt, if_true, thread_pool_t.makeproc, Bool.false_eq_true,
        if_false]
      split_ifs <;> simp
  · intro L
    have := push_lines_length stod L { _thrmax := thrmax, _attronlystr := onlystr } error
      (by simp)
    simpa using this
  · intro tp e line n hlen
    obtain ⟨h1, h2⟩ := push_dispatched stod tp e line n (by omega)
    exact ⟨h1, _, h2, by simp [hlen]⟩

/-! ## The query without a filter (C30) -/

/-- C30: with no filter (empty type, no attribute query, a position whose
seqid is empty, whatever its start and end) get_by returns the empty result
and leaves the parser as it is, for every parser state, so for every store; on
the flushed parser of the example, whose store holds one record, the result is
empty and not that record. -/
theorem get_by_no_filter (stod : Str → Option double) (s : gff_parser_t) (start end_ : Nat) :
    s.get_by stod [] [] { seqid := [], start := start, end_ := end_ } = ([], s) ∧
    (∀ position : gff_postition_t, position.empty = true →
      (s.get_by stod [] [] position).1 = []) ∧
    (example_sync_state.flush stod).size = 1 ∧
    ((example_sync_state.flush stod).get_by stod [] [] {}).1 = [] := by
  refine ⟨?_, ?_, rfl, rfl⟩
  · simp [gff_parser_t.get_by, gff_postition_t.empty]
  · intro position hpos
    simp [gff_parser_t.get_by, hpos]

/-! ## utils::trim on whitespace (C31) -/

/-- The text utils::trim returns is a contiguous part of its argument. -/
theorem trim_infix (str : Str) : ∃ pre post, str = pre ++ utils.trim str ++ post := by
  unfold utils.trim
  simp only
  generalize (if (str.takeWhile isspace).length = str.length then 0
    else (str.takeWhile isspace).length) = s
  generalize (if (str.reverse.takeWhile isspace).length = str.length then 0
    else (str.reverse.takeWhile isspace).length) = e
  refine ⟨(str.take (str.length - e)).take s, str.drop (str.length - e), ?_⟩
  rw [List.take_append_drop, List.take_append_drop]

/-- C31 on the code: utils::trim returns a text made only of whitespace as it
is: when both searches reach the end, `s` is reset to begin() and `e` to
rbegin(), so the whole text is returned, where the claim has the empty string.
So a whitespace-only column is not treated as absent: the score column " "
fails the line with the error of the score column (std::stod has nothing to
read), the strand column "  " fails it with the error of the strand column, and
the strand column " " is read as the strand character ' '. What the claim says
holds for a text that has a character that is not whitespace: whitespace, a
core that begins and ends with such a character, whitespace, is trimmed to the
core; and every result is a contiguous part of the argument. -/
theorem trim_whitespace_only :
    utils.trim "  ".toList = "  ".toList ∧
    (∀ str : Str, (∀ c ∈ str, isspace c = true) → utils.trim str = str) ∧
    parse_line stod_decimal "chr1\tsrc\tgene\t1\t2\t \t+\t.\tID=x".toList [] 1 false =
      ({}, "line#1 wrong 'score' field".toList) ∧
    parse_line stod_decimal "chr1\tsrc\tgene\t1\t2\t.\t  \t.\tID=x".toList [] 1 false =
      ({}, "line#1 wrong 'strand' field".toList) ∧
    (parse_line stod_decimal "chr1\tsrc\tgene\t1\t2\t.\t \t.\tID=x".toList [] 1 false).1.strand =
      ' ' ∧
    (∀ (ws1 core ws2 : Str) (a b : Char) (mid : Str),
      (∀ c ∈ ws1, isspace c = true) → (∀ c ∈ ws2, isspace c = true) →
      core = a :: mid → core.getLast? = some b → isspace a = false → isspace b = false →
      utils.trim (ws1 ++ core ++ ws2) = core) ∧
    (∀ str : Str, ∃ pre post, str = pre ++ utils.trim str ++ post) := by
  refine ⟨by decide, trim_all_space, by decide, by decide, by decide, ?_, trim_infix⟩
  intro ws1 core ws2 a b mid h1 h2 hcore hlast ha hb
  exact trim_core ws1 core ws2 h1 h2 a b mid hcore hlast ha hb

/-! ## The query of a BED row (C32) -/

/-- C32 on the code: in BED mode without -endpos, main sets
`endpos_ui = pos != endpos ? std::stol(bedfields.at(endpos)) : pos;`: the end of
the filter is `pos`, the index of the position column, not `pos_ui`, the number
read from it. With the default columns (-seqid 1, -pos 2) the row "chr1<TAB>150"
gives the filter (chr1, 150, 1), where the claim has (chr1, 150, 150); on the
flushed parser of the example the point query chr1:150 returns the record of
chr1:100-200 and the filter of the row returns nothing. For every row and every
position column, the filter of a row that is read has the number of the column
as its start and the column index as its end. -/
theorem bed_row_single_position :
    bed_row_position (bed_columns 1 2 (-1)).1 (bed_columns 1 2 (-1)).2.1
        (bed_columns 1 2 (-1)).2.2 "chr1\t150".toList =
      some { seqid := "chr1".toList, start := 150, end_ := 1 } ∧
    ((example_sync_state.flush stod_unreached).get_by stod_unreached [] []
      { seqid := "chr1".toList, start := 150, end_ := 150 }).1 = [0] ∧
    ((example_sync_state.flush stod_unreached).get_by stod_unreached [] []
      { seqid := "chr1".toList, start := 150, end_ := 1 }).1 = [] ∧
    (∀ (seqid pos : Int) (inln : Str) (f : gff_postition_t),
      bed_row_position (bed_columns seqid pos (-1)).1 (bed_columns seqid pos (-1)).2.1
        (bed_columns seqid pos (-1)).2.2 inln = some f →
      f.end_ = to_uint64 (pos - 1) ∧
      ∃ col v, vector_at (utils.get_fields inln '\t') (pos - 1) = some col ∧
        stol col = some v ∧ f.start = to_uint64 v) := by
  refine ⟨by decide, by decide, by decide, ?_⟩
  intro seqid pos inln f h
  simp only [bed_columns, bed_row_position, show ((-1 : Int) < 0) from by decide, if_true,
    ne_eq, not_true_eq_false, if_false] at h
  split at h
  · cases h
  · split at h
    · cases h
    · rename_i vpos hpos
      simp only [Option.some.injEq] at h
      subst h
      refine ⟨rfl, ?_⟩
      cases hcol : vector_at (utils.get_fields inln '\t') (pos - 1) with
      | none => rw [hcol] at hpos; cases hpos
      | some col =>
        rw [hcol] at hpos
        exact ⟨col, vpos, rfl, hpos, rfl⟩

/-! ## Point mode and interval mode (C33) -/

/-- The containment test at `p` is the intersection test with (p, p). -/
theorem in_eq_intersect (r : gff_postition_t) (p : Nat) : r.in_ p = r.intersect p p := by
  simp only [gff_postition_t.in_, gff_postition_t.intersect]
  rw [Bool.eq_iff_iff]
  simp only [Bool.and_eq_true, decide_eq_true_eq]
  omega

theorem in_sid_eq_intersect_sid (r : gff_postition_t) (sid : Str) (p : Nat) :
    r.in_sid sid p = r.intersect_sid sid p p := by
  have h := in_eq_intersect r p
  simp only [gff_postition_t.in_, gff_postition_t.intersect] at h
  simp only [gff_postition_t.in_sid, gff_postition_t.intersect_sid]
  by_cases hs : r.seqid = sid
  · simpa [hs] using h
  · simp [hs]

/-- C33: for every record interval (start and end in any order) and every
position p, contains(p) is intersects(p, p), and so for the overloads that
check the seqid; hence for a filter with start == end, get_by_pos and get_by
(which then apply point containment) return what they return with the point
predicate and with the interval predicate applied, for every parser, type and
attribute queries. -/
theorem point_eq_interval (stod : Str → Option double) (s : gff_parser_t) (type : Str)
    (attr : List gff_attribute_t) (position : gff_postition_t)
    (hpoint : position.start = position.end_) :
    (∀ (r : gff_postition_t) (p : Nat), r.in_ p = r.intersect p p) ∧
    (∀ (r : gff_postition_t) (sid : Str) (p : Nat), r.in_sid sid p = r.intersect_sid sid p p) ∧
    s.get_by_pos stod position = s.get_by_pos_using true stod position ∧
    s.get_by_pos stod position = s.get_by_pos_using false stod position ∧
    s.get_by stod type attr position = s.get_by_using true stod type attr position ∧
    s.get_by stod type attr position = s.get_by_using false stod type attr position := by
  have hsp : position.singlepos = true := by
    simp [gff_postition_t.singlepos, hpoint]
  have hpos_t : s.get_by_pos stod position = s.get_by_pos_using true stod position := by
    simp [gff_parser_t.get_by_pos, gff_parser_t.get_by_pos_using, hsp]
  have hpos_f : s.get_by_pos stod position = s.get_by_pos_using false stod position := by
    simp only [gff_parser_t.get_by_pos, gff_parser_t.get_by_pos_using, hsp, if_true,
      Bool.false_eq_true, if_false]
    split
    · rfl
    · congr 1
      apply List.filter_congr
      intro d _
      rw [in_sid_eq_intersect_sid, hpoint]
  refine ⟨in_eq_intersect, in_sid_eq_intersect_sid, hpos_t, hpos_f, ?_, ?_⟩
  · unfold gff_parser_t.get_by gff_parser_t.get_by_using
    rw [hpos_t]
    simp [hsp]
  · unfold gff_parser_t.get_by gff_parser_t.get_by_using
    rw [hpos_f]
    simp only [hsp, if_true, Bool.false_eq_true, if_false]
    split_ifs <;> first
      | rfl
      | (split <;> first
          | rfl
          | (congr 1
             apply List.filter_congr
             intro d _
             rw [in_eq_intersect, hpoint]))

/-- Witness of C33: the point filter chr1:150 on the flushed parser of the
example, with the type "gene". -/
theorem point_eq_interval_witness :
    (∀ (r : gff_postition_t) (p : Nat), r.in_ p = r.intersect p p) ∧
    (∀ (r : gff_postition_t) (sid : Str) (p : Nat), r.in_sid sid p = r.intersect_sid sid p p) ∧
    (example_sync_state.flush stod_unreached).get_by_pos stod_unreached
        { seqid := "chr1".toList, start := 150, end_ := 150 } =
      (example_sync_state.flush stod_unreached).get_by_pos_using true stod_unreached
        { seqid := "chr1".toList, start := 150, end_ := 150 } ∧
    (example_sync_state.flush stod_unreached).get_by_pos stod_unreached
        { seqid := "chr1".toList, start := 150, end_ := 150 } =
      (example_sync_state.flush stod_unreached).get_by_pos_using false stod_unreached
        { seqid := "chr1".toList, start := 150, end_ := 150 } ∧
    (example_sync_state.flush stod_unreached).get_by stod_unreached "gene".toList []
        { seqid := "chr1".toList, start := 150, end_ := 150 } =
      (example_sync_state.flush stod_unreached).get_by_using true stod_unreached "gene".toList []
        { seqid := "chr1".toList, start := 150, end_ := 150 } ∧
    (example_sync_state.flush stod_unreached).get_by stod_unreached "gene".toList []
        { seqid := "chr1".toList, start := 150, end_ := 150 } =
      (example_sync_state.flush stod_unreached).get_by_using false stod_unreached
        "gene".toList [] { seqid := "chr1".toList, start := 150, end_ := 150 } :=
  point_eq_interval stod_unreached (example_sync_state.flush stod_unreached) "gene".toList []
    { seqid := "chr1".toList, start := 150, end_ := 150 } rfl

/-! ## utils::get_fields: count, content and join (C34) -/

theorem split_from_no_delim (delim : Char) (l : Str) :
    ∀ part, delim ∉ part → ∀ f ∈ split_from delim l part, delim ∉ f := by
  induction l with
  | nil =>
    intro part hp f hf
    simp only [split_from, List.mem_singleton] at hf
    rw [hf]
    exact hp
  | cons c cs ih =>
    intro part hp f hf
    by_cases hc : c = delim
    · simp only [split_from, hc, if_true, List.mem_cons] at hf
      rcases hf with h | h
      · rw [h]; exact hp
      · exact ih [] (by simp) f h
    · simp only [split_from, hc, if_false] at hf
      refine ih (part ++ [c]) ?_ f hf
      simp only [List.mem_append, List.mem_singleton, not_or]
      exact ⟨hp, fun h => hc h.symm⟩

theorem split_from_foldl (delim : Char) (l : Str) :
    ∀ (part acc : Str),
      (split_from delim l part).foldl (fun r s => r ++ (s ++ [delim])) acc =
        acc ++ part ++ l ++ [delim] := by
  induction l with
  | nil => intro part acc; simp [split_from]
  | cons c cs ih =>
    intro part acc
    by_cases hc : c = delim
    · simp only [split_from, hc, if_true, List.foldl_cons]
      rw [ih]
      simp
    · simp only [split_from, hc, if_false]
      rw [ih]
      simp

theorem split_from_trailing (delim : Char) (l : Str) :
    ∀ part, (split_from delim (l ++ [delim]) part).getLast? = some [] := by
  induction l with
  | nil => intro part; simp [split_from]
  | cons c cs ih =>
    intro part
    by_cases hc : c = delim
    · simp only [List.cons_append, split_from, hc, if_true]
      have hne := split_from_ne_nil delim (cs ++ [delim]) []
      cases hs : split_from delim (cs ++ [delim]) [] with
      | nil => exact absurd hs hne
      | cons a rest =>
        rw [List.getLast?_cons_cons, ← hs]
        exact ih []
    · simp only [List.cons_append, split_from, hc, if_false]
      exact ih _

/-- C34: for every text and every delimiter, utils::get_fields (with
csv_string_format false) returns one field more than the text has delimiters;
no field holds the delimiter; joining the fields with the delimiter
(join_strlist of main.cpp) gives the text back; the empty text gives one empty
field and a text that ends with the delimiter gives an empty last field. -/
theorem get_fields_spec (line : Str) (delim : Char) :
    (utils.get_fields line delim).length = line.count delim + 1 ∧
    (∀ f ∈ utils.get_fields line delim, delim ∉ f) ∧
    join_strlist (utils.get_fields line delim) delim = line ∧
    utils.get_fields [] delim = [[]] ∧
    (utils.get_fields (line ++ [delim]) delim).getLast? = some [] := by
  refine ⟨get_fields_length line delim, ?_, ?_, ?_, ?_⟩
  · rw [get_fields_eq]
    exact split_from_no_delim delim line [] (by simp)
  · rw [get_fields_eq]
    unfold join_strlist
    rw [if_neg (split_from_ne_nil delim line []), split_from_foldl]
    simp
  · rw [get_fields_eq]
    rfl
  · rw [get_fields_eq]
    exact split_from_trailing delim line []

/-! ## An attribute named more than once (C35) -/

/-- The value one pass of the attribute loop stores depends on the text of the
value only, not on the record or the name. -/
theorem parse_line_attrs_step_value (stod : Str → Option double) (onlystrinval : Bool)
    (val : Str) :
    ∃ v, ∀ (d : gff_data_t) (nm : Str),
      (if onlystrinval then d.set_attr nm (.string val)
       else d.set_attr_auto stod nm val) = d.set_attr nm v := by
  cases onlystrinval with
  | true => exact ⟨.string val, fun d nm => by simp⟩
  | false =>
    by_cases h1 : val.all (fun c => c = '.' || isdigit c) = false ∨ val.count '.' > 1
    · exact ⟨.string val, fun d nm => by
        rw [set_attr_auto_unfold]
        simp only [Bool.false_eq_true, if_false]
        rw [if_pos h1]⟩
    · by_cases h2 : val.count '.' = 1
      · cases hs : stod val with
        | none => exact ⟨.string val, fun d nm => by
            rw [set_attr_auto_unfold]
            simp only [Bool.false_eq_true, if_false]
            rw [if_neg h1, if_pos h2, hs]⟩
        | some x => exact ⟨.float x, fun d nm => by
            rw [set_attr_auto_unfold]
            simp only [Bool.false_eq_true, if_false]
            rw [if_neg h1, if_pos h2, hs]⟩
      · cases hs : stol val with
        | none => exact ⟨.string val, fun d nm => by
            rw [set_attr_auto_unfold]
            simp only [Bool.false_eq_true, if_false]
            rw [if_neg h1, if_neg h2, hs]⟩
        | some x => exact ⟨.integer x, fun d nm => by
            rw [set_attr_auto_unfold]
            simp only [Bool.false_eq_true, if_false]
            rw [if_neg h1, if_neg h2, hs]⟩

theorem parse_line_attrs_append (stod : Str → Option double) (onlystrinval : Bool)
    (a b : List Str) :
    ∀ d, parse_line_attrs stod onlystrinval (a ++ b) d =
      (parse_line_attrs stod onlystrinval a d).bind (parse_line_attrs stod onlystrinval b) := by
  induction a with
  | nil => intro d; simp [parse_line_attrs]
  | cons p rest ih =>
    intro d
    simp only [List.cons_append]
    rw [parse_line_attrs, parse_line_attrs]
    split
    · exact ih _
    · rfl

/-- Pieces with other names leave the value under `nm` alone. -/
theorem parse_line_attrs_other (stod : Str → Option double) (onlystrinval : Bool)
    (nm : Str) (post : List Str) :
    ∀ d d', parse_line_attrs stod onlystrinval post d = some d' →
      (∀ q ∈ post, q.takeWhile (fun c => c ≠ '=') ≠ nm) →
      umap_find d'.attributes nm = umap_find d.attributes nm := by
  induction post with
  | nil =>
    intro d d' h _
    simp only [parse_line_attrs, Option.some.injEq] at h
    rw [h]
  | cons q rest ih =>
    intro d d' h hq
    unfold parse_line_attrs at h
    split at h
    · rename_i nm' val' hfs
      obtain ⟨v, hv⟩ := parse_line_attrs_step stod onlystrinval d nm' val'
      rw [hv] at h
      rw [ih _ _ h (fun x hx => hq x (List.mem_cons_of_mem _ hx))]
      simp only [gff_data_t.set_attr, umap_find_assign]
      have hhead := get_fields_head q '='
      rw [hfs] at hhead
      simp only [List.head?_cons, Option.some.injEq] at hhead
      have : nm' ≠ nm := by
        rw [hhead]
        exact hq q (List.mem_cons_self _ _)
      rw [if_neg this]
    · cases h

/-- On a nine-field line whose columns 4 to 8 pass their checks, parse_line
returns what the attribute loop leaves, started on a record without
attributes. -/
theorem parse_line_attrs_link (stod : Str → Option double) (line error : Str)
    (linenum : Nat) (onlystrinval : Bool)
    (seqid source type start end_ score strand phase attributes : Str)
    (hf : utils.get_fields line '\t' =
      [seqid, source, type, start, end_, score, strand, phase, attributes])
    (hv : columns_valid stod start end_ score strand phase = true) :
    ∃ d0 : gff_data_t, d0.attributes = [] ∧ d0.position.seqid = seqid ∧
      parse_line stod line error linenum onlystrinval =
        match parse_line_attrs stod onlystrinval
            (utils.get_fields (utils.trim attributes) ';') d0 with
        | none => ({}, line_error linenum " wrong 'attributes' field format")
        | some linedata => (linedata, error) := by
  obtain ⟨vstart, vend, vscore, vstrand, vphase, e1, e2, e3, e4, e5, _⟩ :=
    columns_valid_values stod start end_ score strand phase hv
  have hpl := ((((((parse_line_unfold stod line error linenum onlystrinval seqid source type
    start end_ score strand phase attributes hf).2 vstart e1).2 vend e2).2 vscore e3).2
    vstrand e4).2 vphase e5)
  exact ⟨_, rfl, rfl, hpl⟩

/-- The name of a piece `nm=val` that holds one '='. -/
theorem piece_name (nm val : Str) (h : (nm ++ '=' :: val).count '=' = 1) :
    (nm ++ '=' :: val).takeWhile (fun c => c ≠ '=') = nm ∧
    utils.get_fields (nm ++ '=' :: val) '=' = [nm, val] := by
  have hcount : nm.count '=' = 0 := by
    simp only [List.count_append, List.count_cons_self] at h
    omega
  have hnot : ∀ c ∈ nm, (fun c => decide (c ≠ '=')) c = true := by
    intro c hc
    simp only [ne_eq, decide_eq_true_eq, decide_not, Bool.not_eq_true']
    simp only [decide_eq_false_iff_not]
    intro hce
    rw [hce] at hc
    exact (List.count_eq_zero.mp hcount) hc
  have htw : (nm ++ '=' :: val).takeWhile (fun c => c ≠ '=') = nm := by
    rw [List.takeWhile_append_of_pos hnot]
    simp
  refine ⟨htw, ?_⟩
  obtain ⟨val', hval'⟩ := (get_fields_eq_pair (nm ++ '=' :: val)).1 h
  rw [htw] at hval'
  have hp := get_fields_pair _ _ _ hval'
  have : val = val' := by
    have := List.append_cancel_left hp
    simpa using this
  rw [hval', this]

/-- A name of a list without duplicates is counted once. -/
theorem count_of_nodup (l : List Str) (a : Str) (hnd : l.Nodup) (hm : a ∈ l) :
    l.count a = 1 := by
  induction l with
  | nil => cases hm
  | cons b rest ih =>
    rw [List.nodup_cons] at hnd
    rw [List.count_cons]
    by_cases hab : b = a
    · subst hab
      have : rest.count b = 0 := List.count_eq_zero.mpr hnd.1
      simp [this]
    · have hin : a ∈ rest := by
        rcases List.mem_cons.mp hm with h | h
        · exact absurd h.symm hab
        · exact h
      simp [ih hnd.2 hin, hab]

/-- C35: on a nine-field line with a non-empty seqid whose columns 4 to 8 pass
their checks and whose attribute pieces each hold one '=', let `nm=val` be the
last piece of the attributes column with the name `nm` (other pieces with that
name may come before it). Then parse_line succeeds (a non-empty record, `error`
left as it was), the record holds the name `nm` once, and the value under `nm`
is the one this last piece gives: the value set_attr (or set_attr_auto, with
auto-typing) stores for `val`. -/
theorem parse_line_duplicate_attr (stod : Str → Option double) (line error : Str)
    (linenum : Nat) (onlystrinval : Bool)
    (seqid source type start end_ score strand phase attributes : Str)
    (hf : utils.get_fields line '\t' =
      [seqid, source, type, start, end_, score, strand, phase, attributes])
    (hseq : seqid ≠ [])
    (hv : columns_valid stod start end_ score strand phase = true)
    (hall : ∀ p ∈ utils.get_fields (utils.trim attributes) ';', p.count '=' = 1)
    (pre post : List Str) (nm val : Str)
    (hpieces : utils.get_fields (utils.trim attributes) ';' =
      pre ++ [nm ++ '=' :: val] ++ post)
    (hlast : ∀ q ∈ post, q.takeWhile (fun c => c ≠ '=') ≠ nm) :
    (parse_line stod line error linenum onlystrinval).1.empty = false ∧
    (parse_line stod line error linenum onlystrinval).2 = error ∧
    ((parse_line stod line error linenum onlystrinval).1.attributes.map Prod.fst).count nm = 1 ∧
    (parse_line stod line error linenum onlystrinval).1.get_attr nm =
      (if onlystrinval then ({} : gff_data_t).set_attr nm (.string val)
       else ({} : gff_data_t).set_attr_auto stod nm val).get_attr nm := by
  obtain ⟨d0, ha, hs, hpl⟩ := parse_line_attrs_link stod line error linenum onlystrinval
    seqid source type start end_ score strand phase attributes hf hv
  obtain ⟨d', hd', hkeys, hnodup⟩ := (parse_line_attrs_spec stod onlystrinval
    (utils.get_fields (utils.trim attributes) ';') d0).2 hall
  rw [hd'] at hpl
  simp only at hpl
  have hframe := parse_line_attrs_frame stod onlystrinval _ _ _ hd'
  have hp1 : (nm ++ '=' :: val).count '=' = 1 :=
    hall _ (by rw [hpieces]; simp)
  obtain ⟨htw, hfs⟩ := piece_name nm val hp1
  obtain ⟨v, hval⟩ := parse_line_attrs_step_value stod onlystrinval val
  rw [hpl]
  refine ⟨?_, rfl, ?_, ?_⟩
  · simp only [gff_data_t.empty, gff_postition_t.empty, hframe.1, hs]
    simpa using hseq
  · apply count_of_nodup
    · apply hnodup
      rw [ha]
      simp
    · apply (hkeys nm).mpr
      right
      exact ⟨nm ++ '=' :: val, by rw [hpieces]; simp, htw.symm⟩
  · rw [hval, get_attr_set_attr]
    rw [hpieces, parse_line_attrs_append, parse_line_attrs_append] at hd'
    cases h1 : parse_line_attrs stod onlystrinval pre d0 with
    | none => rw [h1] at hd'; cases hd'
    | some d1 =>
      rw [h1] at hd'
      simp only [Option.some_bind] at hd'
      have h2 : parse_line_attrs stod onlystrinval [nm ++ '=' :: val] d1 =
          some (d1.set_attr nm v) := by
        rw [parse_line_attrs, hfs]
        simp only
        rw [hval, parse_line_attrs]
      rw [h2] at hd'
      simp only [Option.some_bind] at hd'
      have h3 := parse_line_attrs_other stod onlystrinval nm post _ _ hd' hlast
      simp only [gff_data_t.get_attr, h3, gff_data_t.set_attr, umap_find_assign, if_true]

/-- Witness of C35: the attributes column "ID=a;ID=b": the record holds ID
once, with the value of the last piece. -/
theorem parse_line_duplicate_attr_witness :
    (parse_line stod_unreached "chr1\tsrc\tgene\t1\t2\t.\t+\t.\tID=a;ID=b".toList [] 1
      false).1.empty = false ∧
    (parse_line stod_unreached "chr1\tsrc\tgene\t1\t2\t.\t+\t.\tID=a;ID=b".toList [] 1
      false).2 = [] ∧
    ((parse_line stod_unreached "chr1\tsrc\tgene\t1\t2\t.\t+\t.\tID=a;ID=b".toList [] 1
      false).1.attributes.map Prod.fst).count "ID".toList = 1 ∧
    (parse_line stod_unreached "chr1\tsrc\tgene\t1\t2\t.\t+\t.\tID=a;ID=b".toList [] 1
      false).1.get_attr "ID".toList =
      (if false then ({} : gff_data_t).set_attr "ID".toList (.string "b".toList)
       else ({} : gff_data_t).set_attr_auto stod_unreached "ID".toList "b".toList).get_attr
        "ID".toList :=
  parse_line_duplicate_attr stod_unreached
    "chr1\tsrc\tgene\t1\t2\t.\t+\t.\tID=a;ID=b".toList [] 1 false
    "chr1".toList "src".toList "gene".toList "1".toList "2".toList ".".toList "+".toList
    ".".toList "ID=a;ID=b".toList (by decide) (by decide) (by decide) (by decide)
    ["ID=a".toList] [] "ID".toList "b".toList (by decide) (by decide)

/-! ## The error message is never emptied (C36) -/

theorem thrproc_step_error (stod : Str → Option double) (onlystr : Bool) (t : thrproc_t)
    (out : List gff_data_tmp_t) (error : Str) (h : error ≠ []) :
    (thrproc_step stod onlystr t out error).2.2 ≠ [] := by
  by_cases hf : t.finished = true
  · simp [thrproc_step, hf, h]
  · cases htodo : t.todo with
    | nil =>
      by_cases ho : t.outtmp = []
      · simp [thrproc_step, hf, htodo, ho, h]
      · simp [thrproc_step, hf, htodo, ho, h]
    | cons d rest =>
      by_cases he : (parse_line stod d.data [] d.lnum onlystr).2 = []
      · simp [thrproc_step, hf, htodo, he, h]
      · simp [thrproc_step, hf, htodo, he, h]

theorem thrproc_steps_error_ne (stod : Str → Option double) (onlystr : Bool) :
    ∀ (n : Nat) (t : thrproc_t) (out : List gff_data_tmp_t) (error : Str), error ≠ [] →
      (thrproc_steps stod onlystr n t out error).2.2 ≠ [] := by
  intro n
  induction n with
  | zero => intro t out error h; exact h
  | succ n ih =>
    intro t out error h
    simp only [thrproc_steps]
    exact ih _ _ _ (thrproc_step_error stod onlystr t out error h)

theorem thrproc_join_error (stod : Str → Option double) (onlystr : Bool) (t : thrproc_t)
    (out : List gff_data_tmp_t) (error : Str) (h : error ≠ []) :
    (thrproc_join stod onlystr t out error).2 ≠ [] :=
  thrproc_steps_error_ne stod onlystr _ t out error h

theorem join_all_error (stod : Str → Option double) (onlystr : Bool) :
    ∀ (ts : List thrproc_t) (out : List gff_data_tmp_t) (error : Str), error ≠ [] →
      (join_all stod onlystr ts out error).2 ≠ [] := by
  intro ts
  induction ts with
  | nil => intro out error h; exact h
  | cons t rest ih =>
    intro out error h
    simp only [join_all]
    exact ih _ _ (thrproc_join_error stod onlystr t out error h)

theorem makeproc_error (stod : Str → Option double) (tp : thread_pool_t) (error : Str)
    (data : List thr_data_t) (sync : Bool) (h : error ≠ []) :
    (tp.makeproc stod error data sync).2 ≠ [] := by
  unfold thread_pool_t.makeproc
  split_ifs
  · exact thrproc_join_error stod _ _ _ _ (join_all_error stod _ _ _ _ h)
  · split
    · exact thrproc_join_error stod _ _ _ _ h
    · exact h
  · exact h

theorem push_error (stod : Str → Option double) (tp : thread_pool_t) (error line : Str)
    (n : Nat) (h : error ≠ []) : (tp.push stod error line n).2 ≠ [] := by
  unfold thread_pool_t.push
  simp only
  split_ifs
  · exact makeproc_error stod _ error _ false h
  · exact h

theorem pool_flush_error (stod : Str → Option double) (tp : thread_pool_t) (error : Str)
    (h : error ≠ []) : (tp.flush stod error).2 ≠ [] := by
  unfold thread_pool_t.flush
  split_ifs
  · exact join_all_error stod _ _ _ _ (makeproc_error stod _ error _ true h)
  · exact join_all_error stod _ _ _ _ h

theorem worker_step_error (stod : Str → Option double) (tp : thread_pool_t) (error : Str)
    (i : Nat) (h : error ≠ []) : (tp.worker_step stod error i).2 ≠ [] := by
  unfold thread_pool_t.worker_step
  split
  · exact h
  · exact thrproc_step_error stod _ _ _ _ h

theorem flush_error_ne (stod : Str → Option double) (p : gff_parser_t) (h : p._error ≠ []) :
    (p.flush stod)._error ≠ [] := by
  unfold gff_parser_t.flush
  split_ifs
  · exact h
  · simp only
    rw [(flush_index_loop_frame _ _ _).2.2.1]
    cases hp : p._thrpool with
    | none => exact h
    | some tp => exact pool_flush_error stod tp p._error h

theorem operator_lshift_line_error_ne (stod : Str → Option double) (p : gff_parser_t)
    (line : Str) (h : p._error ≠ []) : (p.operator_lshift_line stod line)._error ≠ [] := by
  unfold gff_parser_t.operator_lshift_line
  split_ifs
  · exact h
  · cases hp : p._thrpool with
    | some tp => exact push_error stod tp p._error line p._linenum h
    | none =>
      simp only
      have he := parse_line_error stod line p._error p._linenum p._onlystrval
      have hgoal : (parse_line stod line p._error p._linenum p._onlystrval).2 ≠ [] := by
        rw [he]
        split_ifs with h0
        · exact h
        · exact h0
      split_ifs <;> exact hgoal

theorem operator_lshift_error_ne (stod : Str → Option double) (p q : gff_parser_t)
    (line : Str) (h : p._error ≠ []) (hq : p.operator_lshift stod line = some q) :
    q._error ≠ [] := by
  unfold gff_parser_t.operator_lshift at hq
  simp only at hq
  split_ifs at hq with hl hz
  · cases hq
    exact h
  · split at hq
    · cases hq
      simp
    · split at hq
      · cases hq
      · split_ifs at hq
        · cases hq
          simp
        · cases hq
          exact operator_lshift_line_error_ne stod _ line h
  · cases hq
    exact operator_lshift_line_error_ne stod _ line h

theorem call_step_error_ne (stod : Str → Option double) (p q : gff_parser_t) (c : call)
    (h : p._error ≠ []) (hq : call_step stod p c = some q) : q._error ≠ [] := by
  cases c with
  | ingest l => exact operator_lshift_error_ne stod p q l h hq
  | flush =>
    simp only [call_step, Option.some.injEq] at hq
    rw [← hq]
    exact flush_error_ne stod p h
  | worker i =>
    simp only [call_step, step] at hq
    cases hp : p._thrpool with
    | none =>
      rw [hp] at hq
      simp only [Option.some.injEq] at hq
      rw [← hq]
      exact h
    | some tp =>
      rw [hp] at hq
      simp only [Option.some.injEq] at hq
      rw [← hq]
      exact worker_step_error stod tp p._error i h

theorem run_calls_error_ne (stod : Str → Option double) (cs : List call) :
    ∀ p q : gff_parser_t, p._error ≠ [] → run_calls stod p cs = some q → q._error ≠ [] := by
  induction cs with
  | nil =>
    intro p q h hq
    simp only [run_calls, Option.some.injEq] at hq
    rw [← hq]
    exact h
  | cons c rest ih =>
    intro p q h hq
    simp only [run_calls] at hq
    cases hc : call_step stod p c with
    | none => rw [hc] at hq; cases hq
    | some p1 =>
      rw [hc] at hq
      exact ih p1 q (call_step_error_ne stod p p1 c h hc) hq

/-- C36: the error state is sticky. From any parser state with has_error() true,
after any sequence of calls of operator<< and of flush (in pooled mode with the
steps of the workers interleaved in any order) has_error() is still true: no
call resets the error message to empty (a later failure may replace it by
another message). So neither a valid line nor a later valid header clears
it. -/
theorem error_sticky (stod : Str → Option double) (p q : gff_parser_t) (cs : List call)
    (herr : p.has_error = true) (hrun : run_calls stod p cs = some q) :
    q.has_error = true ∧ q.error ≠ [] := by
  have h : p._error ≠ [] := by simpa [gff_parser_t.has_error] using herr
  have hq := run_calls_error_ne stod cs p q h hrun
  exact ⟨by simpa [gff_parser_t.has_error] using hq, hq⟩

/-- Witness of C36: a synchronous parser that met a comment before the header
(error "gff-version tag doesn't found"), then fed the header and the feature
line of the example and flushed: the error is still set. -/
theorem error_sticky_witness :
    ∃ q, run_calls stod_unreached
        { gff_parser_t.init 0 false with
          _linenum := 1, _error := "gff-version tag doesn't found".toList }
        [.ingest (example_lines.getD 0 []), .ingest (example_lines.getD 1 []), .flush] =
          some q ∧
      q.has_error = true ∧ q.error ≠ [] ∧ q.size = 1 :=
  ⟨_, rfl,
    (error_sticky stod_unreached
      { gff_parser_t.init 0 false with
        _linenum := 1, _error := "gff-version tag doesn't found".toList } _
      [.ingest (example_lines.getD 0 []), .ingest (example_lines.getD 1 []), .flush]
      (by decide) rfl).1,
    (error_sticky stod_unreached
      { gff_parser_t.init 0 false with
        _linenum := 1, _error := "gff-version tag doesn't found".toList } _
      [.ingest (example_lines.getD 0 []), .ingest (example_lines.getD 1 []), .flush]
      (by decide) rfl).2,
    by decide⟩

/-! ## The store: no empty record, line numbers in order (C37) -/

/-- Along a synchronous run the store keeps its invariant: no record is empty,
every line number is at most the line counter, and the line numbers increase
along the store. -/
theorem run_store_inv (stod : Str → Option double) (evs : List event) :
    ∀ p s : gff_parser_t, p._thrpool = none →
      (∀ r ∈ p._data, r.empty = false ∧ r.linenum ≤ p._linenum) →
      (p._data.map (fun r => r.linenum)).Pairwise (fun a b => a < b) →
      run stod p evs = some s →
      s._thrpool = none ∧ (∀ r ∈ s._data, r.empty = false ∧ r.linenum ≤ s._linenum) ∧
        (s._data.map (fun r => r.linenum)).Pairwise (fun a b => a < b) := by
  induction evs with
  | nil =>
    intro p s hp h1 h2 hrun
    simp only [run, Option.some.injEq] at hrun
    subst hrun
    exact ⟨hp, h1, h2⟩
  | cons e rest ih =>
    intro p s hp h1 h2 hrun
    simp only [run] at hrun
    cases e with
    | worker i =>
      obtain ⟨q, hq, _, _, _, q4, _⟩ := worker_step_frame stod p i
      rw [hq] at hrun
      have := q4 hp
      subst this
      exact ih _ s hp h1 h2 hrun
    | line l =>
      simp only [step] at hrun
      rcases operator_lshift_cases stod p l with ⟨hn, _⟩ | ⟨q, hq, q1, _, q3, _⟩
      · rw [hn] at hrun
        cases hrun
      · rw [hq] at hrun
        obtain ⟨qp, qd⟩ := q3 hp
        refine ih q s qp ?_ ?_ hrun
        · intro r hr
          rcases qd with hsame | ⟨hne, happ⟩
          · rw [hsame] at hr
            obtain ⟨a, b⟩ := h1 r hr
            exact ⟨a, by rw [q1]; omega⟩
          · rw [happ] at hr
            rcases List.mem_append.mp hr with hr' | hr'
            · obtain ⟨a, b⟩ := h1 r hr'
              exact ⟨a, by rw [q1]; omega⟩
            · simp only [List.mem_singleton] at hr'
              rw [hr']
              refine ⟨hne, ?_⟩
              rw [parse_line_linenum stod l [] (p._linenum + 1) p._onlystrval hne, q1]
        · rcases qd with hsame | ⟨hne, happ⟩
          · rw [hsame]
            exact h2
          · rw [happ, List.map_append, List.pairwise_append]
            refine ⟨h2, by simp, ?_⟩
            intro a ha b hb
            simp only [List.map_cons, List.map_nil, List.mem_singleton] at hb
            obtain ⟨r, hr, rfl⟩ := List.mem_map.mp ha
            rw [hb, parse_line_linenum stod l [] (p._linenum + 1) p._onlystrval hne]
            have := (h1 r hr).2
            omega

/-- C37: along every run from a fresh parser in which no line fed is a version
header whose number does not fit an int (so that no call of operator<< is left
by the exception of std::stoi), in synchronous mode the store holds no
empty record (every seqid is non-empty) and the line numbers of its records
increase strictly along the store; and after flush, in synchronous mode and in
pooled mode with the steps of the workers interleaved in any order (so for any
order in which the batches complete), the store holds no empty record and its
line numbers increase strictly. -/
theorem store_invariant (stod : Str → Option double) (threads : Int) (onlystr : Bool)
    (evs : List event)
    (hno : ∀ l ∈ lines_of evs, ∀ ds, regex_match_gff_version l = some ds → stoi ds ≠ none) :
    ∃ s, run stod (gff_parser_t.init threads onlystr) evs = some s ∧
      (threads ≤ 0 →
        (∀ r ∈ s._data, r.empty = false ∧ r.position.seqid ≠ []) ∧
        (s._data.map (fun r => r.linenum)).Pairwise (fun a b => a < b)) ∧
      (∀ r ∈ (s.flush stod)._data, r.empty = false ∧ r.position.seqid ≠ []) ∧
      ((s.flush stod)._data.map (fun r => r.linenum)).Pairwise (fun a b => a < b) := by
  have hseq : ∀ r : gff_data_t, r.empty = false → r.position.seqid ≠ [] := by
    intro r hr
    simpa [gff_data_t.empty, gff_postition_t.empty] using hr
  have hsync : ∀ (es : List event) (s : gff_parser_t),
      run stod (gff_parser_t.init 0 onlystr) es = some s →
      s._thrpool = none ∧ (∀ r ∈ s._data, r.empty = false ∧ r.position.seqid ≠ []) ∧
        (s._data.map (fun r => r.linenum)).Pairwise (fun a b => a < b) := by
    intro es s hs
    obtain ⟨a, b, c⟩ := run_store_inv stod es (gff_parser_t.init 0 onlystr) s rfl
      (by simp [gff_parser_t.init]) (by simp [gff_parser_t.init]) hs
    exact ⟨a, fun r hr => ⟨(b r hr).1, hseq r (b r hr).1⟩, c⟩
  obtain ⟨s, hs, _⟩ := run_linenum stod evs (gff_parser_t.init threads onlystr) hno
  refine ⟨s, hs, ?_⟩
  by_cases ht : threads ≤ 0
  · have hinit : gff_parser_t.init threads onlystr =
        { gff_parser_t.init 0 onlystr with _threads := threads } := by
      have : ¬ threads > 0 := by omega
      simp [gff_parser_t.init, this]
    obtain ⟨a, b, c⟩ := run_store_inv stod evs (gff_parser_t.init threads onlystr) s
      (by rw [hinit]; rfl) (by rw [hinit]; simp [gff_parser_t.init])
      (by rw [hinit]; simp [gff_parser_t.init]) hs
    have hb : ∀ r ∈ s._data, r.empty = false ∧ r.position.seqid ≠ [] :=
      fun r hr => ⟨(b r hr).1, hseq r (b r hr).1⟩
    refine ⟨fun _ => ⟨hb, c⟩, ?_, ?_⟩
    · rw [flush_sync_data stod s a]
      exact hb
    · rw [flush_sync_data stod s a]
      exact c
  · have hN : threads ≥ 1 := by omega
    have hsim := run_sim stod evs _ _ [] (init_sim stod threads hN onlystr) (by simp)
    rw [hs] at hsim
    simp only [Option.map_some'] at hsim
    cases hs' : run stod (gff_parser_t.init 0 onlystr) (lines (lines_of evs)) with
    | none =>
      rw [hs'] at hsim
      cases hsim
    | some s' =>
      rw [hs'] at hsim
      simp only [Option.map_some', Option.some.injEq] at hsim
      obtain ⟨a, b, c⟩ := hsync _ s' hs'
      rw [flush_sync_data stod s' a] at hsim
      refine ⟨fun h => absurd h ht, ?_, ?_⟩
      · rw [hsim]
        exact b
      · rw [hsim]
        exact c

/-- Witness of C37: the two lines of the example with four threads, a step of
a worker scheduled between them. -/
theorem store_invariant_witness :
    ∃ s, run stod_unreached (gff_parser_t.init 4 false)
        [.line (example_lines.getD 0 []), .worker 0, .line (example_lines.getD 1 [])] =
          some s ∧
      ((4 : Int) ≤ 0 →
        (∀ r ∈ s._data, r.empty = false ∧ r.position.seqid ≠ []) ∧
        (s._data.map (fun r => r.linenum)).Pairwise (fun a b => a < b)) ∧
      (∀ r ∈ (s.flush stod_unreached)._data, r.empty = false ∧ r.position.seqid ≠ []) ∧
      ((s.flush stod_unreached)._data.map (fun r => r.linenum)).Pairwise (fun a b => a < b) :=
  store_invariant stod_unreached 4 false
    [.line (example_lines.getD 0 []), .worker 0, .line (example_lines.getD 1 [])] (by
    intro l hl ds hre
    have h1 : regex_match_gff_version "##gff-version 3".toList = some "3".toList := by decide
    have h2 : regex_match_gff_version
        "chr1\tHAVANA\tgene\t100\t200\t.\t+\t.\tgene_id=G1;gene_name=FOO".toList = none := by
      decide
    simp only [example_lines, List.getD_cons_zero, List.getD_cons_succ, lines_of,
      List.mem_cons, List.mem_singleton, List.not_mem_nil, or_false] at hl
    rcases hl with rfl | rfl
    · rw [h1] at hre
      cases hre
      decide
    · rw [h2] at hre
      cases hre)

end gffparser
